import Mathlib

/-!
# Invisibility compositor

A shallow embedding of `src/js/components/invisibility.js`: the cover-fit
projection, the white-cloth mask heuristic, the compositor's draw plan and the
frame scheduler of the two components `invisibilityComponent` (learned mask)
and `invisibilityCloakComponent` (heuristic mask).

JavaScript numbers are doubles.  The finite ones are embedded as the rationals
they denote, and the arithmetic of the projection, of the pixel classification
and of the viewport fit rounds each result to double precision with `fl` (53
significant bits, nearest, ties to even).  The exponent range is not part of
the model: overflow and gradual underflow cannot arise from canvas and video
sizes, channel values and thresholds.  Infinity and NaN have no embedding, so
a quotient by zero is outside it.  `x | 0` is embedded with its 32-bit
wrap-around.
-/

namespace Invisibility

/-! ## Double-precision rounding -/

/-- Nearest integer to a rational, ties to the even one. -/
def roundHalfEven (x : ℚ) : ℤ :=
  if x - ⌊x⌋ < 1 / 2 then ⌊x⌋
  else if 1 / 2 < x - ⌊x⌋ then ⌊x⌋ + 1
  else if ⌊x⌋ % 2 = 0 then ⌊x⌋ else ⌊x⌋ + 1

/-- Rounding of a non-negative rational to 53 significant bits: the
significand `q / 2^(e - 52)`, with `e` the binary exponent of `q`, is rounded
to an integer. -/
def flPos (q : ℚ) : ℚ :=
  (roundHalfEven (q / 2 ^ (Int.log 2 q - 52)) : ℚ) * 2 ^ (Int.log 2 q - 52)

/-- Rounding of a rational to double precision, the result of every
arithmetic operation on doubles (nearest, ties to even, symmetric in sign). -/
def fl (q : ℚ) : ℚ := if q < 0 then -flPos (-q) else flPos q

/-- Unit roundoff of double precision, `2^-53`. -/
def unitRoundoff : ℚ := 2 ^ (-53 : ℤ)

/-! ## Projection -/

/-- Destination rectangle handed to `ctx.drawImage(.., dx, dy, dw, dh)`. -/
structure Rect where
  dx : ℚ
  dy : ℚ
  dw : ℚ
  dh : ℚ
deriving DecidableEq, Repr

/-- The cover arithmetic of `_drawVideoTo` (lines 213-217), repeated verbatim for
the mask in `onResults` (240-244) and in `_processFrame` (710-714), each
operation rounded to a double.  It is the code's rectangle for a non-zero
source size; with `vw = 0` or `vh = 0` the code's quotient is Infinity or NaN
(see `coverFitNum`). -/
def coverFit (vw vh w h : ℚ) : Rect :=
  let s := max (fl (w / vw)) (fl (h / vh))
  let dw := fl (vw * s)
  let dh := fl (vh * s)
  let dx := fl (fl (w - dw) / 2)
  let dy := fl (fl (h - dh) / 2)
  { dx := dx, dy := dy, dw := dw, dh := dh }

/-- A JavaScript number: a finite double, an infinity, or NaN.  The zero is
+0 (every dimension here is a non-negative size). -/
inductive JSNum where
  | fin (q : ℚ)
  | posInf
  | negInf
  | nan
deriving DecidableEq, Repr

/-- JavaScript `a / b`. -/
def numDiv : JSNum → JSNum → JSNum
  | JSNum.fin x, JSNum.fin y =>
    if y = 0 then (if x = 0 then JSNum.nan else if 0 < x then JSNum.posInf else JSNum.negInf)
    else JSNum.fin (fl (x / y))
  | JSNum.fin _, JSNum.posInf => JSNum.fin 0
  | JSNum.fin _, JSNum.negInf => JSNum.fin 0
  | JSNum.posInf, JSNum.fin y => if 0 ≤ y then JSNum.posInf else JSNum.negInf
  | JSNum.negInf, JSNum.fin y => if 0 ≤ y then JSNum.negInf else JSNum.posInf
  | _, _ => JSNum.nan

/-- JavaScript `a * b`. -/
def numMul : JSNum → JSNum → JSNum
  | JSNum.fin x, JSNum.fin y => JSNum.fin (fl (x * y))
  | JSNum.fin x, JSNum.posInf =>
    if x = 0 then JSNum.nan else if 0 < x then JSNum.posInf else JSNum.negInf
  | JSNum.fin x, JSNum.negInf =>
    if x = 0 then JSNum.nan else if 0 < x then JSNum.negInf else JSNum.posInf
  | JSNum.posInf, JSNum.fin y =>
    if y = 0 then JSNum.nan else if 0 < y then JSNum.posInf else JSNum.negInf
  | JSNum.negInf, JSNum.fin y =>
    if y = 0 then JSNum.nan else if 0 < y then JSNum.negInf else JSNum.posInf
  | JSNum.posInf, JSNum.posInf => JSNum.posInf
  | JSNum.posInf, JSNum.negInf => JSNum.negInf
  | JSNum.negInf, JSNum.posInf => JSNum.negInf
  | JSNum.negInf, JSNum.negInf => JSNum.posInf
  | _, _ => JSNum.nan

/-- JavaScript `a - b`. -/
def numSub : JSNum → JSNum → JSNum
  | JSNum.fin x, JSNum.fin y => JSNum.fin (fl (x - y))
  | JSNum.fin _, JSNum.posInf => JSNum.negInf
  | JSNum.fin _, JSNum.negInf => JSNum.posInf
  | JSNum.posInf, JSNum.fin _ => JSNum.posInf
  | JSNum.negInf, JSNum.fin _ => JSNum.negInf
  | JSNum.posInf, JSNum.negInf => JSNum.posInf
  | JSNum.negInf, JSNum.posInf => JSNum.negInf
  | _, _ => JSNum.nan

/-- JavaScript `Math.max(a, b)`: NaN when either argument is. -/
def mathMax : JSNum → JSNum → JSNum
  | JSNum.nan, _ => JSNum.nan
  | _, JSNum.nan => JSNum.nan
  | JSNum.posInf, _ => JSNum.posInf
  | _, JSNum.posInf => JSNum.posInf
  | JSNum.negInf, b => b
  | a, JSNum.negInf => a
  | JSNum.fin x, JSNum.fin y => JSNum.fin (max x y)

/-- A destination rectangle whose entries may be non-finite. -/
structure RectNum where
  dx : JSNum
  dy : JSNum
  dw : JSNum
  dh : JSNum
deriving DecidableEq, Repr

/-- A finite rectangle as a rectangle of JavaScript numbers. -/
def Rect.toNum (r : Rect) : RectNum :=
  { dx := JSNum.fin r.dx, dy := JSNum.fin r.dy, dw := JSNum.fin r.dw, dh := JSNum.fin r.dh }

/-- The cover arithmetic of lines 213-217 / 240-244 / 710-714 on JavaScript
numbers, with the division by a zero source dimension carried out. -/
def coverFitNum (vw vh w h : ℚ) : RectNum :=
  let s := mathMax (numDiv (JSNum.fin w) (JSNum.fin vw)) (numDiv (JSNum.fin h) (JSNum.fin vh))
  let dw := numMul (JSNum.fin vw) s
  let dh := numMul (JSNum.fin vh) s
  let dx := numDiv (numSub (JSNum.fin w) dw) (JSNum.fin 2)
  let dy := numDiv (numSub (JSNum.fin h) dh) (JSNum.fin 2)
  { dx := dx, dy := dy, dw := dw, dh := dh }

/-- The cover arithmetic in exact arithmetic, as the projection is described:
`s = max(w/vw, h/vh)`, size `(vw*s, vh*s)`, offsets `((w-dw)/2, (h-dh)/2)`. -/
def coverFitExact (vw vh w h : ℚ) : Rect :=
  let s := max (w / vw) (h / vh)
  let dw := vw * s
  let dh := vh * s
  let dx := (w - dw) / 2
  let dy := (h - dh) / 2
  { dx := dx, dy := dy, dw := dw, dh := dh }

/-- JavaScript `a || b` on numbers: `b` when `a` is falsy (zero). -/
def orElse (a b : ℚ) : ℚ := if a = 0 then b else a

/-- Rectangle used by `_drawVideoTo(ctx, w, h)`: the source size is
`video.videoWidth || _internalW` by `video.videoHeight || _internalH`. -/
def drawVideoTo (videoWidth videoHeight internalW internalH w h : ℚ) : Rect :=
  let vw := orElse videoWidth internalW
  let vh := orElse videoHeight internalH
  coverFit vw vh w h


/-! ## Heuristic mask: `_detectWhiteCloth` -/

/-- The acceptance test of the first pass for one pixel (lines 597-616):
brightness, saturation, the four flags and their combination, each sum,
quotient and product rounded to a double.  `0.75` and `0.25` are doubles;
the literal `0.7` is the double `fl 0.7`. -/
def isWhiteCloth (threshold : ℚ) (r g b : ℕ) : Bool :=
  let brightness : ℚ := fl (fl (fl ((r : ℚ) + g) + b) / 3)
  let maxChannel : ℕ := max r (max g b)
  let minChannel : ℕ := min r (min g b)
  let saturation : ℚ :=
    if maxChannel > 0 then fl (fl ((maxChannel : ℚ) - minChannel) / maxChannel) else 0
  let isHighBrightness : Bool := decide (brightness > fl (threshold * 0.75))
  let isLowSaturation : Bool := decide (saturation < 0.25)
  let isWhiteish : Bool :=
    decide ((r : ℚ) > fl (threshold * fl 0.7)) && decide ((g : ℚ) > fl (threshold * fl 0.7))
      && decide ((b : ℚ) > fl (threshold * fl 0.7))
  let hasWhiteBalance : Bool :=
    decide (|(r : ℤ) - g| < 40) && decide (|(g : ℤ) - b| < 40) && decide (|(b : ℤ) - r| < 40)
  (isHighBrightness && isLowSaturation) || (isWhiteish && hasWhiteBalance)
    || decide (brightness > fl (threshold + 30))

/-- First pass (lines 591-627) over the flat RGBA buffer `data`, four entries
per pixel; the alpha entry of the input is not read.  `ImageData` buffers have
a length that is a multiple of four. -/
def firstPass (threshold : ℚ) : List ℕ → List ℕ
  | r :: g :: b :: _ :: rest =>
    (if isWhiteCloth threshold r g b then [255, 255, 255, 255] else [0, 0, 0, 0])
      ++ firstPass threshold rest
  | _ => []

/-- Half-width of the neighbourhood (`const kernelSize = 3`). -/
def kernelSize : ℕ := 3

/-- The values taken by `dy` and `dx` in the loops
`for (let d = -kernelSize; d <= kernelSize; d++)`. -/
def offsets : List ℤ := (List.range (2 * kernelSize + 1)).map (fun i => (i : ℤ) - kernelSize)

/-- The two nested neighbourhood loops (lines 638-652): returns
`(whiteNeighbors, totalNeighbors)` for the pixel `(x, y)`. -/
def countNeighbors (width height : ℕ) (maskData : List ℕ) (x y : ℕ) : ℕ × ℕ :=
  offsets.foldl (fun acc dy =>
    offsets.foldl (fun acc dx =>
      let ny : ℤ := (y : ℤ) + dy
      let nx : ℤ := (x : ℤ) + dx
      if 0 ≤ ny ∧ ny < height ∧ 0 ≤ nx ∧ nx < width then
        let nIdx : ℤ := (ny * width + nx) * 4
        if maskData.getD (nIdx + 3).toNat 0 > 0 then (acc.1 + 1, acc.2 + 1)
        else (acc.1, acc.2 + 1)
      else acc) acc) (0, 0)

/-- The four entries written to `smoothedMask` for the pixel `(x, y)`
(lines 635-667). -/
def smoothPixel (width height : ℕ) (maskData : List ℕ) (x y : ℕ) : List ℕ :=
  let idx := (y * width + x) * 4
  let counts := countNeighbors width height maskData x y
  let whiteRatio : ℚ := (counts.1 : ℚ) / (counts.2 : ℚ)
  if whiteRatio > 0.3 ∨ maskData.getD (idx + 3) 0 > 0 then [255, 255, 255, 255]
  else [0, 0, 0, 0]

/-- Second pass (lines 633-669): rows `y = 0 .. height-1`, columns
`x = 0 .. width-1`, written in index order. -/
def secondPass (width height : ℕ) (maskData : List ℕ) : List ℕ :=
  (List.range height).flatMap (fun y =>
    (List.range width).flatMap (fun x => smoothPixel width height maskData x y))

/-- The buffer of the `ImageData` returned by `_detectWhiteCloth`, for the
frame `data` read from the `width` by `height` work canvas. -/
def detectWhiteCloth (threshold : ℚ) (width height : ℕ) (data : List ℕ) : List ℕ :=
  secondPass width height (firstPass threshold data)

/-- Pixel number `p` of an RGBA buffer has all four channels 255. -/
def Opaque (m : List ℕ) (p : ℕ) : Prop :=
  m.getD (4 * p) 0 = 255 ∧ m.getD (4 * p + 1) 0 = 255 ∧ m.getD (4 * p + 2) 0 = 255
    ∧ m.getD (4 * p + 3) 0 = 255

/-- Pixel number `p` of an RGBA buffer has all four channels 0. -/
def Transparent (m : List ℕ) (p : ℕ) : Prop :=
  m.getD (4 * p) 0 = 0 ∧ m.getD (4 * p + 1) 0 = 0 ∧ m.getD (4 * p + 2) 0 = 0
    ∧ m.getD (4 * p + 3) 0 = 0

instance (m : List ℕ) (p : ℕ) : Decidable (Opaque m p) := by
  unfold Opaque; infer_instance

instance (m : List ℕ) (p : ℕ) : Decidable (Transparent m p) := by
  unfold Transparent; infer_instance

/-- The in-bounds positions of the 7x7 window centred on `(x, y)`, as the
morphological pass is described: `(nx, ny)` with `|nx - x| <= 3`,
`|ny - y| <= 3`, inside the `width` by `height` image. -/
def window (width height x y : ℕ) : Finset (ℤ × ℤ) :=
  ((Finset.Icc ((x : ℤ) - 3) (x + 3)) ×ˢ (Finset.Icc ((y : ℤ) - 3) (y + 3))).filter
    (fun q => 0 ≤ q.1 ∧ q.1 < width ∧ 0 ≤ q.2 ∧ q.2 < height)

/-- The positions of the window whose pixel is opaque in the mask `m`. -/
def windowOpaque (m : List ℕ) (width height x y : ℕ) : Finset (ℤ × ℤ) :=
  (window width height x y).filter (fun q => Opaque m (q.2.toNat * width + q.1.toNat))

/-- The fraction (opaque pixels) / (pixels) over the clipped window. -/
def windowRatio (m : List ℕ) (width height x y : ℕ) : ℚ :=
  ((windowOpaque m width height x y).card : ℚ) / ((window width height x y).card : ℚ)

/-- Brightness as the classification pass is described: the mean of the
three colour channels. -/
def brightnessOf (r g b : ℕ) : ℚ := ((r : ℚ) + g + b) / 3

/-- Saturation as the classification pass is described: (max - min) / max,
taken as 0 when max = 0. -/
def saturationOf (r g b : ℕ) : ℚ :=
  if max r (max g b) = 0 then 0
  else (((max r (max g b) : ℕ) : ℚ) - ((min r (min g b) : ℕ) : ℚ)) / ((max r (max g b) : ℕ) : ℚ)

/-- Rule (i): brightness above 0.75 t and saturation below 0.25. -/
def ruleBright (t : ℚ) (r g b : ℕ) : Prop :=
  brightnessOf r g b > 0.75 * t ∧ saturationOf r g b < 0.25

/-- Rule (ii): every channel above 0.7 t and pairwise differences below 40. -/
def ruleBalanced (t : ℚ) (r g b : ℕ) : Prop :=
  ((r : ℚ) > 0.7 * t ∧ (g : ℚ) > 0.7 * t ∧ (b : ℚ) > 0.7 * t) ∧
  (|(r : ℤ) - g| < 40 ∧ |(g : ℤ) - b| < 40 ∧ |(b : ℤ) - r| < 40)

/-- Rule (iii): brightness above t + 30. -/
def ruleVeryBright (t : ℚ) (r g b : ℕ) : Prop :=
  brightnessOf r g b > t + 30

/-- Brightness in double arithmetic: the mean of the three channels, the
sums and the quotient rounded. -/
def brightnessDouble (r g b : ℕ) : ℚ := fl (fl (fl ((r : ℚ) + g) + b) / 3)

/-- Saturation in double arithmetic: (max - min) / max rounded, taken as 0
when max = 0. -/
def saturationDouble (r g b : ℕ) : ℚ :=
  if max r (max g b) = 0 then 0
  else fl (fl (((max r (max g b) : ℕ) : ℚ) - ((min r (min g b) : ℕ) : ℚ))
    / ((max r (max g b) : ℕ) : ℚ))

/-- Rule (i) in double arithmetic: brightness above the double product
0.75 t and saturation below 0.25. -/
def ruleBrightDouble (t : ℚ) (r g b : ℕ) : Prop :=
  brightnessDouble r g b > fl (0.75 * t) ∧ saturationDouble r g b < 0.25

/-- Rule (ii) in double arithmetic: every channel above the double product
of the double 0.7 and t, and pairwise differences below 40. -/
def ruleBalancedDouble (t : ℚ) (r g b : ℕ) : Prop :=
  ((r : ℚ) > fl (fl 0.7 * t) ∧ (g : ℚ) > fl (fl 0.7 * t) ∧ (b : ℚ) > fl (fl 0.7 * t)) ∧
  (|(r : ℤ) - g| < 40 ∧ |(g : ℤ) - b| < 40 ∧ |(b : ℤ) - r| < 40)

/-- Rule (iii) in double arithmetic: brightness above the double sum t + 30. -/
def ruleVeryBrightDouble (t : ℚ) (r g b : ℕ) : Prop :=
  brightnessDouble r g b > fl (t + 30)

/-! ## Compositor: canvas commands -/

/-- Values of `ctx.globalCompositeOperation` used by the components. -/
inductive Composite where
  | sourceOver
  | destinationOut
  | destinationOver
deriving DecidableEq, Repr

/-- Image sources passed to `drawImage`; the video frame, the segmentation
mask and the plate carry their pixels. -/
inductive Source where
  | video (frame : List ℕ)
  | segmentationMask (pixels : List ℕ)
  | bgCanvas (pixels : List ℕ)
  | tempCanvas
  | maskCanvas
deriving DecidableEq, Repr

/-- Calls on a 2D context.  `setFilter none` is `filter = 'none'`,
`setFilter (some r)` is `filter = 'blur(r px)'`. -/
inductive Op where
  | save
  | restore
  | clearRect (x y w h : ℚ)
  | translate (x y : ℚ)
  | scale (x y : ℚ)
  | setComposite (c : Composite)
  | setFilter (blur : Option ℚ)
  | drawImage (src : Source) (sx sy sw sh : ℚ) (dst : Rect)
  | drawImageAt (src : Source) (dx dy : ℚ)
  | drawImageSized (src : Source) (dx dy dw dh : ℚ)
  | putImageData (pixels : List ℕ) (dx dy : ℚ)
deriving DecidableEq, Repr

/-- The contexts a component draws on. -/
inductive Surface where
  | out
  | bg
  | work
  | temp
  | mask
deriving DecidableEq, Repr

/-- A context call together with the context it is made on. -/
abbrev Cmd := Surface × Op

/-! ## Component state -/

/-- The component's `data` (schema values). -/
structure Config where
  enabled : Bool
  blur : ℚ
  mirror : Bool
  whiteThreshold : ℚ
deriving DecidableEq, Repr

/-- The `<video>` element as the components read it; `frame` is the RGBA
buffer `getImageData` returns once the frame is drawn on the work canvas. -/
structure Video where
  videoWidth : ℕ
  videoHeight : ℕ
  readyState : ℕ
  frame : List ℕ
deriving DecidableEq, Repr

/-- A canvas: backing-store size and content. -/
structure Canvas where
  width : ℕ
  height : ℕ
  pixels : List ℕ
deriving DecidableEq, Repr

/-- The argument of `onResults`. -/
structure Results where
  imageWidth : ℕ
  imageHeight : ℕ
  segmentationMask : List ℕ
deriving DecidableEq, Repr

/-- Fields of a component instance (both components; the work, temp and mask
canvases exist in the heuristic one only).  `pendingFrame` is true while the
frame callback whose id is kept in `_frameId` is registered and has neither
fired nor been cancelled.  `inFlight` is not a field of the source: it counts
the `segmenter.send` calls awaited and not yet settled. -/
structure Component where
  data : Config
  video : Option Video
  sending : Bool
  bgReady : Bool
  cloakEnabled : Bool
  pendingFrame : Bool
  gotFirstResult : Bool
  paused : Bool
  alive : Bool
  displayed : Bool
  outCanvas : Canvas
  bgCanvas : Canvas
  workCanvas : Canvas
  tempCanvas : Canvas
  maskCanvas : Canvas
  internalW : ℕ
  internalH : ℕ
  dpr : Option ℚ
  inFlight : ℕ
deriving DecidableEq, Repr

/-- JavaScript `x | 0`: truncate toward zero, then wrap modulo 2^32 into
the signed 32-bit range. -/
def toInt32 (x : ℚ) : ℤ :=
  let n : ℤ := if 0 ≤ x then ⌊x⌋ else ⌈x⌉
  (n + 2 ^ 31) % 2 ^ 32 - 2 ^ 31

/-- The integer radius `Math.max(0, this.data.blur | 0)`. -/
def blurBase (c : Component) : ℤ := max 0 (toInt32 c.data.blur)

/-- The pixel ratio `this._dpr || 1`. -/
def dprOr1 (c : Component) : ℚ :=
  match c.dpr with
  | some d => if d = 0 then 1 else d
  | none => 1

/-- The device-pixel radius `blurBase * (this._dpr || 1)`. -/
def blurPx (c : Component) : ℚ := (blurBase c : ℚ) * dprOr1 c

/-- The condition `this.data.enabled && this.cloakEnabled && this.bgReady`. -/
def effectActive (c : Component) : Bool := c.data.enabled && c.cloakEnabled && c.bgReady

/-- The `drawImage` call of `_drawVideoTo(ctx, w, h)` (line 219 / 562). -/
def drawVideoCall (c : Component) (v : Video) (w h : ℚ) : Op :=
  let vw := orElse v.videoWidth c.internalW
  let vh := orElse v.videoHeight c.internalH
  Op.drawImage (Source.video v.frame) 0 0 vw vh
    (drawVideoTo v.videoWidth v.videoHeight c.internalW c.internalH w h)

/-- Lines 231-234 / 690-693: the mirror transform. -/
def mirrorOps (c : Component) (W : ℚ) : List Op :=
  if c.data.mirror then [Op.translate W 0, Op.scale (-1) 1] else []

/-- Update of `_gotFirstResult` and of the overlay's `display` style
(lines 305-308 / 677-680). -/
def markFirstResult (c : Component) : Component :=
  if !c.gotFirstResult then
    { c with gotFirstResult := true, displayed := if c.data.enabled then true else c.displayed }
  else c

/-! ## Compositor: learned variant -/

/-- The mask draws of `onResults` (lines 248-284). -/
def maskOps (c : Component) (results : Results) : List Op :=
  let vw : ℚ := results.imageWidth
  let vh : ℚ := results.imageHeight
  let W : ℚ := c.outCanvas.width
  let H : ℚ := c.outCanvas.height
  let dst := coverFit vw vh W H
  let draw := Op.drawImage (Source.segmentationMask results.segmentationMask) 0 0 vw vh dst
  if blurPx c > 0 then
    Op.setComposite Composite.destinationOut ::
      (if blurBase c > 12 then
        let passes : ℤ := min 3 ⌊(blurBase c : ℚ) / 8⌋
        let passBlur : ℚ := blurPx c / passes
        (List.range passes.toNat).flatMap (fun _ => [Op.setFilter (some passBlur), draw])
      else
        [Op.setFilter (some (blurPx c)), draw])
  else
    [Op.setComposite Composite.destinationOut, draw]

/-- The plate draw at the end of the effect branch (lines 286-300 / 741-754). -/
def plateOps (c : Component) : List Op :=
  [Op.setComposite Composite.destinationOver,
   Op.drawImage (Source.bgCanvas c.bgCanvas.pixels) 0 0 c.bgCanvas.width c.bgCanvas.height
     { dx := 0, dy := 0, dw := c.outCanvas.width, dh := c.outCanvas.height }]

/-- The context calls of `onResults(results)` on `outCtx`, in order, for the
video element `v`. -/
def onResultsOps (c : Component) (v : Video) (results : Results) : List Op :=
  let W : ℚ := c.outCanvas.width
  let H : ℚ := c.outCanvas.height
  [Op.save, Op.clearRect 0 0 W H]
    ++ mirrorOps c W
    ++ [drawVideoCall c v W H]
    ++ (if effectActive c then maskOps c results ++ [Op.setFilter none] ++ plateOps c else [])
    ++ [Op.restore]

/-- Method `onResults(results)`: the calls made and the component afterwards. -/
def onResults (c : Component) (v : Video) (results : Results) : Component × List Cmd :=
  (markFirstResult c, (onResultsOps c v results).map (fun o => (Surface.out, o)))

/-- The calls `onResults` makes before `this.video.videoWidth` throws when no
video element was found. -/
def onResultsNoVideo (c : Component) : List Cmd :=
  ([Op.save, Op.clearRect 0 0 c.outCanvas.width c.outCanvas.height]
    ++ mirrorOps c c.outCanvas.width).map (fun o => (Surface.out, o))

/-! ## Compositor: heuristic variant -/

/-- The blur step of `_processFrame` on the temp canvas (lines 728-735). -/
def tempBlurOps (c : Component) : List Cmd :=
  if blurPx c > 0 then
    [(Surface.temp, Op.setFilter (some (blurPx c))),
     (Surface.temp, Op.drawImageAt Source.tempCanvas 0 0),
     (Surface.temp, Op.setFilter none)]
  else []

/-- The effect branch of `_processFrame` (lines 697-754) for the video `v`. -/
def cloakOps (c : Component) (v : Video) : List Cmd :=
  let W : ℚ := c.outCanvas.width
  let H : ℚ := c.outCanvas.height
  let whiteMask := detectWhiteCloth c.data.whiteThreshold c.workCanvas.width c.workCanvas.height
    v.frame
  let vw : ℚ := c.workCanvas.width
  let vh : ℚ := c.workCanvas.height
  let dst := coverFit vw vh W H
  [(Surface.work, Op.drawImageSized (Source.video v.frame) 0 0 vw vh),
   (Surface.mask, Op.putImageData whiteMask 0 0),
   (Surface.temp, Op.clearRect 0 0 W H),
   (Surface.temp, Op.drawImage Source.maskCanvas 0 0 vw vh dst)]
    ++ tempBlurOps c
    ++ [(Surface.out, Op.setComposite Composite.destinationOut),
        (Surface.out, Op.drawImageAt Source.tempCanvas 0 0)]
    ++ (plateOps c).map (fun o => (Surface.out, o))

/-- The context calls of `_processFrame()`, in order. -/
def processFrameCmds (c : Component) (v : Video) : List Cmd :=
  let W : ℚ := c.outCanvas.width
  let H : ℚ := c.outCanvas.height
  ([Op.save, Op.clearRect 0 0 W H] ++ mirrorOps c W ++ [drawVideoCall c v W H]).map
      (fun o => (Surface.out, o))
    ++ (if effectActive c then cloakOps c v else [])
    ++ [(Surface.out, Op.restore)]

/-- The canvases after `_processFrame()`: the temp canvas takes the output
size and the mask canvas the work size when the effect branch runs. -/
def resizeScratch (c : Component) : Component :=
  if effectActive c then
    { c with
      tempCanvas := { c.tempCanvas with width := c.outCanvas.width, height := c.outCanvas.height },
      maskCanvas := { c.maskCanvas with width := c.workCanvas.width, height := c.workCanvas.height } }
  else c

/-- Method `_processFrame()`: the calls made and the component afterwards. -/
def processFrame (c : Component) (v : Video) : Component × List Cmd :=
  (resizeScratch (markFirstResult c), processFrameCmds c v)

/-! ## Reading a command list -/

/-- The part of a context's state the compositor changes. -/
structure CtxState where
  composite : Composite
  filter : Option ℚ
deriving DecidableEq, Repr

/-- One `drawImage` as it is executed: what is drawn, under which composite
operation and filter. -/
structure Draw where
  src : Source
  composite : Composite
  filter : Option ℚ
deriving DecidableEq, Repr

/-- Runs the calls made on one context, from state `st` with the stack of
saved states `stack`, and lists the image draws in order. -/
def draws : List Op → CtxState → List CtxState → List Draw
  | [], _, _ => []
  | Op.save :: ops, st, stack => draws ops st (st :: stack)
  | Op.restore :: ops, st, stack =>
    match stack with
    | [] => draws ops st []
    | top :: rest => draws ops top rest
  | Op.setComposite m :: ops, st, stack => draws ops { st with composite := m } stack
  | Op.setFilter f :: ops, st, stack => draws ops { st with filter := f } stack
  | Op.drawImage src _ _ _ _ _ :: ops, st, stack =>
    { src := src, composite := st.composite, filter := st.filter } :: draws ops st stack
  | Op.drawImageAt src _ _ :: ops, st, stack =>
    { src := src, composite := st.composite, filter := st.filter } :: draws ops st stack
  | Op.drawImageSized src _ _ _ _ :: ops, st, stack =>
    { src := src, composite := st.composite, filter := st.filter } :: draws ops st stack
  | _ :: ops, st, stack => draws ops st stack

/-- A fresh context: `source-over`, no filter. -/
def CtxState.initial : CtxState := { composite := Composite.sourceOver, filter := none }

/-- The calls of a command list made on the context `s`. -/
def opsOn (s : Surface) (cmds : List Cmd) : List Op :=
  (cmds.filter (fun cmd => cmd.1 = s)).map Prod.snd

/-- The image draws made on the context `s`. -/
def drawsOn (s : Surface) (cmds : List Cmd) : List Draw :=
  draws (opsOn s cmds) CtxState.initial []

/-- Erase draws: draws on the output under `destination-out`. -/
def eraseDraws (cmds : List Cmd) : List Draw :=
  (drawsOn Surface.out cmds).filter (fun d => d.composite = Composite.destinationOut)

/-- Reveal draws: draws on the output under `destination-over`. -/
def revealDraws (cmds : List Cmd) : List Draw :=
  (drawsOn Surface.out cmds).filter (fun d => d.composite = Composite.destinationOver)

/-- The radii of the blurred draws made on the context `s`, in order. -/
def blurPasses (s : Surface) (cmds : List Cmd) : List ℚ :=
  (drawsOn s cmds).filterMap (fun d => d.filter)

/-- The output of a frame with the effect off, as the compositor is
described: clear, then the cover-fit video, mirrored when `mirror` is set.
Neither the plate nor the mask is an argument. -/
def videoOnly (mirror : Bool) (W H : ℕ) (v : Video) (internalW internalH : ℕ) : List Cmd :=
  let dst := drawVideoTo v.videoWidth v.videoHeight internalW internalH W H
  let src := Op.drawImage (Source.video v.frame) 0 0
    (orElse v.videoWidth internalW) (orElse v.videoHeight internalH) dst
  if mirror then
    [(Surface.out, Op.save), (Surface.out, Op.clearRect 0 0 W H),
     (Surface.out, Op.translate W 0), (Surface.out, Op.scale (-1) 1),
     (Surface.out, src), (Surface.out, Op.restore)]
  else
    [(Surface.out, Op.save), (Surface.out, Op.clearRect 0 0 W H),
     (Surface.out, src), (Surface.out, Op.restore)]

/-- The mask draws of `onResults`, as executed. -/
def maskDrawList (c : Component) (results : Results) : List Draw :=
  if blurPx c > 0 then
    if blurBase c > 12 then
      List.replicate (min 3 ⌊(blurBase c : ℚ) / 8⌋).toNat
        { src := Source.segmentationMask results.segmentationMask,
          composite := Composite.destinationOut,
          filter := some (blurPx c / ((min 3 ⌊(blurBase c : ℚ) / 8⌋ : ℤ) : ℚ)) }
    else
      [{ src := Source.segmentationMask results.segmentationMask,
         composite := Composite.destinationOut, filter := some (blurPx c) }]
  else
    [{ src := Source.segmentationMask results.segmentationMask,
       composite := Composite.destinationOut, filter := none }]

/-- The blur plan as the feathering step is described, for the integer
logical radius `b` and the device pixel ratio `dpr`: the filter of each mask
draw (`none` is an unblurred draw). -/
def blurPlan (b : ℤ) (dpr : ℚ) : List (Option ℚ) :=
  if b = 0 then [none]
  else if b ≤ 12 then [some ((b : ℚ) * dpr)]
  else List.replicate (min 3 ⌊(b : ℚ) / 8⌋).toNat
    (some ((b : ℚ) * dpr / ((min 3 ⌊(b : ℚ) / 8⌋ : ℤ) : ℚ)))

/-! ## Frame scheduler -/

/-- The two components. -/
inductive Variant where
  | learned
  | heuristic
deriving DecidableEq, Repr

/-- What one callback did: mask requests submitted (`segmenter.send` or
`_processFrame` calls), context calls made, and whether it registered a frame
callback. -/
structure Effect where
  requests : ℕ
  cmds : List Cmd
  registered : Bool
deriving DecidableEq, Repr

/-- A callback that did nothing observable. -/
def Effect.idle : Effect := { requests := 0, cmds := [], registered := false }

/-- Closure `scheduleNext()` (lines 97-141 / 435-479): returns at once when not alive,
else registers the frame callback; both branches of `useRVFC` register the
same callback body. -/
def scheduleNext (c : Component) : Component × Bool :=
  if !c.alive then (c, false) else ({ c with pendingFrame := true }, true)

/-- The guard `this.video?.readyState >= 2`. -/
def videoReady (c : Component) : Bool :=
  match c.video with
  | some v => decide (v.readyState ≥ 2)
  | none => false

/-- The guard of the frame callback:
`data.enabled && !_paused && video?.readyState >= 2 && !sending`. -/
def canSubmit (c : Component) : Bool :=
  c.data.enabled && !c.paused && videoReady c && !c.sending

/-- The frame callback of the learned component up to its `await`
(lines 101-111): when the guard holds it sets `sending` and calls
`segmenter.send`, and the rest of the body runs in `afterSend`; otherwise it
runs to its end, `scheduleNext()`. -/
def frameCallback (c : Component) : Component × Effect :=
  if !c.alive then (c, Effect.idle)
  else if canSubmit c then
    ({ c with sending := true, inFlight := c.inFlight + 1 },
     { requests := 1, cmds := [], registered := false })
  else
    ((scheduleNext c).1, { requests := 0, cmds := [], registered := (scheduleNext c).2 })

/-- The rest of the learned frame callback once the awaited `segmenter.send`
settles (lines 112-118): `catch` only logs, `finally` resets `sending`, then
`scheduleNext()`.  `ok` tells whether the promise resolved. -/
def afterSend (c : Component) (_ok : Bool) : Component × Effect :=
  let c1 := { c with sending := false, inFlight := c.inFlight - 1 }
  ((scheduleNext c1).1, { requests := 0, cmds := [], registered := (scheduleNext c1).2 })

/-- The number of context calls `_processFrame` has made once the mask is
put on the mask canvas: the clear, the mirror transform, the video draw, the
work-canvas draw and `putImageData`.  The temp and mask canvases are resized
between the last two (lines 701-704, 717-720). -/
def callsThroughMaskPut (c : Component) : ℕ :=
  ([Op.save, Op.clearRect 0 0 c.outCanvas.width c.outCanvas.height]
    ++ mirrorOps c c.outCanvas.width).length + 3

/-- The component after a run of `_processFrame` that throws once `n` context
calls are made: `_gotFirstResult` is set at the start, and the scratch canvases
are resized when the run got as far as `putImageData`.  A throw right after
the work-canvas draw is that of `getImageData` inside `_detectWhiteCloth`,
before the resizes. -/
def afterThrow (c : Component) (n : ℕ) : Component :=
  if callsThroughMaskPut c ≤ n then resizeScratch (markFirstResult c) else markFirstResult c

/-- The frame callback of the heuristic component (lines 439-457), which is
synchronous.  `throwsAfter = some n` is a run in which `_processFrame` throws
once `n` of its context calls are made; the `catch` logs and `finally` resets
`sending` either way. -/
def cloakFrameCallback (c : Component) (throwsAfter : Option ℕ) : Component × Effect :=
  if !c.alive then (c, Effect.idle)
  else if canSubmit c then
    let c1 := { c with sending := true }
    let ran : Component × List Cmd :=
      match c1.video, throwsAfter with
      | some v, none => processFrame c1 v
      | some v, some n => (afterThrow c1 n, (processFrameCmds c1 v).take n)
      | none, _ => (markFirstResult c1, [])
    let c2 := { ran.1 with sending := false }
    ((scheduleNext c2).1, { requests := 1, cmds := ran.2, registered := (scheduleNext c2).2 })
  else
    ((scheduleNext c).1, { requests := 0, cmds := [], registered := (scheduleNext c).2 })

/-- Method `remove()` (lines 320-336 / 769-784): clears `_alive` and cancels the
registered frame callback. -/
def remove (c : Component) : Component :=
  { c with alive := false, pendingFrame := false }

/-- What can happen to a started component. -/
inductive Event where
  | frame (throwsAfter : Option ℕ)
  | sendSettled (ok : Bool)
  | results (r : Results)
  | setEnabled (value : Bool)
  | toggleCloak
  | visibility (hidden : Bool)
  | readyState (n : ℕ)
  | remove
deriving DecidableEq, Repr

/-- One event on a component of the given variant: the video presents a frame
(the registered frame callback, if any, fires), the awaited `segmenter.send`
settles, the segmenter calls `onResults`, `enable()`/`disable()`,
`toggleCloak()`, a `visibilitychange` (its listener is removed by `remove()`),
a change of the video's `readyState`, or `remove()`. -/
def step (k : Variant) (c : Component) : Event → Component × Effect
  | Event.frame throwsAfter =>
    if c.pendingFrame then
      match k with
      | Variant.learned => frameCallback { c with pendingFrame := false }
      | Variant.heuristic => cloakFrameCallback { c with pendingFrame := false } throwsAfter
    else (c, Effect.idle)
  | Event.sendSettled ok =>
    match k with
    | Variant.learned => if 0 < c.inFlight then afterSend c ok else (c, Effect.idle)
    | Variant.heuristic => (c, Effect.idle)
  | Event.results r =>
    match k, c.video with
    | Variant.learned, some v =>
      ((onResults c v r).1, { requests := 0, cmds := (onResults c v r).2, registered := false })
    | Variant.learned, none =>
      (c, { requests := 0, cmds := onResultsNoVideo c, registered := false })
    | Variant.heuristic, _ => (c, Effect.idle)
  | Event.setEnabled value =>
    ({ c with data := { c.data with enabled := value },
              displayed := if value then c.displayed else false }, Effect.idle)
  | Event.toggleCloak => ({ c with cloakEnabled := !c.cloakEnabled }, Effect.idle)
  | Event.visibility hidden =>
    (if c.alive then { c with paused := hidden } else c, Effect.idle)
  | Event.readyState n =>
    ({ c with video := c.video.map (fun v => { v with readyState := n }) }, Effect.idle)
  | Event.remove => (remove c, Effect.idle)

/-- The component after a sequence of events. -/
def run (k : Variant) (c : Component) : List Event → Component
  | [] => c
  | e :: es => run k (step k c e).1 es

/-- The states a component can be in: `init()` leaves `sending` false with
no request made, and every event leads from a state to a state. -/
inductive Reachable (k : Variant) : Component → Prop where
  | init (c : Component) (hs : c.sending = false) (hf : c.inFlight = 0) : Reachable k c
  | step (c : Component) (e : Event) (h : Reachable k c) : Reachable k (step k c e).1

/-- The scheduler invariant: the number of requests in flight is 1 when
`sending` is set and 0 otherwise, and no frame callback is registered while a
request is in flight. -/
def SingleFlight (c : Component) : Prop :=
  c.inFlight = (if c.sending then 1 else 0) ∧ (c.sending = true → c.pendingFrame = false)

/-! ## UI setters, viewport fit and capture -/

/-- JavaScript `n || d` for `n = +x`, the numeric conversion of a setter
argument: `some q` is a finite number, `none` is NaN (a non-numeric argument);
the result is `d` when `n` is NaN or zero.  Infinite values are outside the
embedding. -/
def numberOr (n : Option ℚ) (d : ℚ) : ℚ :=
  match n with
  | some q => if q = 0 then d else q
  | none => d

/-- Method `setBlur(px)` (line 159 / 497): `this.data.blur = +px || 0`. -/
def setBlur (c : Component) (px : Option ℚ) : Component :=
  { c with data := { c.data with blur := numberOr px 0 } }

/-- Method `setWhiteThreshold(value)` (line 503):
`this.data.whiteThreshold = Math.max(0, Math.min(255, +value || 180))`. -/
def setWhiteThreshold (c : Component) (value : Option ℚ) : Component :=
  { c with data := { c.data with whiteThreshold := max 0 (min 255 (numberOr value 180)) } }

/-- The pixel ratio computed by `_fitOverlayToViewport`:
`Math.max(1, Math.min(window.devicePixelRatio || 1, 3))`. -/
def fitDpr (devicePixelRatio : Option ℚ) : ℚ :=
  max 1 (min (numberOr devicePixelRatio 1) 3)

/-- Method `_fitOverlayToViewport()` (lines 177-200 / 517-540) for the viewport
`innerWidth` by `innerHeight` (non-negative integers) and the window's
`devicePixelRatio`: stores `_dpr` and sizes the output canvas to
`Math.floor(cssW * _dpr)` by `Math.floor(cssH * _dpr)`, the floor of the
double product, which clears it when
the size changes; the output context's transform is reset to the identity. -/
def fitOverlayToViewport (c : Component) (innerWidth innerHeight : ℕ)
    (devicePixelRatio : Option ℚ) : Component :=
  let cssW : ℚ := innerWidth
  let cssH : ℚ := innerHeight
  let dpr := fitDpr devicePixelRatio
  let w : ℕ := ⌊fl (cssW * dpr)⌋.toNat
  let h : ℕ := ⌊fl (cssH * dpr)⌋.toNat
  { c with
    dpr := some dpr,
    outCanvas :=
      if c.outCanvas.width ≠ w ∨ c.outCanvas.height ≠ h then
        { width := w, height := h, pixels := [] }
      else c.outCanvas }

/-- Method `_resizeInternal(w, h)`: both components store the internal size
and size the plate (lines 202-207); the heuristic one also sizes the work
canvas (lines 542-550). -/
def resizeInternal (k : Variant) (c : Component) (w h : ℕ) : Component :=
  match k with
  | Variant.learned =>
    { c with internalW := w, internalH := h,
             bgCanvas := { width := w, height := h, pixels := [] } }
  | Variant.heuristic =>
    { c with internalW := w, internalH := h,
             bgCanvas := { width := w, height := h, pixels := [] },
             workCanvas := { width := w, height := h, pixels := [] } }

/-- JavaScript `a || b` on non-negative integers. -/
def natOr (a b : ℕ) : ℕ := if a = 0 then b else a

/-- The sizing done by `_startWhenVideoReady` once the video element `v` is
found (lines 87-92): `_resizeInternal(videoWidth || 640, videoHeight || 480)`
then `_fitOverlayToViewport()`. -/
def sizeToVideo (k : Variant) (c : Component) (v : Video) (innerWidth innerHeight : ℕ)
    (devicePixelRatio : Option ℚ) : Component :=
  fitOverlayToViewport
    (resizeInternal k { c with video := some v }
      (natOr v.videoWidth 640) (natOr v.videoHeight 480))
    innerWidth innerHeight devicePixelRatio

/-- Method `captureBackground()` (lines 165-174 / 506-514): returns at once
when `this.video` is null; else sizes the plate to the output canvas, draws
the video on `bgCtx` between `save` and `restore`, and sets `bgReady`.  The
plate's `pixels` records the frame drawn into it. -/
def captureBackground (c : Component) : Component × List Cmd :=
  match c.video with
  | none => (c, [])
  | some v =>
    let bg : Canvas :=
      { width := c.outCanvas.width, height := c.outCanvas.height, pixels := v.frame }
    ({ c with bgCanvas := bg, bgReady := true },
     [(Surface.bg, Op.save),
      (Surface.bg, drawVideoCall c v bg.width bg.height),
      (Surface.bg, Op.restore)])

/-! ## Where a draw puts a source point -/

/-- An kxis-aligned affine map `(u, v) -> (kx * u + tx, ky * v + by)`: the
transforms the components use are translations and kxis scalings. -/
structure Affine where
  kx : ℚ
  tx : ℚ
  ky : ℚ
  ty : ℚ
deriving DecidableEq, Repr

/-- The identity transform. -/
def Affine.id : Affine := { kx := 1, tx := 0, ky := 1, ty := 0 }

/-- Image of a point. -/
def Affine.apply (m : Affine) (p : ℚ × ℚ) : ℚ × ℚ :=
  (m.kx * p.1 + m.tx, m.ky * p.2 + m.ty)

/-- Composition `outer` after `inner`. -/
def Affine.comp (outer inner : Affine) : Affine :=
  { kx := outer.kx * inner.kx, tx := outer.kx * inner.tx + outer.tx,
    ky := outer.ky * inner.ky, ty := outer.ky * inner.ty + outer.ty }

/-- A `drawImage` as placed on its canvas: the source and the map from source
coordinates to canvas coordinates. -/
structure Placed where
  src : Source
  map : Affine
deriving DecidableEq, Repr

/-- Runs the calls made on one context from the current transform `ctm`
with the stack of saved transforms, and lists where each image draw puts its
source: `translate` and `scale` multiply the transform on the right, the
nine-argument `drawImage` maps the source rectangle onto the destination
rectangle, the three-argument one keeps the source's size.  The five-argument
form is not listed (the source's natural size is not part of the call). -/
def placed : List Op → Affine → List Affine → List Placed
  | [], _, _ => []
  | Op.save :: ops, ctm, stack => placed ops ctm (ctm :: stack)
  | Op.restore :: ops, ctm, stack =>
    match stack with
    | [] => placed ops ctm []
    | top :: rest => placed ops top rest
  | Op.translate x y :: ops, ctm, stack =>
    placed ops (ctm.comp { kx := 1, tx := x, ky := 1, ty := y }) stack
  | Op.scale x y :: ops, ctm, stack =>
    placed ops (ctm.comp { kx := x, tx := 0, ky := y, ty := 0 }) stack
  | Op.drawImage src sx sy sw sh dst :: ops, ctm, stack =>
    { src := src,
      map := ctm.comp { kx := dst.dw / sw, tx := dst.dx - sx * (dst.dw / sw),
                        ky := dst.dh / sh, ty := dst.dy - sy * (dst.dh / sh) } }
      :: placed ops ctm stack
  | Op.drawImageAt src dx dy :: ops, ctm, stack =>
    { src := src, map := ctm.comp { kx := 1, tx := dx, ky := 1, ty := dy } }
      :: placed ops ctm stack
  | _ :: ops, ctm, stack => placed ops ctm stack

/-- Where the draws on the context `s` put their sources. -/
def placedOn (s : Surface) (cmds : List Cmd) : List Placed :=
  placed (opsOn s cmds) Affine.id []

/-- The output point of the source point `(u, v)` under the cover-fit
rectangle for a `vw` by `vh` source on a `W` by `H` output, flipped
`x -> W - x` when `mirror` is set: the alignment target, as the projection is
described. -/
def projectPoint (mirror : Bool) (vw vh W H : ℚ) (p : ℚ × ℚ) : ℚ × ℚ :=
  let r := coverFit vw vh W H
  let x := r.dx + p.1 * (r.dw / vw)
  let y := r.dy + p.2 * (r.dh / vh)
  (if mirror then W - x else x, y)

/-- The transform in force for the draws of `onResults` and `_processFrame`:
`translate(W, 0)` then `scale(-1, 1)` on the identity when `mirror` is set. -/
def mirrorCtm (mirror : Bool) (W : ℚ) : Affine :=
  if mirror then
    (Affine.id.comp { kx := 1, tx := W, ky := 1, ty := 0 }).comp
      { kx := -1, tx := 0, ky := 1, ty := 0 }
  else Affine.id

/-- The map of a nine-argument `drawImage` from its source rectangle to its
destination rectangle. -/
def rectMap (sx sy sw sh : ℚ) (dst : Rect) : Affine :=
  { kx := dst.dw / sw, tx := dst.dx - sx * (dst.dw / sw),
    ky := dst.dh / sh, ty := dst.dy - sy * (dst.dh / sh) }

/-! ## Sample inputs -/

/-- A 640x480 video element that has frame data. -/
def sampleVideo : Video :=
  { videoWidth := 640, videoHeight := 480, readyState := 4, frame := [] }

/-- A started component with the effect armed and the plate captured, on a
390x844 output canvas, with the given `blur`. -/
def sampleComponent (blur : ℚ) : Component :=
  { data := { enabled := true, blur := blur, mirror := true, whiteThreshold := 200 },
    video := some sampleVideo, sending := false, bgReady := true, cloakEnabled := true,
    pendingFrame := true, gotFirstResult := false, paused := false, alive := true,
    displayed := false,
    outCanvas := { width := 390, height := 844, pixels := [] },
    bgCanvas := { width := 390, height := 844, pixels := [] },
    workCanvas := { width := 0, height := 0, pixels := [] },
    tempCanvas := { width := 0, height := 0, pixels := [] },
    maskCanvas := { width := 0, height := 0, pixels := [] },
    internalW := 640, internalH := 480, dpr := some 1, inFlight := 0 }

/-- A segmentation result at the video's resolution. -/
def sampleResults : Results :=
  { imageWidth := 640, imageHeight := 480, segmentationMask := [] }

/-! ## Double-precision rounding: theorems -/

theorem roundHalfEven_mono {x y : ℚ} (h : x ≤ y) : roundHalfEven x ≤ roundHalfEven y := by
  have hfx := Int.floor_le x
  have hfy := Int.floor_le y
  have hlx := Int.lt_floor_add_one x
  have hly := Int.lt_floor_add_one y
  have hf : ⌊x⌋ ≤ ⌊y⌋ := Int.floor_mono h
  have hxle : roundHalfEven x ≤ ⌊x⌋ + 1 := by
    unfold roundHalfEven
    split_ifs <;> omega
  have hyge : ⌊y⌋ ≤ roundHalfEven y := by
    unfold roundHalfEven
    split_ifs <;> omega
  rcases lt_or_eq_of_le hf with hlt | heq
  · omega
  · unfold roundHalfEven
    rw [heq]
    have hxy : x - (⌊y⌋ : ℚ) ≤ y - (⌊y⌋ : ℚ) := by linarith
    split_ifs <;> first | omega | (exfalso; linarith)

theorem roundHalfEven_intCast (n : ℤ) : roundHalfEven (n : ℚ) = n := by
  unfold roundHalfEven
  simp

theorem roundHalfEven_err (x : ℚ) : |(roundHalfEven x : ℚ) - x| ≤ 1 / 2 := by
  have hfx := Int.floor_le x
  have hlx := Int.lt_floor_add_one x
  unfold roundHalfEven
  rw [abs_le]
  split_ifs <;> push_cast <;> constructor <;> linarith

theorem roundHalfEven_eq (x : ℚ) (n : ℤ) (h : |x - n| < 1 / 2) : roundHalfEven x = n := by
  rw [abs_lt] at h
  have h1 : (n : ℚ) - 1 / 2 < x := by linarith
  have h2 : x < (n : ℚ) + 1 / 2 := by linarith
  have e1 := roundHalfEven_err x
  rw [abs_le] at e1
  have a1 : ((roundHalfEven x : ℤ) : ℚ) < (n : ℚ) + 1 := by linarith
  have a2 : (n : ℚ) - 1 < ((roundHalfEven x : ℤ) : ℚ) := by linarith
  have b1 : roundHalfEven x < n + 1 := by exact_mod_cast a1
  have b2 : n - 1 < roundHalfEven x := by exact_mod_cast a2
  omega

theorem two_zpow_pos (k : ℤ) : (0 : ℚ) < 2 ^ k := zpow_pos (by norm_num) k

theorem two_zpow_add (a b : ℤ) : (2 : ℚ) ^ (a + b) = 2 ^ a * 2 ^ b :=
  zpow_add₀ (by norm_num) a b

theorem two_zpow_mono {a b : ℤ} (h : a ≤ b) : (2 : ℚ) ^ a ≤ 2 ^ b :=
  zpow_le_zpow_right₀ (by norm_num) h

theorem log_lower {q : ℚ} (hq : 0 < q) : (2 : ℚ) ^ Int.log 2 q ≤ q := by
  have := Int.zpow_log_le_self (b := 2) (by norm_num) hq
  simpa using this

theorem log_upper (q : ℚ) : q < (2 : ℚ) ^ (Int.log 2 q + 1) := by
  have := Int.lt_zpow_succ_log_self (b := 2) (by norm_num) q
  simpa using this

/-- The scaled significand of a positive rational lies in [2^52, 2^53). -/
theorem scaled_bounds {q : ℚ} (hq : 0 < q) :
    (2 : ℚ) ^ (52 : ℤ) ≤ q / 2 ^ (Int.log 2 q - 52) ∧
    q / 2 ^ (Int.log 2 q - 52) < (2 : ℚ) ^ (53 : ℤ) := by
  have hu := two_zpow_pos (Int.log 2 q - 52)
  constructor
  · rw [le_div_iff₀ hu, ← two_zpow_add]
    have : (52 : ℤ) + (Int.log 2 q - 52) = Int.log 2 q := by ring
    rw [this]
    exact log_lower hq
  · rw [div_lt_iff₀ hu, ← two_zpow_add]
    have : (53 : ℤ) + (Int.log 2 q - 52) = Int.log 2 q + 1 := by ring
    rw [this]
    exact log_upper q

theorem flPos_zero : flPos 0 = 0 := by
  unfold flPos
  simp [roundHalfEven]

theorem roundHalfEven_nonneg {x : ℚ} (hx : 0 ≤ x) : 0 ≤ roundHalfEven x := by
  have := roundHalfEven_mono hx
  rw [show (0 : ℚ) = ((0 : ℤ) : ℚ) by norm_num, roundHalfEven_intCast] at this
  exact this

theorem flPos_nonneg {q : ℚ} (hq : 0 ≤ q) : 0 ≤ flPos q := by
  unfold flPos
  have hu := two_zpow_pos (Int.log 2 q - 52)
  have : (0 : ℚ) ≤ (roundHalfEven (q / 2 ^ (Int.log 2 q - 52)) : ℚ) := by
    exact_mod_cast roundHalfEven_nonneg (div_nonneg hq hu.le)
  exact mul_nonneg this hu.le

/-- The rounded value stays inside the closed binade of the argument. -/
theorem flPos_binade {q : ℚ} (hq : 0 < q) :
    (2 : ℚ) ^ Int.log 2 q ≤ flPos q ∧ flPos q ≤ (2 : ℚ) ^ (Int.log 2 q + 1) := by
  have hu := two_zpow_pos (Int.log 2 q - 52)
  have hb := scaled_bounds hq
  have h52 : ((2 : ℚ) ^ (52 : ℤ)) = (((2 : ℤ) ^ (52 : ℕ) : ℤ) : ℚ) := by norm_num
  have h53 : ((2 : ℚ) ^ (53 : ℤ)) = (((2 : ℤ) ^ (53 : ℕ) : ℤ) : ℚ) := by norm_num
  have hlo : ((2 : ℤ) ^ (52 : ℕ) : ℤ) ≤ roundHalfEven (q / 2 ^ (Int.log 2 q - 52)) := by
    have := roundHalfEven_mono hb.1
    rwa [h52, roundHalfEven_intCast] at this
  have hhi : roundHalfEven (q / 2 ^ (Int.log 2 q - 52)) ≤ ((2 : ℤ) ^ (53 : ℕ) : ℤ) := by
    have := roundHalfEven_mono hb.2.le
    rwa [h53, roundHalfEven_intCast] at this
  have hloq : (2 : ℚ) ^ (52 : ℤ) ≤ (roundHalfEven (q / 2 ^ (Int.log 2 q - 52)) : ℚ) := by
    rw [h52]
    exact_mod_cast hlo
  have hhiq : (roundHalfEven (q / 2 ^ (Int.log 2 q - 52)) : ℚ) ≤ (2 : ℚ) ^ (53 : ℤ) := by
    rw [h53]
    exact_mod_cast hhi
  unfold flPos
  constructor
  · have e : (2 : ℚ) ^ Int.log 2 q = 2 ^ (52 : ℤ) * 2 ^ (Int.log 2 q - 52) := by
      rw [← two_zpow_add]
      congr 1
      ring
    rw [e]
    exact mul_le_mul_of_nonneg_right hloq hu.le
  · have e : (2 : ℚ) ^ (Int.log 2 q + 1) = 2 ^ (53 : ℤ) * 2 ^ (Int.log 2 q - 52) := by
      rw [← two_zpow_add]
      congr 1
      ring
    rw [e]
    exact mul_le_mul_of_nonneg_right hhiq hu.le

theorem flPos_mono {a b : ℚ} (ha : 0 ≤ a) (hab : a ≤ b) : flPos a ≤ flPos b := by
  rcases eq_or_lt_of_le ha with h0 | hpos
  · rw [← h0, flPos_zero]
    exact flPos_nonneg (le_trans ha hab)
  · have hbpos : 0 < b := lt_of_lt_of_le hpos hab
    have hlog : Int.log 2 a ≤ Int.log 2 b := Int.log_mono_right hpos hab
    rcases eq_or_lt_of_le hlog with heq | hlt
    · unfold flPos
      rw [heq]
      have hu := two_zpow_pos (Int.log 2 b - 52)
      have hd : a / 2 ^ (Int.log 2 b - 52) ≤ b / 2 ^ (Int.log 2 b - 52) :=
        div_le_div_of_nonneg_right hab hu.le
      have := roundHalfEven_mono hd
      have hq : (roundHalfEven (a / 2 ^ (Int.log 2 b - 52)) : ℚ)
          ≤ (roundHalfEven (b / 2 ^ (Int.log 2 b - 52)) : ℚ) := by exact_mod_cast this
      exact mul_le_mul_of_nonneg_right hq hu.le
    · calc flPos a ≤ (2 : ℚ) ^ (Int.log 2 a + 1) := (flPos_binade hpos).2
        _ ≤ (2 : ℚ) ^ Int.log 2 b := two_zpow_mono (by omega)
        _ ≤ flPos b := (flPos_binade hbpos).1

theorem fl_mono {a b : ℚ} (hab : a ≤ b) : fl a ≤ fl b := by
  unfold fl
  by_cases ha : a < 0
  · by_cases hb : b < 0
    · simp only [ha, hb, if_true]
      have := flPos_mono (a := -b) (b := -a) (by linarith) (by linarith)
      linarith
    · simp only [ha, hb, if_true, if_false]
      have h1 := flPos_nonneg (q := -a) (by linarith)
      have h2 := flPos_nonneg (q := b) (by linarith)
      linarith
  · have hb : ¬ b < 0 := by linarith
    simp only [ha, hb, if_false]
    exact flPos_mono (by linarith) hab

theorem fl_zero : fl 0 = 0 := by
  unfold fl
  simp [flPos_zero]

theorem fl_neg (q : ℚ) : fl (-q) = -fl q := by
  unfold fl
  rcases lt_trichotomy q 0 with h | h | h
  · have h1 : ¬ (-q < 0) := by linarith
    simp [h, h1]
  · rw [h]
    simp [flPos_zero]
  · have h1 : -q < 0 := by linarith
    have h2 : ¬ q < 0 := by linarith
    simp [h1, h2]

theorem log_eq_of_bounds {q : ℚ} {e : ℤ} (hq : 0 < q) (h1 : (2 : ℚ) ^ e ≤ q)
    (h2 : q < (2 : ℚ) ^ (e + 1)) : Int.log 2 q = e := by
  have a1 : e ≤ Int.log 2 q := by
    rw [← Int.zpow_le_iff_le_log (by norm_num) hq]
    simpa using h1
  have a2 : Int.log 2 q < e + 1 := by
    rw [← Int.lt_zpow_iff_log_lt (by norm_num) hq]
    simpa using h2
  omega

/-- Evaluation of the rounding at a positive rational: the binade `e` and the
significand `n` determine the result. -/
theorem fl_eq_of {q : ℚ} {e n : ℤ} (hq : 0 < q) (h1 : (2 : ℚ) ^ e ≤ q)
    (h2 : q < (2 : ℚ) ^ (e + 1)) (h3 : |q / 2 ^ (e - 52) - n| < 1 / 2) :
    fl q = n * 2 ^ (e - 52) := by
  have hn : ¬ q < 0 := by linarith
  unfold fl flPos
  rw [if_neg hn, log_eq_of_bounds hq h1 h2, roundHalfEven_eq _ n h3]

/-- Values `n * 2^k` with `0 <= n < 2^53` are fixed by the rounding. -/
theorem flPos_of_grid (n : ℕ) (k : ℤ) (hn : n < 2 ^ 53) :
    flPos ((n : ℚ) * 2 ^ k) = (n : ℚ) * 2 ^ k := by
  rcases Nat.eq_zero_or_pos n with h0 | hpos
  · rw [h0]
    simp [flPos_zero]
  · have hk := two_zpow_pos k
    have hq : (0 : ℚ) < (n : ℚ) * 2 ^ k := mul_pos (by exact_mod_cast hpos) hk
    have hlt : (n : ℚ) * 2 ^ k < (2 : ℚ) ^ (53 + k) := by
      rw [two_zpow_add]
      have : (n : ℚ) < (2 : ℚ) ^ (53 : ℤ) := by
        calc (n : ℚ) < ((2 ^ 53 : ℕ) : ℚ) := Nat.cast_lt.mpr hn
          _ = (2 : ℚ) ^ (53 : ℤ) := by norm_num
      exact mul_lt_mul_of_pos_right this hk
    have hlog : Int.log 2 ((n : ℚ) * 2 ^ k) < 53 + k := by
      rw [← Int.lt_zpow_iff_log_lt (by norm_num) hq]
      simpa using hlt
    obtain ⟨d, hd⟩ : ∃ d : ℕ, k = (Int.log 2 ((n : ℚ) * 2 ^ k) - 52) + d :=
      ⟨(k - (Int.log 2 ((n : ℚ) * 2 ^ k) - 52)).toNat, by omega⟩
    unfold flPos
    have hu := two_zpow_pos (Int.log 2 ((n : ℚ) * 2 ^ k) - 52)
    have hscaled : (n : ℚ) * 2 ^ k / 2 ^ (Int.log 2 ((n : ℚ) * 2 ^ k) - 52)
        = ((n * 2 ^ d : ℤ) : ℚ) := by
      rw [div_eq_iff hu.ne']
      nth_rewrite 1 [hd]
      rw [two_zpow_add, zpow_natCast]
      push_cast
      ring
    rw [hscaled, roundHalfEven_intCast, ← hscaled]
    field_simp

theorem fl_of_grid (n : ℤ) (k : ℤ) (hn : |n| < 2 ^ 53) :
    fl ((n : ℚ) * 2 ^ k) = (n : ℚ) * 2 ^ k := by
  have hk := two_zpow_pos k
  rcases lt_or_le n 0 with hneg | hnn
  · have hq : (n : ℚ) * 2 ^ k < 0 := mul_neg_of_neg_of_pos (by exact_mod_cast hneg) hk
    unfold fl
    rw [if_pos hq]
    have hm : ((-n).toNat : ℤ) = -n := Int.toNat_of_nonneg (by omega)
    have hlt : (-n).toNat < 2 ^ 53 := by
      have : |n| = -n := abs_of_neg hneg
      have h2 : ((-n).toNat : ℤ) < 2 ^ 53 := by rw [hm, ← this]; exact hn
      exact_mod_cast h2
    have e : -((n : ℚ) * 2 ^ k) = (((-n).toNat : ℕ) : ℚ) * 2 ^ k := by
      have : (((-n).toNat : ℕ) : ℚ) = -(n : ℚ) := by
        calc (((-n).toNat : ℕ) : ℚ) = (((-n).toNat : ℤ) : ℚ) := (Int.cast_natCast _).symm
          _ = ((-n : ℤ) : ℚ) := by rw [hm]
          _ = -(n : ℚ) := by push_cast; ring
      rw [this]
      ring
    rw [e, flPos_of_grid _ k hlt, ← e]
    ring
  · have hq : ¬ (n : ℚ) * 2 ^ k < 0 := by
      have : (0 : ℚ) ≤ (n : ℚ) * 2 ^ k := mul_nonneg (by exact_mod_cast hnn) hk.le
      linarith
    unfold fl
    rw [if_neg hq]
    have hm : (n.toNat : ℤ) = n := Int.toNat_of_nonneg hnn
    have hlt : n.toNat < 2 ^ 53 := by
      have : |n| = n := abs_of_nonneg hnn
      have h2 : (n.toNat : ℤ) < 2 ^ 53 := by rw [hm, ← this]; exact hn
      exact_mod_cast h2
    have e : (n : ℚ) = ((n.toNat : ℕ) : ℚ) := by
      calc (n : ℚ) = ((n.toNat : ℤ) : ℚ) := by rw [hm]
        _ = ((n.toNat : ℕ) : ℚ) := Int.cast_natCast _
    rw [e]
    exact flPos_of_grid _ k hlt

theorem fl_natCast (n : ℕ) (hn : n < 2 ^ 53) : fl (n : ℚ) = n := by
  have := fl_of_grid (n : ℤ) 0 (by
    rw [abs_of_nonneg (by positivity)]
    exact_mod_cast hn)
  simpa using this

/-- Relative error of the rounding: half a unit in the last place. -/
theorem flPos_err {q : ℚ} (hq : 0 ≤ q) : |flPos q - q| ≤ q * 2 ^ (-53 : ℤ) := by
  rcases eq_or_lt_of_le hq with h0 | hpos
  · rw [← h0, flPos_zero]
    simp
  · have hu := two_zpow_pos (Int.log 2 q - 52)
    have herr := roundHalfEven_err (q / 2 ^ (Int.log 2 q - 52))
    have hlow := log_lower hpos
    have e1 : flPos q - q
        = ((roundHalfEven (q / 2 ^ (Int.log 2 q - 52)) : ℚ) - q / 2 ^ (Int.log 2 q - 52))
          * 2 ^ (Int.log 2 q - 52) := by
      unfold flPos
      field_simp
    rw [e1, abs_mul, abs_of_pos hu]
    have e2 : (2 : ℚ) ^ (Int.log 2 q - 52) = 2 ^ Int.log 2 q * 2 ^ (-52 : ℤ) := by
      rw [← two_zpow_add]
      congr 1
    have h52 : (2 : ℚ) ^ (-52 : ℤ) = 2 * 2 ^ (-53 : ℤ) := by norm_num
    have h53pos : (0 : ℚ) < 2 ^ (-53 : ℤ) := two_zpow_pos _
    calc |(roundHalfEven (q / 2 ^ (Int.log 2 q - 52)) : ℚ) - q / 2 ^ (Int.log 2 q - 52)|
            * 2 ^ (Int.log 2 q - 52)
          ≤ 1 / 2 * 2 ^ (Int.log 2 q - 52) := mul_le_mul_of_nonneg_right herr hu.le
      _ = 2 ^ Int.log 2 q * 2 ^ (-53 : ℤ) := by rw [e2, h52]; ring
      _ ≤ q * 2 ^ (-53 : ℤ) := mul_le_mul_of_nonneg_right hlow h53pos.le

theorem fl_err (q : ℚ) : |fl q - q| ≤ |q| * 2 ^ (-53 : ℤ) := by
  unfold fl
  by_cases h : q < 0
  · have hq : |q| = -q := abs_of_neg h
    have := flPos_err (q := -q) (by linarith)
    have e : -flPos (-q) - q = -(flPos (-q) - -q) := by ring
    rw [if_pos h, hq, e, abs_neg]
    exact this
  · have hq : |q| = q := abs_of_nonneg (by linarith)
    rw [if_neg h, hq]
    exact flPos_err (by linarith)

theorem fl_nonneg {q : ℚ} (hq : 0 ≤ q) : 0 ≤ fl q := by
  have := fl_mono hq
  rwa [fl_zero] at this

theorem fl_pos {q : ℚ} (hq : 0 < q) : 0 < fl q := by
  unfold fl
  rw [if_neg (by linarith)]
  exact lt_of_lt_of_le (two_zpow_pos _) (flPos_binade hq).1

theorem unitRoundoff_pos : 0 < unitRoundoff := two_zpow_pos _

theorem unitRoundoff_lt : unitRoundoff < 1 / 4 := by
  unfold unitRoundoff
  norm_num

/-- Lower and upper bounds of the rounding of a non-negative rational. -/
theorem fl_bounds {q : ℚ} (hq : 0 ≤ q) :
    q * (1 - unitRoundoff) ≤ fl q ∧ fl q ≤ q * (1 + unitRoundoff) := by
  have h := fl_err q
  rw [abs_of_nonneg hq, abs_le] at h
  unfold unitRoundoff
  constructor <;> linarith [h.1, h.2]

/-! ## Projection: theorems -/

/-- In exact arithmetic the cover rectangle contains the destination, is
centred and matches it in one dimension. -/
theorem coverFitExact_props (vw vh w h : ℚ) (hvw : 0 < vw) (hvh : 0 < vh) :
    w ≤ (coverFitExact vw vh w h).dw ∧ h ≤ (coverFitExact vw vh w h).dh ∧
    (coverFitExact vw vh w h).dx ≤ 0 ∧ (coverFitExact vw vh w h).dy ≤ 0 ∧
    -(coverFitExact vw vh w h).dx = (coverFitExact vw vh w h).dx + (coverFitExact vw vh w h).dw - w ∧
    -(coverFitExact vw vh w h).dy = (coverFitExact vw vh w h).dy + (coverFitExact vw vh w h).dh - h ∧
    ((coverFitExact vw vh w h).dw = w ∨ (coverFitExact vw vh w h).dh = h) := by
  have h1 : w ≤ vw * max (w / vw) (h / vh) := by
    calc w = vw * (w / vw) := by field_simp
      _ ≤ vw * max (w / vw) (h / vh) :=
        mul_le_mul_of_nonneg_left (le_max_left _ _) hvw.le
  have h2 : h ≤ vh * max (w / vw) (h / vh) := by
    calc h = vh * (h / vh) := by field_simp
      _ ≤ vh * max (w / vw) (h / vh) :=
        mul_le_mul_of_nonneg_left (le_max_right _ _) hvh.le
  have h3 : vw * max (w / vw) (h / vh) = w ∨ vh * max (w / vw) (h / vh) = h := by
    rcases le_total (w / vw) (h / vh) with hle | hle
    · right
      rw [max_eq_right hle]
      field_simp
    · left
      rw [max_eq_left hle]
      field_simp
  simp only [coverFitExact]
  refine ⟨h1, h2, ?_, ?_, ?_, ?_, h3⟩
  · linarith
  · linarith
  · ring
  · ring

/-- The rounded product `fl (vw * s)` reaches `w` up to two roundings when
`s` is at least the rounded quotient `fl (w / vw)`. -/
theorem cover_lower {vw w s : ℚ} (hvw : 0 < vw) (hw : 0 ≤ w) (hs : fl (w / vw) ≤ s) :
    w * (1 - unitRoundoff) ≤ vw * s ∧
    w * (1 - unitRoundoff) ^ 2 ≤ fl (vw * s) := by
  have hu := unitRoundoff_pos
  have hu4 := unitRoundoff_lt
  have hq : 0 ≤ w / vw := div_nonneg hw hvw.le
  have ha := (fl_bounds hq).1
  have h1 : w * (1 - unitRoundoff) ≤ vw * s := by
    have : vw * (w / vw * (1 - unitRoundoff)) ≤ vw * s :=
      mul_le_mul_of_nonneg_left (le_trans ha hs) hvw.le
    have e : vw * (w / vw * (1 - unitRoundoff)) = w * (1 - unitRoundoff) := by
      field_simp
    rwa [e] at this
  refine ⟨h1, ?_⟩
  have h0 : 0 ≤ w * (1 - unitRoundoff) := mul_nonneg hw (by linarith)
  have h2 := (fl_bounds h0).1
  have h3 := fl_mono h1
  calc w * (1 - unitRoundoff) ^ 2 = w * (1 - unitRoundoff) * (1 - unitRoundoff) := by ring
    _ ≤ fl (w * (1 - unitRoundoff)) := h2
    _ ≤ fl (vw * s) := h3

theorem cover_upper {vw w : ℚ} (hvw : 0 < vw) (hw : 0 ≤ w) :
    fl (vw * fl (w / vw)) ≤ w * (1 + unitRoundoff) ^ 2 := by
  have hu := unitRoundoff_pos
  have hq : 0 ≤ w / vw := div_nonneg hw hvw.le
  have ha := (fl_bounds hq).2
  have h1 : vw * fl (w / vw) ≤ w * (1 + unitRoundoff) := by
    have : vw * fl (w / vw) ≤ vw * (w / vw * (1 + unitRoundoff)) :=
      mul_le_mul_of_nonneg_left ha hvw.le
    have e : vw * (w / vw * (1 + unitRoundoff)) = w * (1 + unitRoundoff) := by
      field_simp
    rwa [e] at this
  have h0 : 0 ≤ vw * fl (w / vw) := mul_nonneg hvw.le (fl_nonneg hq)
  have h2 := (fl_bounds h0).2
  calc fl (vw * fl (w / vw)) ≤ vw * fl (w / vw) * (1 + unitRoundoff) := h2
    _ ≤ w * (1 + unitRoundoff) * (1 + unitRoundoff) :=
        mul_le_mul_of_nonneg_right h1 (by linarith)
    _ = w * (1 + unitRoundoff) ^ 2 := by ring

/-- The difference between a positive integer `w` and the rounding of a
`q < 2^53` that is at least `w (1 - u)` is a double, and so is its half: the
subtraction and the halving of the centring offset are exact. -/
theorem sub_exact (w : ℕ) (hw : 0 < w) {q : ℚ} (hq53 : q < 2 ^ (53 : ℤ))
    (hlow : (w : ℚ) * (1 - unitRoundoff) ≤ q) :
    fl ((w : ℚ) - fl q) = (w : ℚ) - fl q ∧
    fl (((w : ℚ) - fl q) / 2) = ((w : ℚ) - fl q) / 2 := by
  have hu := unitRoundoff_pos
  have hu4 := unitRoundoff_lt
  have hwq : (0 : ℚ) < (w : ℚ) := by exact_mod_cast hw
  have hq0 : 0 < q := lt_of_lt_of_le (mul_pos hwq (by linarith)) hlow
  have hlog : Int.log 2 q < 53 := by
    rw [← Int.lt_zpow_iff_log_lt (by norm_num) hq0]
    simpa using hq53
  obtain ⟨d, hd⟩ : ∃ d : ℕ, Int.log 2 q - 52 = -(d : ℤ) :=
    ⟨(-(Int.log 2 q - 52)).toNat, by omega⟩
  have hE := two_zpow_pos (Int.log 2 q - 52)
  have hflq : fl q = (roundHalfEven (q / 2 ^ (Int.log 2 q - 52)) : ℚ)
      * 2 ^ (Int.log 2 q - 52) := by
    unfold fl flPos
    rw [if_neg (by linarith)]
  have hwgrid : (w : ℚ) = ((w * 2 ^ d : ℕ) : ℚ) * 2 ^ (Int.log 2 q - 52) := by
    rw [hd, zpow_neg, zpow_natCast]
    push_cast
    field_simp
  have hy : (w : ℚ) - fl q
      = (((w * 2 ^ d : ℕ) : ℤ) - roundHalfEven (q / 2 ^ (Int.log 2 q - 52)) : ℤ)
        * 2 ^ (Int.log 2 q - 52) := by
    rw [hflq]
    nth_rewrite 1 [hwgrid]
    push_cast
    ring
  have hbin := flPos_binade hq0
  have hflq' : fl q = flPos q := by
    unfold fl
    rw [if_neg (by linarith)]
  have hup : fl q ≤ (2 : ℚ) ^ (Int.log 2 q + 1) := by rw [hflq']; exact hbin.2
  have hqlt : q < (2 : ℚ) ^ (Int.log 2 q + 1) := log_upper q
  have hdwlow : (w : ℚ) * (1 - unitRoundoff) ^ 2 ≤ fl q := by
    have h1 := (fl_bounds hq0.le).1
    have h2 : (w : ℚ) * (1 - unitRoundoff) * (1 - unitRoundoff) ≤ q * (1 - unitRoundoff) :=
      mul_le_mul_of_nonneg_right hlow (by linarith)
    calc (w : ℚ) * (1 - unitRoundoff) ^ 2
        = (w : ℚ) * (1 - unitRoundoff) * (1 - unitRoundoff) := by ring
      _ ≤ q * (1 - unitRoundoff) := h2
      _ ≤ fl q := h1
  have habs : |(w : ℚ) - fl q| < (2 : ℚ) ^ (Int.log 2 q + 1) := by
    rw [abs_lt]
    constructor
    · linarith
    · have hsq : (w : ℚ) * (1 - unitRoundoff) ^ 2
          = (w : ℚ) - (w : ℚ) * (2 * unitRoundoff) + (w : ℚ) * unitRoundoff ^ 2 := by ring
      have hnn : 0 ≤ (w : ℚ) * unitRoundoff ^ 2 := by positivity
      have h3 : (w : ℚ) - fl q ≤ (w : ℚ) * (2 * unitRoundoff) := by linarith
      have h4 : (w : ℚ) * (2 * unitRoundoff) < (w : ℚ) * (1 - unitRoundoff) := by
        apply mul_lt_mul_of_pos_left _ hwq
        linarith
      linarith
  have hm : |(((w * 2 ^ d : ℕ) : ℤ) - roundHalfEven (q / 2 ^ (Int.log 2 q - 52)) : ℤ)|
      < 2 ^ 53 := by
    have e53 : (2 : ℚ) ^ (Int.log 2 q + 1) = 2 ^ (53 : ℤ) * 2 ^ (Int.log 2 q - 52) := by
      rw [← two_zpow_add]
      congr 1
      ring
    rw [hy, abs_mul, abs_of_pos hE, e53] at habs
    have h5 := lt_of_mul_lt_mul_right habs hE.le
    have h6 : ((|(((w * 2 ^ d : ℕ) : ℤ)
        - roundHalfEven (q / 2 ^ (Int.log 2 q - 52)) : ℤ)| : ℤ) : ℚ)
        < (((2 : ℤ) ^ (53 : ℕ) : ℤ) : ℚ) := by
      rw [Int.cast_abs]
      calc _ < (2 : ℚ) ^ (53 : ℤ) := h5
        _ = (((2 : ℤ) ^ (53 : ℕ) : ℤ) : ℚ) := by norm_num
    exact_mod_cast h6
  constructor
  · rw [hy]
    exact fl_of_grid _ _ hm
  · have e : ((w : ℚ) - fl q) / 2
        = ((((w * 2 ^ d : ℕ) : ℤ) - roundHalfEven (q / 2 ^ (Int.log 2 q - 52)) : ℤ) : ℚ)
          * 2 ^ (Int.log 2 q - 52 - 1) := by
      rw [hy]
      have : (2 : ℚ) ^ (Int.log 2 q - 52 - 1) = 2 ^ (Int.log 2 q - 52) / 2 := by
        rw [zpow_sub₀ (by norm_num), zpow_one]
      rw [this]
      ring
    rw [e]
    exact fl_of_grid _ _ hm

theorem fl_two_pow_26 : fl ((2 : ℚ) ^ (26 : ℕ)) = (2 : ℚ) ^ (26 : ℕ) := by
  have := fl_natCast (2 ^ 26) (by norm_num)
  simpa using this

/-- The rounded quotient of two sizes below `2^26` is at most `2^26`. -/
theorem fl_ratio_le (vw w : ℕ) (hvw : 0 < vw) (bw : w < 2 ^ 26) :
    fl ((w : ℚ) / vw) ≤ (2 : ℚ) ^ (26 : ℕ) := by
  have h1 : (1 : ℚ) ≤ (vw : ℚ) := by exact_mod_cast hvw
  have h2 : (w : ℚ) / vw ≤ (w : ℚ) := div_le_self (by positivity) h1
  have h3 : (w : ℚ) ≤ (2 : ℚ) ^ (26 : ℕ) := by exact_mod_cast bw.le
  have := fl_mono (le_trans h2 h3)
  rwa [fl_two_pow_26] at this

/-- One axis of the cover fit: with `s` at least the rounded quotient and at
most `2^26`, the size reaches `w` up to two roundings and the offset is exactly
half the difference. -/
theorem coverFit_axis (vw w : ℕ) (hvw : 0 < vw) (hw : 0 < w) (bvw : vw < 2 ^ 26) {s : ℚ}
    (hs : fl ((w : ℚ) / vw) ≤ s) (hs26 : s ≤ (2 : ℚ) ^ (26 : ℕ)) :
    (w : ℚ) * (1 - unitRoundoff) ^ 2 ≤ fl ((vw : ℚ) * s) ∧
    fl (fl ((w : ℚ) - fl ((vw : ℚ) * s)) / 2) = ((w : ℚ) - fl ((vw : ℚ) * s)) / 2 ∧
    fl (fl ((w : ℚ) - fl ((vw : ℚ) * s)) / 2) ≤ (w : ℚ) * unitRoundoff := by
  have hu := unitRoundoff_pos
  have hvwq : (0 : ℚ) < (vw : ℚ) := by exact_mod_cast hvw
  have hwq : (0 : ℚ) < (w : ℚ) := by exact_mod_cast hw
  have hcl := cover_lower hvwq hwq.le hs
  have h53 : (vw : ℚ) * s < 2 ^ (53 : ℤ) := by
    have h1 : (vw : ℚ) ≤ (2 : ℚ) ^ (26 : ℕ) := by exact_mod_cast bvw.le
    have h2 : (vw : ℚ) * s ≤ (2 : ℚ) ^ (26 : ℕ) * (2 : ℚ) ^ (26 : ℕ) := by
      have hs0 : 0 ≤ s := le_trans (fl_nonneg (div_nonneg hwq.le hvwq.le)) hs
      exact mul_le_mul h1 hs26 hs0 (by positivity)
    have h3 : (2 : ℚ) ^ (26 : ℕ) * (2 : ℚ) ^ (26 : ℕ) < 2 ^ (53 : ℤ) := by norm_num
    linarith
  have hex := sub_exact w hw h53 hcl.1
  have hdx : fl (fl ((w : ℚ) - fl ((vw : ℚ) * s)) / 2)
      = ((w : ℚ) - fl ((vw : ℚ) * s)) / 2 := by
    rw [hex.1, hex.2]
  refine ⟨hcl.2, hdx, ?_⟩
  rw [hdx]
  have hsq : (w : ℚ) * (1 - unitRoundoff) ^ 2
      = (w : ℚ) - (w : ℚ) * (2 * unitRoundoff) + (w : ℚ) * unitRoundoff ^ 2 := by ring
  have hnn : 0 ≤ (w : ℚ) * unitRoundoff ^ 2 := by positivity
  linarith [hcl.2]

/-- C1 (amended): for positive integer source and destination sizes below
`2^26` the rectangle of `_drawVideoTo` (and of the mask projections, which
repeat the arithmetic of `coverFit`) is computed in doubles from
`s = max(fl(w/vw), fl(h/vh))` as `dw = fl(vw*s)`, `dh = fl(vh*s)`; it covers
the destination up to rounding (`dw >= w(1-u)^2`, `dh >= h(1-u)^2`,
`dx <= w*u`, `dy <= h*u` with `u = 2^-53`), the crop is exactly equal on
opposing edges, and one of `dw`, `dh` exceeds its destination size by at most
the factor `(1+u)^2`. -/
theorem coverFit_covers_centered (vw vh w h iw ih : ℕ)
    (hvw : 0 < vw) (hvh : 0 < vh) (hw : 0 < w) (hh : 0 < h)
    (bvw : vw < 2 ^ 26) (bvh : vh < 2 ^ 26) (bw : w < 2 ^ 26) (bh : h < 2 ^ 26) :
    drawVideoTo vw vh iw ih w h = coverFit vw vh w h ∧
    (coverFit vw vh w h).dw = fl ((vw : ℚ) * max (fl ((w : ℚ) / vw)) (fl ((h : ℚ) / vh))) ∧
    (coverFit vw vh w h).dh = fl ((vh : ℚ) * max (fl ((w : ℚ) / vw)) (fl ((h : ℚ) / vh))) ∧
    (w : ℚ) * (1 - unitRoundoff) ^ 2 ≤ (coverFit vw vh w h).dw ∧
    (h : ℚ) * (1 - unitRoundoff) ^ 2 ≤ (coverFit vw vh w h).dh ∧
    (coverFit vw vh w h).dx ≤ (w : ℚ) * unitRoundoff ∧
    (coverFit vw vh w h).dy ≤ (h : ℚ) * unitRoundoff ∧
    -(coverFit vw vh w h).dx = (coverFit vw vh w h).dx + (coverFit vw vh w h).dw - w ∧
    -(coverFit vw vh w h).dy = (coverFit vw vh w h).dy + (coverFit vw vh w h).dh - h ∧
    ((coverFit vw vh w h).dw ≤ (w : ℚ) * (1 + unitRoundoff) ^ 2 ∨
      (coverFit vw vh w h).dh ≤ (h : ℚ) * (1 + unitRoundoff) ^ 2) := by
  have hvwq : (0 : ℚ) < (vw : ℚ) := by exact_mod_cast hvw
  have hvhq : (0 : ℚ) < (vh : ℚ) := by exact_mod_cast hvh
  have hwq : (0 : ℚ) < (w : ℚ) := by exact_mod_cast hw
  have hhq : (0 : ℚ) < (h : ℚ) := by exact_mod_cast hh
  have hs26 : max (fl ((w : ℚ) / vw)) (fl ((h : ℚ) / vh)) ≤ (2 : ℚ) ^ (26 : ℕ) :=
    max_le (fl_ratio_le vw w hvw bw) (fl_ratio_le vh h hvh bh)
  have hx := coverFit_axis vw w hvw hw bvw (le_max_left _ _) hs26
  have hy := coverFit_axis vh h hvh hh bvh (le_max_right _ _) hs26
  refine ⟨?_, rfl, rfl, hx.1, hy.1, hx.2.2, hy.2.2, ?_, ?_, ?_⟩
  · simp [drawVideoTo, orElse, hvwq.ne', hvhq.ne']
  · show -(fl (fl ((w : ℚ) - fl ((vw : ℚ) * _)) / 2)) = _
    simp only [coverFit]
    rw [hx.2.1]
    ring
  · simp only [coverFit]
    rw [hy.2.1]
    ring
  · simp only [coverFit]
    rcases le_total (fl ((h : ℚ) / vh)) (fl ((w : ℚ) / vw)) with hle | hle
    · left
      rw [max_eq_left hle]
      exact cover_upper hvwq hwq.le
    · right
      rw [max_eq_right hle]
      exact cover_upper hvhq hhq.le

theorem fl_414_720 : fl ((414 : ℚ) / 720) = 5179139571476070 * 2 ^ (-53 : ℤ) := by
  have h := fl_eq_of (q := (414 : ℚ) / 720) (e := -1) (n := 5179139571476070)
    (by norm_num) (by norm_num) (by norm_num)
    (by rw [abs_lt]; constructor <;> norm_num)
  rw [h]
  norm_num

theorem fl_736_1280 : fl ((736 : ℚ) / 1280) = 5179139571476070 * 2 ^ (-53 : ℤ) := by
  have e : (736 : ℚ) / 1280 = 414 / 720 := by norm_num
  rw [e, fl_414_720]

theorem fl_720_s : fl ((720 : ℚ) * (5179139571476070 * 2 ^ (-53 : ℤ)))
    = 7283165022388223 * 2 ^ (-44 : ℤ) := by
  have h := fl_eq_of (q := (720 : ℚ) * (5179139571476070 * 2 ^ (-53 : ℤ))) (e := 8)
    (n := 7283165022388223)
    (by norm_num) (by norm_num) (by norm_num)
    (by rw [abs_lt]; constructor <;> norm_num)
  rw [h]
  norm_num

theorem fl_481_480 : fl ((481 : ℚ) / 480) = 4512982126594185 * 2 ^ (-52 : ℤ) := by
  have h := fl_eq_of (q := (481 : ℚ) / 480) (e := 0) (n := 4512982126594185)
    (by norm_num) (by norm_num) (by norm_num)
    (by rw [abs_lt]; constructor <;> norm_num)
  rw [h]
  norm_num

theorem fl_480_s : fl ((480 : ℚ) * (4512982126594185 * 2 ^ (-52 : ℤ)))
    = 8461841487364097 * 2 ^ (-44 : ℤ) := by
  have h := fl_eq_of (q := (480 : ℚ) * (4512982126594185 * 2 ^ (-52 : ℤ))) (e := 8)
    (n := 8461841487364097)
    (by norm_num) (by norm_num) (by norm_num)
    (by rw [abs_lt]; constructor <;> norm_num)
  rw [h]
  norm_num

theorem fl_640_s : fl ((640 : ℚ) * (4512982126594185 * 2 ^ (-52 : ℤ)))
    = 5641227658242731 * 2 ^ (-43 : ℤ) := by
  have h := fl_eq_of (q := (640 : ℚ) * (4512982126594185 * 2 ^ (-52 : ℤ))) (e := 9)
    (n := 5641227658242731)
    (by norm_num) (by norm_num) (by norm_num)
    (by rw [abs_lt]; constructor <;> norm_num)
  rw [h]
  norm_num

theorem fl_568_640_le : fl ((568 : ℚ) / 640) ≤ fl ((481 : ℚ) / 480) := by
  apply fl_mono
  norm_num

/-- C1 (the claim fails in doubles): for a 720x1280 source on a 414x736
destination the code computes `dw = 413.99999999999994 < 414` and a positive
`dx`; for a 480x640 source on 481x568 neither `dw = w` nor `dh = h`. -/
theorem coverFit_rounding_breaks_cover :
    (coverFit 720 1280 414 736).dw < 414 ∧ 0 < (coverFit 720 1280 414 736).dx ∧
    (coverFit 480 640 481 568).dw ≠ 481 ∧ (coverFit 480 640 481 568).dh ≠ 568 := by
  have hA : (coverFit 720 1280 414 736).dw = 7283165022388223 * 2 ^ (-44 : ℤ) := by
    simp only [coverFit]
    rw [fl_414_720, fl_736_1280, max_self, fl_720_s]
  have hAlt : (coverFit 720 1280 414 736).dw < 414 := by
    rw [hA]
    norm_num
  have hAx : (coverFit 720 1280 414 736).dx
      = fl (fl (414 - (coverFit 720 1280 414 736).dw) / 2) := rfl
  have hB : max (fl ((481 : ℚ) / 480)) (fl ((568 : ℚ) / 640))
      = 4512982126594185 * 2 ^ (-52 : ℤ) := by
    rw [max_eq_left fl_568_640_le, fl_481_480]
  refine ⟨hAlt, ?_, ?_, ?_⟩
  · rw [hAx]
    apply fl_pos
    apply div_pos _ (by norm_num)
    apply fl_pos
    linarith
  · simp only [coverFit]
    rw [hB, fl_480_s]
    norm_num
  · simp only [coverFit]
    rw [hB, fl_640_s]
    norm_num

theorem coverFit_covers_centered_witness :
    -(coverFit ((640 : ℕ) : ℚ) ((480 : ℕ) : ℚ) ((390 : ℕ) : ℚ) ((844 : ℕ) : ℚ)).dx
      = (coverFit ((640 : ℕ) : ℚ) ((480 : ℕ) : ℚ) ((390 : ℕ) : ℚ) ((844 : ℕ) : ℚ)).dx
        + (coverFit ((640 : ℕ) : ℚ) ((480 : ℕ) : ℚ) ((390 : ℕ) : ℚ) ((844 : ℕ) : ℚ)).dw
        - ((390 : ℕ) : ℚ) :=
  (coverFit_covers_centered 640 480 390 844 640 480 (by norm_num) (by norm_num) (by norm_num)
    (by norm_num) (by norm_num) (by norm_num) (by norm_num) (by norm_num)).2.2.2.2.2.2.2.1


theorem firstPass_getD (t : ℚ) : ∀ (p : ℕ) (data : List ℕ) (c : ℕ), c < 4 →
    4 * p + 3 < data.length →
    (firstPass t data).getD (4 * p + c) 0
      = if isWhiteCloth t (data.getD (4 * p) 0) (data.getD (4 * p + 1) 0)
          (data.getD (4 * p + 2) 0) then 255 else 0 := by
  intro p
  induction p with
  | zero =>
    intro data c hc hlen
    match data, hlen with
    | r :: g :: b :: a :: rest, _ =>
      simp only [firstPass, Nat.mul_zero, Nat.zero_add]
      interval_cases c <;> by_cases hw : isWhiteCloth t r g b = true <;> simp [hw]
  | succ p ih =>
    intro data c hc hlen
    match data, hlen with
    | r :: g :: b :: a :: rest, hlen =>
      have hlen2 : 4 * p + 3 < rest.length := by
        simp only [List.length_cons] at hlen; omega
      have e1 : 4 * (p + 1) + c = (4 * p + c) + 4 := by ring
      have e2 : 4 * (p + 1) = (4 * p) + 4 := by ring
      have e3 : 4 * (p + 1) + 1 = (4 * p + 1) + 4 := by ring
      have e4 : 4 * (p + 1) + 2 = (4 * p + 2) + 4 := by ring
      rw [e1, e3, e4, e2]
      simp only [firstPass, List.getD_cons_succ]
      rw [← ih rest c hc hlen2]
      by_cases hw : isWhiteCloth t r g b = true <;> simp [hw, List.getD_cons_succ]

theorem length_flatMap_range {α : Type} (f : ℕ → List α) (k : ℕ)
    (hf : ∀ i, (f i).length = k) : ∀ n, ((List.range n).flatMap f).length = n * k := by
  intro n
  induction n with
  | zero => simp
  | succ n ih =>
    rw [List.range_succ, List.flatMap_append, List.length_append, ih]
    simp [hf, Nat.succ_mul]

theorem getD_flatMap_range {α : Type} (f : ℕ → List α) (k : ℕ)
    (hf : ∀ i, (f i).length = k) (d : α) : ∀ n i c, i < n → c < k →
    ((List.range n).flatMap f).getD (i * k + c) d = (f i).getD c d := by
  intro n
  induction n with
  | zero => intro i c hi; omega
  | succ n ih =>
    intro i c hi hc
    rw [List.range_succ, List.flatMap_append]
    have hlen := length_flatMap_range f k hf n
    by_cases hin : i < n
    · have hlt : i * k + c < ((List.range n).flatMap f).length := by
        rw [hlen]
        calc i * k + c < i * k + k := by omega
          _ = (i + 1) * k := by ring
          _ ≤ n * k := Nat.mul_le_mul_right k hin
      rw [List.getD_append _ _ _ _ hlt]
      exact ih i c hin hc
    · have hi2 : i = n := by omega
      subst hi2
      have hge : ((List.range i).flatMap f).length ≤ i * k + c := by rw [hlen]; omega
      rw [List.getD_append_right _ _ _ _ hge, hlen]
      simp

theorem foldl_counts {α : Type} (c o : α → Prop) [DecidablePred c] [DecidablePred o] :
    ∀ (l : List α) (init : ℕ × ℕ),
    l.foldl (fun acc a =>
        if c a then (if o a then (acc.1 + 1, acc.2 + 1) else (acc.1, acc.2 + 1)) else acc) init
      = (init.1 + (l.map (fun a => if c a ∧ o a then 1 else 0)).sum,
         init.2 + (l.map (fun a => if c a then 1 else 0)).sum) := by
  intro l
  induction l with
  | nil => intro init; simp
  | cons a l ih =>
    intro init
    rw [List.foldl_cons, ih]
    by_cases hc : c a <;> by_cases ho : o a <;> simp [hc, ho] <;> omega

theorem foldl_add_pair {α : Type} (A B : α → ℕ) :
    ∀ (l : List α) (init : ℕ × ℕ),
    l.foldl (fun acc a => (acc.1 + A a, acc.2 + B a)) init
      = (init.1 + (l.map A).sum, init.2 + (l.map B).sum) := by
  intro l
  induction l with
  | nil => intro init; simp
  | cons a l ih =>
    intro init
    rw [List.foldl_cons, ih]
    simp only [List.map_cons, List.sum_cons, Prod.mk.injEq]
    constructor <;> omega

theorem countNeighbors_eq (width height : ℕ) (m : List ℕ) (x y : ℕ) :
    countNeighbors width height m x y
      = ((offsets.map (fun dy => (offsets.map (fun dx =>
            if (0 ≤ (y : ℤ) + dy ∧ (y : ℤ) + dy < height ∧ 0 ≤ (x : ℤ) + dx ∧ (x : ℤ) + dx < width)
              ∧ m.getD ((((y : ℤ) + dy) * width + ((x : ℤ) + dx)) * 4 + 3).toNat 0 > 0
            then 1 else 0)).sum)).sum,
         (offsets.map (fun dy => (offsets.map (fun dx =>
            if (0 ≤ (y : ℤ) + dy ∧ (y : ℤ) + dy < height ∧ 0 ≤ (x : ℤ) + dx ∧ (x : ℤ) + dx < width)
            then 1 else 0)).sum)).sum) := by
  unfold countNeighbors
  have hin : ∀ (dy : ℤ) (acc : ℕ × ℕ),
      offsets.foldl (fun acc dx =>
        if 0 ≤ (y : ℤ) + dy ∧ (y : ℤ) + dy < height ∧ 0 ≤ (x : ℤ) + dx ∧ (x : ℤ) + dx < width then
          if m.getD ((((y : ℤ) + dy) * width + ((x : ℤ) + dx)) * 4 + 3).toNat 0 > 0
          then (acc.1 + 1, acc.2 + 1) else (acc.1, acc.2 + 1)
        else acc) acc
      = (acc.1 + (offsets.map (fun dx =>
            if (0 ≤ (y : ℤ) + dy ∧ (y : ℤ) + dy < height ∧ 0 ≤ (x : ℤ) + dx ∧ (x : ℤ) + dx < width)
              ∧ m.getD ((((y : ℤ) + dy) * width + ((x : ℤ) + dx)) * 4 + 3).toNat 0 > 0
            then 1 else 0)).sum,
         acc.2 + (offsets.map (fun dx =>
            if (0 ≤ (y : ℤ) + dy ∧ (y : ℤ) + dy < height ∧ 0 ≤ (x : ℤ) + dx ∧ (x : ℤ) + dx < width)
            then 1 else 0)).sum) := by
    intro dy acc
    exact foldl_counts
      (fun dx : ℤ => 0 ≤ (y : ℤ) + dy ∧ (y : ℤ) + dy < height ∧ 0 ≤ (x : ℤ) + dx ∧ (x : ℤ) + dx < width)
      (fun dx : ℤ => m.getD ((((y : ℤ) + dy) * width + ((x : ℤ) + dx)) * 4 + 3).toNat 0 > 0)
      offsets acc
  simp only [hin]
  rw [foldl_add_pair]
  simp

theorem offsets_eq : offsets = [-3, -2, -1, 0, 1, 2, 3] := by
  decide

theorem sum_Icc_offsets (F : ℤ → ℕ) (x : ℕ) :
    ∑ a in Finset.Icc ((x : ℤ) - 3) (x + 3), F a = (offsets.map (fun d => F ((x : ℤ) + d))).sum := by
  have h1 : Finset.Icc ((x : ℤ) - 3) (x + 3)
      = (Finset.Icc (-3 : ℤ) 3).map (addLeftEmbedding (x : ℤ)) := by
    rw [Finset.map_add_left_Icc]
    congr 1
  have h2 : Finset.Icc (-3 : ℤ) 3 = {-3, -2, -1, 0, 1, 2, 3} := by decide
  rw [h1, Finset.sum_map, h2, offsets_eq]
  simp [Finset.sum_insert]

theorem card_filter_window (P : ℤ × ℤ → Prop) [DecidablePred P] (x y : ℕ) :
    (((Finset.Icc ((x : ℤ) - 3) (x + 3)) ×ˢ (Finset.Icc ((y : ℤ) - 3) (y + 3))).filter P).card
      = (offsets.map (fun dy => (offsets.map (fun dx =>
          if P ((x : ℤ) + dx, (y : ℤ) + dy) then 1 else 0)).sum)).sum := by
  rw [Finset.card_filter, Finset.sum_product_right, sum_Icc_offsets]
  congr 1
  apply List.map_congr_left
  intro dy _
  rw [sum_Icc_offsets]

theorem pixel_index_lt (width height : ℕ) (nx ny : ℕ) (hx : nx < width) (hy : ny < height) :
    ny * width + nx < width * height := by
  have h1 : ny * width + width ≤ height * width := by
    calc ny * width + width = (ny + 1) * width := by ring
      _ ≤ height * width := Nat.mul_le_mul_right width hy
  calc ny * width + nx < ny * width + width := by omega
    _ ≤ height * width := h1
    _ = width * height := Nat.mul_comm _ _

theorem countNeighbors_window (width height : ℕ) (m : List ℕ) (x y : ℕ)
    (hm : ∀ p, p < width * height → (m.getD (4 * p + 3) 0 > 0 ↔ Opaque m p)) :
    countNeighbors width height m x y
      = ((windowOpaque m width height x y).card, (window width height x y).card) := by
  rw [countNeighbors_eq]
  unfold windowOpaque window
  rw [Finset.filter_filter, card_filter_window, card_filter_window]
  have hsw : ∀ dx dy : ℤ,
      (0 ≤ (x : ℤ) + dx ∧ (x : ℤ) + dx < width ∧ 0 ≤ (y : ℤ) + dy ∧ (y : ℤ) + dy < height) ↔
      (0 ≤ (y : ℤ) + dy ∧ (y : ℤ) + dy < height ∧ 0 ≤ (x : ℤ) + dx ∧ (x : ℤ) + dx < width) := by
    intro dx dy
    tauto
  simp only [hsw]
  congr 1
  congr 1
  apply List.map_congr_left
  intro dy _
  congr 1
  apply List.map_congr_left
  intro dx _
  have key : (0 ≤ (y : ℤ) + dy ∧ (y : ℤ) + dy < height ∧ 0 ≤ (x : ℤ) + dx ∧ (x : ℤ) + dx < width) →
      (m.getD ((((y : ℤ) + dy) * width + ((x : ℤ) + dx)) * 4 + 3).toNat 0 > 0 ↔
        Opaque m (((y : ℤ) + dy).toNat * width + ((x : ℤ) + dx).toNat)) := by
    rintro ⟨hy0, hy1, hx0, hx1⟩
    obtain ⟨ny, hny⟩ := Int.eq_ofNat_of_zero_le hy0
    obtain ⟨nx, hnx⟩ := Int.eq_ofNat_of_zero_le hx0
    rw [hny] at hy1
    rw [hnx] at hx1
    rw [hny, hnx]
    have e : ((((ny : ℤ) * width + (nx : ℤ)) * 4 + 3)).toNat = 4 * (ny * width + nx) + 3 := by
      have : (((ny : ℤ) * width + (nx : ℤ)) * 4 + 3) = ((4 * (ny * width + nx) + 3 : ℕ) : ℤ) := by
        push_cast; ring
      rw [this, Int.toNat_ofNat]
    rw [e, Int.toNat_ofNat, Int.toNat_ofNat]
    exact hm _ (pixel_index_lt width height nx ny (by exact_mod_cast hx1) (by exact_mod_cast hy1))
  by_cases hin : (0 ≤ (y : ℤ) + dy ∧ (y : ℤ) + dy < height ∧ 0 ≤ (x : ℤ) + dx ∧ (x : ℤ) + dx < width)
  · simp only [hin, true_and, key hin]
  · simp only [hin, false_and]

theorem isWhiteCloth_iff (t : ℚ) (r g b : ℕ) :
    isWhiteCloth t r g b = true ↔
      (ruleBrightDouble t r g b ∨ ruleBalancedDouble t r g b ∨ ruleVeryBrightDouble t r g b) := by
  have hs : (if max r (max g b) > 0 then
        fl (fl (((max r (max g b) : ℕ) : ℚ) - ((min r (min g b) : ℕ) : ℚ))
          / ((max r (max g b) : ℕ) : ℚ))
      else 0) = saturationDouble r g b := by
    unfold saturationDouble
    by_cases h0 : max r (max g b) = 0
    · simp [h0]
    · have : max r (max g b) > 0 := Nat.pos_of_ne_zero h0
      simp [h0, this]
  simp only [isWhiteCloth, hs, Bool.or_eq_true, Bool.and_eq_true, decide_eq_true_eq,
    ruleBrightDouble, ruleBalancedDouble, ruleVeryBrightDouble, brightnessDouble, gt_iff_lt,
    mul_comm t, or_assoc, and_assoc]

theorem brightnessDouble_eq (r g b : ℕ) (h : r + g + b < 2 ^ 53) :
    brightnessDouble r g b = fl (((r + g + b : ℕ) : ℚ) / 3) := by
  have h1 : fl ((r : ℚ) + g) = ((r + g : ℕ) : ℚ) := by
    rw [← Nat.cast_add]
    exact fl_natCast _ (by omega)
  have h2 : fl (((r + g : ℕ) : ℚ) + b) = ((r + g + b : ℕ) : ℚ) := by
    rw [← Nat.cast_add]
    exact fl_natCast _ h
  unfold brightnessDouble
  rw [h1, h2]

/-- Evaluation of the rounding at a natural number below `2^53`, given as a
rational expression. -/
theorem fl_eq_nat (x : ℚ) (n : ℕ) (hn : n < 2 ^ 53) (hx : x = (n : ℚ)) : fl x = (n : ℚ) := by
  rw [hx]
  exact fl_natCast n hn

theorem fl_07 : fl (0.7 : ℚ) = 6305039478318694 * 2 ^ (-53 : ℤ) := by
  have h := fl_eq_of (q := (0.7 : ℚ)) (e := -1) (n := 6305039478318694)
    (by norm_num) (by norm_num) (by norm_num)
    (by rw [abs_lt]; constructor <;> norm_num)
  rw [h]
  norm_num

theorem fl_180_07 : fl ((180 : ℚ) * fl 0.7) = 8866461766385663 * 2 ^ (-46 : ℤ) := by
  rw [fl_07]
  have h := fl_eq_of (q := (180 : ℚ) * (6305039478318694 * 2 ^ (-53 : ℤ))) (e := 6)
    (n := 8866461766385663)
    (by norm_num) (by norm_num) (by norm_num)
    (by rw [abs_lt]; constructor <;> norm_num)
  rw [h]
  norm_num

/-- The bright sample pixel passes the test at threshold 200, by rule (iii). -/
theorem sample_white : isWhiteCloth 200 250 248 245 = true := by
  rw [isWhiteCloth_iff]
  right
  right
  unfold ruleVeryBrightDouble
  have h230 : fl ((200 : ℚ) + 30) = ((230 : ℕ) : ℚ) :=
    fl_eq_nat _ 230 (by norm_num) (by norm_num)
  have h247 : fl (247 : ℚ) = ((247 : ℕ) : ℚ) := fl_eq_nat _ 247 (by norm_num) (by norm_num)
  have h1 : fl (247 : ℚ) ≤ fl (((250 + 248 + 245 : ℕ) : ℚ) / 3) := fl_mono (by norm_num)
  rw [brightnessDouble_eq 250 248 245 (by norm_num), h230]
  rw [h247] at h1
  have : ((230 : ℕ) : ℚ) < ((247 : ℕ) : ℚ) := by norm_num
  exact lt_of_lt_of_le this h1

/-- The dark sample pixel fails the test at threshold 200. -/
theorem sample_dark : isWhiteCloth 200 40 60 80 = false := by
  rw [← Bool.not_eq_true, isWhiteCloth_iff]
  have hb : brightnessDouble 40 60 80 = ((60 : ℕ) : ℚ) := by
    rw [brightnessDouble_eq 40 60 80 (by norm_num)]
    exact fl_eq_nat _ 60 (by norm_num) (by norm_num)
  have h150 : fl ((0.75 : ℚ) * 200) = ((150 : ℕ) : ℚ) :=
    fl_eq_nat _ 150 (by norm_num) (by norm_num)
  have h230 : fl ((200 : ℚ) + 30) = ((230 : ℕ) : ℚ) :=
    fl_eq_nat _ 230 (by norm_num) (by norm_num)
  have h07 : ((100 : ℕ) : ℚ) ≤ fl (fl 0.7 * 200) := by
    have h1 : (1 / 2 : ℚ) ≤ fl 0.7 := by
      have hm := fl_mono (a := (1 / 2 : ℚ)) (b := 0.7) (by norm_num)
      have e : fl (1 / 2 : ℚ) = 1 / 2 := by
        have hg := fl_of_grid 1 (-1) (by norm_num)
        have e2 : ((1 : ℤ) : ℚ) * 2 ^ (-1 : ℤ) = 1 / 2 := by norm_num
        rwa [e2] at hg
      rwa [e] at hm
    have h2 : (100 : ℚ) ≤ fl 0.7 * 200 := by linarith
    have h3 := fl_mono h2
    rwa [fl_eq_nat _ 100 (by norm_num) (by norm_num)] at h3
  rintro (h | h | h)
  · unfold ruleBrightDouble at h
    rw [hb, h150] at h
    norm_num at h
  · unfold ruleBalancedDouble at h
    have h40 := h.1.1
    have : ((40 : ℕ) : ℚ) < ((100 : ℕ) : ℚ) := by norm_num
    linarith
  · unfold ruleVeryBrightDouble at h
    rw [hb, h230] at h
    norm_num at h

theorem firstPass_pixel (t : ℚ) (data : List ℕ) (p : ℕ) (hp : 4 * p + 3 < data.length) :
    (isWhiteCloth t (data.getD (4 * p) 0) (data.getD (4 * p + 1) 0) (data.getD (4 * p + 2) 0) = true
        → Opaque (firstPass t data) p) ∧
    (isWhiteCloth t (data.getD (4 * p) 0) (data.getD (4 * p + 1) 0) (data.getD (4 * p + 2) 0) = false
        → Transparent (firstPass t data) p) := by
  have h0 := firstPass_getD t p data 0 (by norm_num) hp
  have h1 := firstPass_getD t p data 1 (by norm_num) hp
  have h2 := firstPass_getD t p data 2 (by norm_num) hp
  have h3 := firstPass_getD t p data 3 (by norm_num) hp
  rw [Nat.add_zero] at h0
  constructor
  · intro hw
    rw [hw] at h0 h1 h2 h3
    exact ⟨h0, h1, h2, h3⟩
  · intro hw
    rw [hw] at h0 h1 h2 h3
    exact ⟨h0, h1, h2, h3⟩

theorem opaque_not_transparent (m : List ℕ) (p : ℕ) (h : Opaque m p) : ¬ Transparent m p := by
  intro ht
  have := h.1
  rw [ht.1] at this
  exact absurd this (by norm_num)

theorem firstPass_opaque_iff (t : ℚ) (data : List ℕ) (p : ℕ) (hp : 4 * p + 3 < data.length) :
    Opaque (firstPass t data) p ↔
      isWhiteCloth t (data.getD (4 * p) 0) (data.getD (4 * p + 1) 0) (data.getD (4 * p + 2) 0)
        = true := by
  constructor
  · intro ho
    by_contra hw
    rw [Bool.not_eq_true] at hw
    exact opaque_not_transparent _ _ ho ((firstPass_pixel t data p hp).2 hw)
  · exact (firstPass_pixel t data p hp).1

theorem firstPass_alpha_iff (t : ℚ) (data : List ℕ) (p : ℕ) (hp : 4 * p + 3 < data.length) :
    (firstPass t data).getD (4 * p + 3) 0 > 0 ↔ Opaque (firstPass t data) p := by
  rw [firstPass_opaque_iff t data p hp, firstPass_getD t p data 3 (by norm_num) hp]
  by_cases hw : isWhiteCloth t (data.getD (4 * p) 0) (data.getD (4 * p + 1) 0)
      (data.getD (4 * p + 2) 0) = true
  · rw [if_pos hw]
    exact ⟨fun _ => hw, fun _ => by norm_num⟩
  · rw [if_neg hw]
    exact ⟨fun h => absurd h (by norm_num), fun h => absurd h hw⟩

theorem smoothPixel_length (width height : ℕ) (m : List ℕ) (x y : ℕ) :
    (smoothPixel width height m x y).length = 4 := by
  unfold smoothPixel
  simp only []
  split <;> rfl

theorem secondPass_getD (width height : ℕ) (m : List ℕ) (x y c : ℕ)
    (hx : x < width) (hy : y < height) (hc : c < 4) :
    (secondPass width height m).getD (4 * (y * width + x) + c) 0
      = (smoothPixel width height m x y).getD c 0 := by
  unfold secondPass
  have hrow : ∀ y, ((List.range width).flatMap
      (fun x => smoothPixel width height m x y)).length = width * 4 :=
    fun y => length_flatMap_range _ 4 (fun x => smoothPixel_length width height m x y) width
  have e : 4 * (y * width + x) + c = y * (width * 4) + (x * 4 + c) := by ring
  rw [e, getD_flatMap_range _ (width * 4) hrow 0 height y (x * 4 + c) hy (by omega)]
  exact getD_flatMap_range _ 4 (fun x => smoothPixel_length width height m x y) 0 width x c hx hc

theorem secondPass_pixel (width height : ℕ) (m : List ℕ) (x y : ℕ)
    (hx : x < width) (hy : y < height) :
    let cond := ((countNeighbors width height m x y).1 : ℚ) / ((countNeighbors width height m x y).2 : ℚ)
        > 0.3 ∨ m.getD ((y * width + x) * 4 + 3) 0 > 0
    (cond → Opaque (secondPass width height m) (y * width + x)) ∧
    (¬ cond → Transparent (secondPass width height m) (y * width + x)) := by
  intro cond
  have h0 := secondPass_getD width height m x y 0 hx hy (by norm_num)
  have h1 := secondPass_getD width height m x y 1 hx hy (by norm_num)
  have h2 := secondPass_getD width height m x y 2 hx hy (by norm_num)
  have h3 := secondPass_getD width height m x y 3 hx hy (by norm_num)
  rw [Nat.add_zero] at h0
  constructor
  · intro hcnd
    have hs : smoothPixel width height m x y = [255, 255, 255, 255] := by
      unfold smoothPixel
      simp only []
      rw [if_pos hcnd]
    rw [hs] at h0 h1 h2 h3
    exact ⟨h0, h1, h2, h3⟩
  · intro hcnd
    have hs : smoothPixel width height m x y = [0, 0, 0, 0] := by
      unfold smoothPixel
      simp only []
      rw [if_neg hcnd]
    rw [hs] at h0 h1 h2 h3
    exact ⟨h0, h1, h2, h3⟩

/-- C2 (the claim fails with exact products): at threshold 180 the pixel
(126,126,126) is opaque in the first-pass mask, because the double product
`180 * 0.7` is 125.99999999999999, while none of the three rules read in exact
arithmetic fires (126 is not above 126). -/
theorem classification_rounding_counterexample :
    Opaque (firstPass 180 [126, 126, 126, 255]) 0 ∧
    ¬ (ruleBright 180 126 126 126 ∨ ruleBalanced 180 126 126 126 ∨
        ruleVeryBright 180 126 126 126) := by
  constructor
  · apply (firstPass_pixel 180 [126, 126, 126, 255] 0 (by decide)).1
    show isWhiteCloth 180 126 126 126 = true
    rw [isWhiteCloth_iff]
    right
    left
    unfold ruleBalancedDouble
    have h : fl (fl 0.7 * 180) < (126 : ℚ) := by
      rw [mul_comm, fl_180_07]
      norm_num
    refine ⟨⟨?_, ?_, ?_⟩, ?_, ?_, ?_⟩ <;> first | (push_cast; exact h) | norm_num
  · rintro (h | h | h)
    · unfold ruleBright brightnessOf at h
      norm_num at h
    · unfold ruleBalanced at h
      norm_num at h
    · unfold ruleVeryBright brightnessOf at h
      norm_num at h

/-- C2 (amended): in the mask written by the classification pass of
`_detectWhiteCloth`, a pixel is opaque (four channels 255) exactly when one of
the three rules fires, each read in double arithmetic -- the mean, the
saturation quotient and the bounds `0.75 t`, `0.7 t` and `t + 30` are the
rounded double results -- and is all zeros otherwise; with threshold 200 the
pixel (250,248,245) comes out opaque and (40,60,80) transparent. -/
theorem classification_pass_spec (t : ℚ) (data : List ℕ) (p : ℕ)
    (hp : 4 * p + 3 < data.length) :
    (Opaque (firstPass t data) p ↔
      (ruleBrightDouble t (data.getD (4 * p) 0) (data.getD (4 * p + 1) 0)
          (data.getD (4 * p + 2) 0) ∨
       ruleBalancedDouble t (data.getD (4 * p) 0) (data.getD (4 * p + 1) 0)
          (data.getD (4 * p + 2) 0) ∨
       ruleVeryBrightDouble t (data.getD (4 * p) 0) (data.getD (4 * p + 1) 0)
          (data.getD (4 * p + 2) 0))) ∧
    (¬ (ruleBrightDouble t (data.getD (4 * p) 0) (data.getD (4 * p + 1) 0)
          (data.getD (4 * p + 2) 0) ∨
        ruleBalancedDouble t (data.getD (4 * p) 0) (data.getD (4 * p + 1) 0)
          (data.getD (4 * p + 2) 0) ∨
        ruleVeryBrightDouble t (data.getD (4 * p) 0) (data.getD (4 * p + 1) 0)
          (data.getD (4 * p + 2) 0))
      → Transparent (firstPass t data) p) ∧
    Opaque (firstPass 200 [250, 248, 245, 255]) 0 ∧
    Transparent (firstPass 200 [40, 60, 80, 255]) 0 := by
  refine ⟨?_, ?_, ?_, ?_⟩
  · rw [firstPass_opaque_iff t data p hp, isWhiteCloth_iff]
  · intro hno
    apply (firstPass_pixel t data p hp).2
    rw [← Bool.not_eq_true, isWhiteCloth_iff]
    exact hno
  · exact (firstPass_pixel 200 [250, 248, 245, 255] 0 (by decide)).1 sample_white
  · exact (firstPass_pixel 200 [40, 60, 80, 255] 0 (by decide)).2 sample_dark

theorem classification_pass_spec_witness :
    Opaque (firstPass 200 [0, 0, 0, 255, 250, 248, 245, 255]) 1 ↔
      (ruleBrightDouble 200 ([0, 0, 0, 255, 250, 248, 245, 255].getD (4 * 1) 0)
          ([0, 0, 0, 255, 250, 248, 245, 255].getD (4 * 1 + 1) 0)
          ([0, 0, 0, 255, 250, 248, 245, 255].getD (4 * 1 + 2) 0) ∨
       ruleBalancedDouble 200 ([0, 0, 0, 255, 250, 248, 245, 255].getD (4 * 1) 0)
          ([0, 0, 0, 255, 250, 248, 245, 255].getD (4 * 1 + 1) 0)
          ([0, 0, 0, 255, 250, 248, 245, 255].getD (4 * 1 + 2) 0) ∨
       ruleVeryBrightDouble 200 ([0, 0, 0, 255, 250, 248, 245, 255].getD (4 * 1) 0)
          ([0, 0, 0, 255, 250, 248, 245, 255].getD (4 * 1 + 1) 0)
          ([0, 0, 0, 255, 250, 248, 245, 255].getD (4 * 1 + 2) 0)) :=
  (classification_pass_spec 200 [0, 0, 0, 255, 250, 248, 245, 255] 1 (by decide)).1

/-- C3: in the mask returned by `_detectWhiteCloth` for a `width` by `height`
frame, the pixel `(x, y)` is opaque exactly when it was opaque after the first
pass or the share of opaque first-pass pixels in its clipped 7x7 window exceeds
0.3, and is all zeros otherwise. -/
theorem morphological_pass_spec (t : ℚ) (width height : ℕ) (data : List ℕ)
    (hlen : data.length = 4 * (width * height)) (x y : ℕ) (hx : x < width) (hy : y < height) :
    (Opaque (detectWhiteCloth t width height data) (y * width + x) ↔
      (Opaque (firstPass t data) (y * width + x) ∨
        windowRatio (firstPass t data) width height x y > 0.3)) ∧
    (¬ (Opaque (firstPass t data) (y * width + x) ∨
        windowRatio (firstPass t data) width height x y > 0.3)
      → Transparent (detectWhiteCloth t width height data) (y * width + x)) := by
  have hm : ∀ p, p < width * height →
      ((firstPass t data).getD (4 * p + 3) 0 > 0 ↔ Opaque (firstPass t data) p) :=
    fun p hp => firstPass_alpha_iff t data p (by omega)
  have hpix := secondPass_pixel width height (firstPass t data) x y hx hy
  simp only [] at hpix
  rw [countNeighbors_window width height _ x y hm] at hpix
  have e : (y * width + x) * 4 + 3 = 4 * (y * width + x) + 3 := by ring
  rw [e, hm _ (pixel_index_lt width height x y hx hy)] at hpix
  have hc : (Opaque (firstPass t data) (y * width + x) ∨
        windowRatio (firstPass t data) width height x y > 0.3) ↔
      (((windowOpaque (firstPass t data) width height x y).card : ℚ)
          / ((window width height x y).card : ℚ) > 0.3 ∨
        Opaque (firstPass t data) (y * width + x)) := by
    unfold windowRatio
    exact or_comm
  unfold detectWhiteCloth
  rw [hc]
  refine ⟨⟨fun ho => ?_, hpix.1⟩, hpix.2⟩
  by_contra hno
  exact opaque_not_transparent _ _ ho (hpix.2 hno)

theorem morphological_pass_spec_witness :
    (Opaque (detectWhiteCloth 200 2 1 [250, 248, 245, 255, 40, 60, 80, 255]) (0 * 2 + 1) ↔
      (Opaque (firstPass 200 [250, 248, 245, 255, 40, 60, 80, 255]) (0 * 2 + 1) ∨
        windowRatio (firstPass 200 [250, 248, 245, 255, 40, 60, 80, 255]) 2 1 1 0 > 0.3)) ∧
    (¬ (Opaque (firstPass 200 [250, 248, 245, 255, 40, 60, 80, 255]) (0 * 2 + 1) ∨
        windowRatio (firstPass 200 [250, 248, 245, 255, 40, 60, 80, 255]) 2 1 1 0 > 0.3)
      → Transparent (detectWhiteCloth 200 2 1 [250, 248, 245, 255, 40, 60, 80, 255]) (0 * 2 + 1)) :=
  morphological_pass_spec 200 2 1 [250, 248, 245, 255, 40, 60, 80, 255] (by decide) 1 0
    (by decide) (by decide)

/-- C4: the dilation pass only adds pixels: every pixel of the frame that is
opaque after the classification pass is opaque in the mask returned by
`_detectWhiteCloth`. -/
theorem dilation_monotonic (t : ℚ) (width height : ℕ) (data : List ℕ)
    (hlen : data.length = 4 * (width * height)) (p : ℕ) (hp : p < width * height)
    (ho : Opaque (firstPass t data) p) :
    Opaque (detectWhiteCloth t width height data) p := by
  have hw : 0 < width := by
    rcases Nat.eq_zero_or_pos width with h0 | h0
    · rw [h0, Nat.zero_mul] at hp
      omega
    · exact h0
  have hx : p % width < width := Nat.mod_lt _ hw
  have hy : p / width < height := by
    rw [Nat.div_lt_iff_lt_mul hw, Nat.mul_comm]
    exact hp
  have hpe : p / width * width + p % width = p := by
    rw [Nat.mul_comm]
    exact Nat.div_add_mod p width
  have hpix := (secondPass_pixel width height (firstPass t data) (p % width) (p / width) hx hy).1
  rw [hpe] at hpix
  unfold detectWhiteCloth
  apply hpix
  right
  have e : p * 4 + 3 = 4 * p + 3 := by ring
  rw [e]
  exact (firstPass_alpha_iff t data p (by omega)).2 ho

theorem dilation_monotonic_witness :
    Opaque (detectWhiteCloth 200 2 1 [250, 248, 245, 255, 40, 60, 80, 255]) 0 :=
  dilation_monotonic 200 2 1 [250, 248, 245, 255, 40, 60, 80, 255] (by decide) 0 (by decide)
    ((firstPass_pixel 200 [250, 248, 245, 255, 40, 60, 80, 255] 0 (by decide)).1
      sample_white)

/-! ## Compositor: theorems -/

theorem opsOn_map (s : Surface) (l : List Op) :
    opsOn s (l.map (fun o => (s, o))) = l := by
  unfold opsOn
  induction l with
  | nil => rfl
  | cons a l ih =>
    simp only [List.map_cons, List.filter_cons, decide_True, if_true]
    rw [ih]

theorem opsOn_append (s : Surface) (l₁ l₂ : List Cmd) :
    opsOn s (l₁ ++ l₂) = opsOn s l₁ ++ opsOn s l₂ := by
  simp [opsOn]

theorem draws_passes (n : ℕ) (f : Option ℚ) (src : Source) (a b w h : ℚ) (r : Rect) :
    ∀ (g : Option ℚ) (rest : List Op) (st : CtxState) (stack : List CtxState),
    draws ((List.range n).flatMap (fun _ => [Op.setFilter f, Op.drawImage src a b w h r])
        ++ Op.setFilter g :: rest) st stack
      = List.replicate n { src := src, composite := st.composite, filter := f }
        ++ draws rest { st with filter := g } stack := by
  induction n with
  | zero =>
    intro g rest st stack
    simp [draws]
  | succ n ih =>
    intro g rest st stack
    rw [List.range_succ, List.flatMap_append]
    simp only [List.flatMap_cons, List.flatMap_nil, List.append_nil, List.append_assoc,
      List.cons_append, List.nil_append]
    rw [ih, List.replicate_succ', List.append_assoc]
    simp [draws]

/-- The image draws of `onResults` on the output when the effect is off. -/
theorem onResults_draws_inactive (c : Component) (v : Video) (results : Results)
    (h : effectActive c = false) :
    drawsOn Surface.out (onResults c v results).2
      = [{ src := Source.video v.frame, composite := Composite.sourceOver, filter := none }] := by
  unfold drawsOn onResults onResultsOps
  simp only [opsOn_map, h]
  by_cases hm : c.data.mirror = true <;>
    simp [mirrorOps, hm, draws, drawVideoCall, CtxState.initial]

/-- The image draws of `onResults` on the output when the effect is on. -/
theorem onResults_draws_active (c : Component) (v : Video) (results : Results)
    (h : effectActive c = true) :
    drawsOn Surface.out (onResults c v results).2
      = { src := Source.video v.frame, composite := Composite.sourceOver, filter := none }
        :: (maskDrawList c results
          ++ [{ src := Source.bgCanvas c.bgCanvas.pixels,
                composite := Composite.destinationOver, filter := none }]) := by
  unfold drawsOn onResults onResultsOps
  simp only [opsOn_map, h, if_true]
  unfold maskOps maskDrawList
  by_cases hm : c.data.mirror = true <;> by_cases hb : blurPx c > 0 <;>
    by_cases h12 : blurBase c > 12 <;>
    simp [mirrorOps, hm, hb, h12, draws, drawVideoCall, CtxState.initial, plateOps, draws_passes]

theorem effectActive_iff (c : Component) :
    effectActive c = true ↔
      (c.data.enabled = true ∧ c.cloakEnabled = true ∧ c.bgReady = true) := by
  simp [effectActive, and_assoc]

theorem onResults_inactive (c : Component) (v : Video) (results : Results)
    (h : effectActive c = false) :
    (onResults c v results).2
      = videoOnly c.data.mirror c.outCanvas.width c.outCanvas.height v c.internalW c.internalH := by
  unfold onResults onResultsOps videoOnly
  by_cases hm : c.data.mirror = true <;> simp [mirrorOps, hm, h, drawVideoCall]

theorem processFrame_inactive (c : Component) (v : Video) (h : effectActive c = false) :
    (processFrame c v).2
      = videoOnly c.data.mirror c.outCanvas.width c.outCanvas.height v c.internalW c.internalH := by
  unfold processFrame processFrameCmds videoOnly
  by_cases hm : c.data.mirror = true <;> simp [mirrorOps, hm, h, drawVideoCall]

/-- The image draws of `_processFrame` on the output. -/
theorem processFrame_draws_out (c : Component) (v : Video) :
    drawsOn Surface.out (processFrame c v).2
      = { src := Source.video v.frame, composite := Composite.sourceOver, filter := none }
        :: (if effectActive c then
              [{ src := Source.tempCanvas, composite := Composite.destinationOut, filter := none },
               { src := Source.bgCanvas c.bgCanvas.pixels,
                 composite := Composite.destinationOver, filter := none }]
            else []) := by
  unfold drawsOn processFrame processFrameCmds cloakOps tempBlurOps
  by_cases hm : c.data.mirror = true <;> by_cases ha : effectActive c = true <;>
    by_cases hb : blurPx c > 0 <;>
    simp [opsOn, mirrorOps, hm, ha, hb, draws, drawVideoCall, CtxState.initial, plateOps]

/-- The image draws of `_processFrame` on the temp canvas. -/
theorem processFrame_draws_temp (c : Component) (v : Video) :
    drawsOn Surface.temp (processFrame c v).2
      = if effectActive c then
          { src := Source.maskCanvas, composite := Composite.sourceOver, filter := none }
            :: (if blurPx c > 0 then
                  [{ src := Source.tempCanvas, composite := Composite.sourceOver,
                     filter := some (blurPx c) }]
                else [])
        else [] := by
  unfold drawsOn processFrame processFrameCmds cloakOps tempBlurOps
  by_cases hm : c.data.mirror = true <;> by_cases ha : effectActive c = true <;>
    by_cases hb : blurPx c > 0 <;>
    simp [opsOn, mirrorOps, hm, ha, hb, draws, drawVideoCall, CtxState.initial, plateOps]

theorem blurBase_nonneg (c : Component) : 0 ≤ blurBase c := le_max_left _ _

theorem passes_bounds (b : ℤ) (h12 : 12 < b) :
    1 ≤ min 3 ⌊(b : ℚ) / 8⌋ ∧ min 3 ⌊(b : ℚ) / 8⌋ ≤ 3 := by
  refine ⟨le_min (by norm_num) ?_, min_le_left _ _⟩
  rw [Int.le_floor]
  have : (13 : ℚ) ≤ b := by exact_mod_cast h12
  push_cast
  linarith

theorem maskDrawList_ne_nil (c : Component) (results : Results) :
    maskDrawList c results ≠ [] := by
  unfold maskDrawList
  by_cases hb : blurPx c > 0 <;> by_cases h12 : blurBase c > 12
  · have hp := (passes_bounds (blurBase c) h12).1
    obtain ⟨n, hn⟩ : ∃ n, (min 3 ⌊(blurBase c : ℚ) / 8⌋).toNat = n + 1 :=
      ⟨(min 3 ⌊(blurBase c : ℚ) / 8⌋).toNat - 1, by omega⟩
    simp only [hb, h12, if_true, hn]
    simp [List.replicate_succ]
  · simp [hb, h12]
  · simp [hb]
  · simp [hb]

theorem maskDrawList_mem (c : Component) (results : Results) (d : Draw)
    (hd : d ∈ maskDrawList c results) :
    d.composite = Composite.destinationOut ∧
      d.src = Source.segmentationMask results.segmentationMask := by
  unfold maskDrawList at hd
  by_cases hb : blurPx c > 0 <;> by_cases h12 : blurBase c > 12
  · simp only [hb, h12, if_true] at hd
    rw [List.eq_of_mem_replicate hd]
    exact ⟨rfl, rfl⟩
  · simp only [hb, h12, if_true, if_false, List.mem_singleton] at hd
    rw [hd]
    exact ⟨rfl, rfl⟩
  · simp only [hb, if_false, List.mem_singleton] at hd
    rw [hd]
    exact ⟨rfl, rfl⟩
  · simp only [hb, if_false, List.mem_singleton] at hd
    rw [hd]
    exact ⟨rfl, rfl⟩

theorem onResults_erase_active (c : Component) (v : Video) (results : Results)
    (h : effectActive c = true) :
    eraseDraws (onResults c v results).2 = maskDrawList c results := by
  unfold eraseDraws
  rw [onResults_draws_active c v results h]
  have hself : (maskDrawList c results).filter
      (fun d => d.composite = Composite.destinationOut) = maskDrawList c results := by
    rw [List.filter_eq_self]
    intro d hd
    simp [(maskDrawList_mem c results d hd).1]
  simp [List.filter_cons, hself]

theorem onResults_reveal_active (c : Component) (v : Video) (results : Results)
    (h : effectActive c = true) :
    revealDraws (onResults c v results).2
      = [{ src := Source.bgCanvas c.bgCanvas.pixels,
           composite := Composite.destinationOver, filter := none }] := by
  unfold revealDraws
  rw [onResults_draws_active c v results h]
  have hnone : (maskDrawList c results).filter
      (fun d => d.composite = Composite.destinationOver) = [] := by
    rw [List.filter_eq_nil_iff]
    intro d hd
    simp [(maskDrawList_mem c results d hd).1]
  simp [List.filter_cons, hnone]

/-- C5: in both components the erase draw (mask under `destination-out`) and
the reveal draw (plate under `destination-over`) are issued exactly when
`enabled`, `cloakEnabled` and `bgReady` all hold; otherwise the calls are
exactly clear, then the cover-fit video mirrored per `mirror`, which depends on
neither plate nor mask; and `enabled` with the plate not ready issues the same
calls as `enabled = false`. -/
theorem compositor_gating (c : Component) (v : Video) (results : Results) :
    (eraseDraws (onResults c v results).2 ≠ [] ↔
      (c.data.enabled = true ∧ c.cloakEnabled = true ∧ c.bgReady = true)) ∧
    (revealDraws (onResults c v results).2 ≠ [] ↔
      (c.data.enabled = true ∧ c.cloakEnabled = true ∧ c.bgReady = true)) ∧
    (eraseDraws (processFrame c v).2 ≠ [] ↔
      (c.data.enabled = true ∧ c.cloakEnabled = true ∧ c.bgReady = true)) ∧
    (revealDraws (processFrame c v).2 ≠ [] ↔
      (c.data.enabled = true ∧ c.cloakEnabled = true ∧ c.bgReady = true)) ∧
    ((c.data.enabled = true ∧ c.cloakEnabled = true ∧ c.bgReady = true) ∨
      ((onResults c v results).2
          = videoOnly c.data.mirror c.outCanvas.width c.outCanvas.height v
              c.internalW c.internalH ∧
       (processFrame c v).2
          = videoOnly c.data.mirror c.outCanvas.width c.outCanvas.height v
              c.internalW c.internalH)) ∧
    (onResults { c with data := { c.data with enabled := true }, bgReady := false } v results).2
      = (onResults { c with data := { c.data with enabled := false } } v results).2 ∧
    (processFrame { c with data := { c.data with enabled := true }, bgReady := false } v).2
      = (processFrame { c with data := { c.data with enabled := false } } v).2 := by
  rw [← effectActive_iff]
  refine ⟨?_, ?_, ?_, ?_, ?_, ?_, ?_⟩
  · by_cases ha : effectActive c = true
    · rw [onResults_erase_active c v results ha]
      exact ⟨fun _ => ha, fun _ => maskDrawList_ne_nil c results⟩
    · have hf : effectActive c = false := by simpa using ha
      unfold eraseDraws
      rw [onResults_draws_inactive c v results hf]
      simp [ha]
  · by_cases ha : effectActive c = true
    · rw [onResults_reveal_active c v results ha]
      simp [ha]
    · have hf : effectActive c = false := by simpa using ha
      unfold revealDraws
      rw [onResults_draws_inactive c v results hf]
      simp [ha]
  · unfold eraseDraws
    rw [processFrame_draws_out]
    by_cases ha : effectActive c = true <;> simp [ha]
  · unfold revealDraws
    rw [processFrame_draws_out]
    by_cases ha : effectActive c = true <;> simp [ha]
  · by_cases ha : effectActive c = true
    · exact Or.inl ha
    · have hf : effectActive c = false := by simpa using ha
      exact Or.inr ⟨onResults_inactive c v results hf, processFrame_inactive c v hf⟩
  · rw [onResults_inactive _ v results (by simp [effectActive]),
      onResults_inactive _ v results (by simp [effectActive])]
  · rw [processFrame_inactive _ v (by simp [effectActive]),
      processFrame_inactive _ v (by simp [effectActive])]

theorem toInt32_of_lt (b : ℤ) (h0 : 0 ≤ b) (hlt : b < 2 ^ 31) : toInt32 (b : ℚ) = b := by
  unfold toInt32
  have hq : (0 : ℚ) ≤ (b : ℚ) := by exact_mod_cast h0
  simp only [hq, if_true, Int.floor_intCast]
  rw [Int.emod_eq_of_lt (by omega) (by omega)]
  ring

theorem blurBase_of_lt (c : Component) (b : ℤ) (hb : c.data.blur = b) (h0 : 0 ≤ b)
    (hlt : b < 2 ^ 31) : blurBase c = b := by
  unfold blurBase
  rw [hb, toInt32_of_lt b h0 hlt]
  exact max_eq_right h0

/-- C6 (the claim fails at large radii): with `blur = 2^31`, `dpr = 1` and the
effect active, `blur | 0` wraps to a negative number, so the mask is drawn once
with no blur filter, although the radius exceeds 12 and the plan
`min(3, floor(b/8))` would be three passes. -/
theorem blur_plan_wraps_at_large_radius :
    (eraseDraws (onResults (sampleComponent 2147483648) sampleVideo sampleResults).2).map
        (fun d => d.filter) = [none] ∧
    blurPlan 2147483648 1
      = [some (2147483648 / 3), some (2147483648 / 3), some (2147483648 / 3)] ∧
    (eraseDraws (onResults (sampleComponent 2147483648) sampleVideo sampleResults).2).map
        (fun d => d.filter) ≠ blurPlan 2147483648 1 := by
  have hcode : (eraseDraws (onResults (sampleComponent 2147483648) sampleVideo
      sampleResults).2).map (fun d => d.filter) = [none] := by
    rw [onResults_erase_active _ _ _ (by decide)]
    have hb : blurBase (sampleComponent 2147483648) = 0 := by
      simp [blurBase, sampleComponent, toInt32]
    simp [maskDrawList, blurPx, hb]
  have hplan : blurPlan 2147483648 1
      = [some (2147483648 / 3), some (2147483648 / 3), some (2147483648 / 3)] := by
    have hfl : ⌊(2147483648 : ℚ) / 8⌋ = 268435456 := by
      rw [Int.floor_eq_iff]
      norm_num
    unfold blurPlan
    simp only [Int.cast_ofNat, hfl]
    norm_num [List.replicate]
  refine ⟨hcode, hplan, ?_⟩
  rw [hcode, hplan]
  simp

/-- C6 (amended): for an integer logical radius `0 <= b < 2^31` and a device
pixel ratio in [1,3], with the effect active, the mask draws of `onResults`
follow the plan: one unblurred draw for `b = 0`, one pass of radius `b * dpr`
for `1 <= b <= 12`, and `min(3, floor(b/8))` passes of radius
`b * dpr / passes` above 12, where the pass count lies in 1..3; `b = 18` gives
two passes of radius `9 * dpr`. -/
theorem blur_plan_spec (c : Component) (v : Video) (results : Results) (b : ℤ) (dpr : ℚ)
    (hact : effectActive c = true) (hb : c.data.blur = b) (hd : c.dpr = some dpr)
    (h1 : 1 ≤ dpr) (_h3 : dpr ≤ 3) (h0 : 0 ≤ b) (hlt : b < 2 ^ 31) :
    (eraseDraws (onResults c v results).2).map (fun d => d.filter) = blurPlan b dpr ∧
    (∀ d ∈ eraseDraws (onResults c v results).2,
      d.src = Source.segmentationMask results.segmentationMask) ∧
    (b ≤ 12 ∨ (1 ≤ min 3 ⌊(b : ℚ) / 8⌋ ∧ min 3 ⌊(b : ℚ) / 8⌋ ≤ 3)) ∧
    blurPlan 18 dpr = [some (9 * dpr), some (9 * dpr)] := by
  have hbase : blurBase c = b := blurBase_of_lt c b hb h0 hlt
  have hdpr : dprOr1 c = dpr := by
    unfold dprOr1
    rw [hd]
    have : dpr ≠ 0 := by linarith
    simp [this]
  have hpx : blurPx c = (b : ℚ) * dpr := by
    unfold blurPx
    rw [hbase, hdpr]
  rw [onResults_erase_active c v results hact]
  refine ⟨?_, fun d hd => (maskDrawList_mem c results d hd).2, ?_, ?_⟩
  · unfold maskDrawList blurPlan
    rw [hpx, hbase]
    by_cases hz : b = 0
    · simp [hz]
    · have hbpos : (0 : ℚ) < (b : ℚ) := by
        have : 0 < b := lt_of_le_of_ne h0 (Ne.symm hz)
        exact_mod_cast this
      have hpos : (b : ℚ) * dpr > 0 := mul_pos hbpos (by linarith)
      by_cases h12 : b ≤ 12
      · have : ¬ b > 12 := by omega
        simp [hz, hpos, h12, this]
      · have : b > 12 := by omega
        simp [hz, hpos, h12, this]
  · by_cases h12 : b ≤ 12
    · exact Or.inl h12
    · exact Or.inr (passes_bounds b (by omega))
  · have hfl : ⌊(18 : ℚ) / 8⌋ = 2 := by
      rw [Int.floor_eq_iff]
      norm_num
    unfold blurPlan
    simp only [Int.cast_ofNat, hfl]
    norm_num [List.replicate]
    ring

theorem blur_plan_spec_witness :
    (eraseDraws (onResults (sampleComponent 18) sampleVideo sampleResults).2).map
        (fun d => d.filter) = blurPlan 18 1 ∧
    (∀ d ∈ eraseDraws (onResults (sampleComponent 18) sampleVideo sampleResults).2,
      d.src = Source.segmentationMask sampleResults.segmentationMask) ∧
    ((18 : ℤ) ≤ 12 ∨ (1 ≤ min 3 ⌊((18 : ℤ) : ℚ) / 8⌋ ∧ min 3 ⌊((18 : ℤ) : ℚ) / 8⌋ ≤ 3)) ∧
    blurPlan 18 1 = [some (9 * 1), some (9 * 1)] :=
  blur_plan_spec (sampleComponent 18) sampleVideo sampleResults 18 1 (by decide)
    (by simp [sampleComponent]) rfl (by norm_num) (by norm_num) (by norm_num) (by norm_num)

theorem floor_eighth_eq_one (b : ℤ) (h12 : 12 < b) (h15 : b ≤ 15) : ⌊(b : ℚ) / 8⌋ = 1 := by
  rw [Int.floor_eq_iff]
  have h1 : (13 : ℚ) ≤ b := by exact_mod_cast h12
  have h2 : (b : ℚ) ≤ 15 := by exact_mod_cast h15
  constructor
  · push_cast
    linarith
  · push_cast
    linarith

/-- For every configuration whose integer radius `max(0, blur | 0)` is at most
15, the blur passes `_processFrame` applies to the mask on the temp canvas are
those `onResults` applies on the output: none when the effect is off or the
radius is 0, else one pass of radius `blurBase * dpr` (for 13..15 the pass
count `min(3, floor(blurBase / 8))` of `onResults` is 1). -/
theorem feathering_same_up_to_15 (c : Component) (v : Video) (results : Results)
    (h15 : blurBase c ≤ 15) :
    blurPasses Surface.temp (processFrame c v).2
      = blurPasses Surface.out (onResults c v results).2 ∧
    blurPasses Surface.temp (processFrame c v).2
      = (if effectActive c = true ∧ blurPx c > 0 then [blurPx c] else []) := by
  unfold blurPasses
  rw [processFrame_draws_temp]
  by_cases ha : effectActive c = true
  · rw [onResults_draws_active c v results ha]
    by_cases hb : blurPx c > 0
    · by_cases h12 : blurBase c > 12
      · have hfl := floor_eighth_eq_one (blurBase c) h12 h15
        simp [ha, hb, h12, maskDrawList, hfl]
      · simp [ha, hb, h12, maskDrawList]
    · simp [ha, hb, maskDrawList]
  · have hf : effectActive c = false := by simpa using ha
    rw [onResults_draws_inactive c v results hf]
    simp [ha]

/-- From the integer radius 16 on, with the effect active and a positive
pixel radius, `_processFrame` blurs the mask in one pass of the full radius
while `onResults` uses at least two passes. -/
theorem feathering_differs_from_16 (c : Component) (v : Video) (results : Results)
    (ha : effectActive c = true) (hb : blurPx c > 0) (h16 : 16 ≤ blurBase c) :
    blurPasses Surface.temp (processFrame c v).2 = [blurPx c] ∧
    2 ≤ (blurPasses Surface.out (onResults c v results).2).length := by
  have h12 : blurBase c > 12 := by omega
  have hfl : (2 : ℤ) ≤ ⌊(blurBase c : ℚ) / 8⌋ := by
    rw [Int.le_floor]
    have : (16 : ℚ) ≤ blurBase c := by exact_mod_cast h16
    push_cast
    linarith
  have hp : (2 : ℤ) ≤ min 3 ⌊(blurBase c : ℚ) / 8⌋ := le_min (by norm_num) hfl
  obtain ⟨n, hn⟩ : ∃ n, (min 3 ⌊(blurBase c : ℚ) / 8⌋).toNat = n + 2 :=
    ⟨(min 3 ⌊(blurBase c : ℚ) / 8⌋).toNat - 2, by omega⟩
  unfold blurPasses
  rw [processFrame_draws_temp, onResults_draws_active c v results ha]
  constructor
  · simp [ha, hb]
  · unfold maskDrawList
    simp only [hb, h12, if_true, hn]
    simp [List.replicate_succ, List.filterMap_cons]

/-- C7 (the code at the failing input): with `blur = 18`, `dpr = 1` and the
effect active, the heuristic `_processFrame` blurs the mask in one pass of
radius 18, while the learned `onResults` uses two passes of radius 9, so the
two sequences of blur passes differ. -/
theorem feathering_differs_at_18 :
    blurPasses Surface.temp (processFrame (sampleComponent 18) sampleVideo).2 = [18] ∧
    blurPasses Surface.out (onResults (sampleComponent 18) sampleVideo sampleResults).2
      = [9, 9] ∧
    blurPasses Surface.temp (processFrame (sampleComponent 18) sampleVideo).2
      ≠ blurPasses Surface.out (onResults (sampleComponent 18) sampleVideo sampleResults).2 := by
  have hb : blurBase (sampleComponent 18) = 18 :=
    blurBase_of_lt _ 18 (by simp [sampleComponent]) (by norm_num) (by norm_num)
  have hpx : blurPx (sampleComponent 18) = 18 := by
    unfold blurPx
    rw [hb]
    simp [dprOr1, sampleComponent]
  have hact : effectActive (sampleComponent 18) = true := by decide
  have hfl : ⌊(18 : ℚ) / 8⌋ = 2 := by
    rw [Int.floor_eq_iff]
    norm_num
  have hheur : blurPasses Surface.temp (processFrame (sampleComponent 18) sampleVideo).2
      = [18] := by
    unfold blurPasses
    rw [processFrame_draws_temp]
    simp [hact, hpx]
  have hlearn : blurPasses Surface.out
      (onResults (sampleComponent 18) sampleVideo sampleResults).2 = [9, 9] := by
    unfold blurPasses
    rw [onResults_draws_active _ _ _ hact]
    simp [maskDrawList, hpx, hb, hfl, List.replicate]
    norm_num
  refine ⟨hheur, hlearn, ?_⟩
  rw [hheur, hlearn]
  simp

/-! ## Frame scheduler: theorems -/

theorem markFirstResult_fields (c : Component) :
    (markFirstResult c).sending = c.sending ∧ (markFirstResult c).inFlight = c.inFlight ∧
    (markFirstResult c).pendingFrame = c.pendingFrame ∧ (markFirstResult c).alive = c.alive := by
  unfold markFirstResult
  split <;> exact ⟨rfl, rfl, rfl, rfl⟩

theorem resizeScratch_fields (c : Component) :
    (resizeScratch c).sending = c.sending ∧ (resizeScratch c).inFlight = c.inFlight ∧
    (resizeScratch c).pendingFrame = c.pendingFrame ∧ (resizeScratch c).alive = c.alive := by
  unfold resizeScratch
  split <;> exact ⟨rfl, rfl, rfl, rfl⟩

theorem afterThrow_fields (c : Component) (n : ℕ) :
    (afterThrow c n).sending = c.sending ∧ (afterThrow c n).inFlight = c.inFlight ∧
    (afterThrow c n).pendingFrame = c.pendingFrame ∧ (afterThrow c n).alive = c.alive := by
  unfold afterThrow
  split
  · exact ⟨(resizeScratch_fields _).1.trans (markFirstResult_fields c).1,
      (resizeScratch_fields _).2.1.trans (markFirstResult_fields c).2.1,
      (resizeScratch_fields _).2.2.1.trans (markFirstResult_fields c).2.2.1,
      (resizeScratch_fields _).2.2.2.trans (markFirstResult_fields c).2.2.2⟩
  · exact markFirstResult_fields c

theorem scheduleNext_fields (c : Component) :
    (scheduleNext c).1.sending = c.sending ∧ (scheduleNext c).1.inFlight = c.inFlight ∧
    (scheduleNext c).1.alive = c.alive := by
  unfold scheduleNext
  split <;> exact ⟨rfl, rfl, rfl⟩

theorem canSubmit_sending (c : Component) (h : canSubmit c = true) : c.sending = false := by
  unfold canSubmit at h
  simp only [Bool.and_eq_true, Bool.not_eq_true'] at h
  exact h.2

theorem frameCallback_inv (c : Component) (hs : c.sending = false) (h0 : c.inFlight = 0)
    (hp : c.pendingFrame = false) : SingleFlight (frameCallback c).1 := by
  unfold frameCallback SingleFlight
  by_cases ha : c.alive = true
  · by_cases hc : canSubmit c = true
    · simp only [ha, hc, Bool.not_true, if_true, Bool.false_eq_true, if_false]
      exact ⟨by simp [h0], fun _ => hp⟩
    · have hsn := (scheduleNext_fields c).1
      have hin := (scheduleNext_fields c).2.1
      simp only [ha, hc, Bool.not_true, Bool.false_eq_true, if_false]
      rw [hsn, hin, hs, h0]
      exact ⟨by simp, fun h => absurd h (by simp)⟩
  · have hf : c.alive = false := by simpa using ha
    simp only [hf, Bool.not_false, if_true]
    rw [hs, h0]
    exact ⟨by simp, fun h => absurd h (by simp)⟩

theorem singleFlight_of_idle (c : Component) (hs : c.sending = false) (h0 : c.inFlight = 0) :
    SingleFlight c := by
  unfold SingleFlight
  rw [hs, h0]
  exact ⟨by simp, fun h => absurd h (by simp)⟩

theorem singleFlight_le_one (c : Component) (hi : SingleFlight c) : c.inFlight ≤ 1 := by
  have h := hi.1
  by_cases hs : c.sending = true
  · rw [hs] at h
    simp at h
    omega
  · have hf : c.sending = false := by simpa using hs
    rw [hf] at h
    simp at h
    omega

theorem afterSend_inv (c : Component) (ok : Bool) (hi : SingleFlight c) :
    SingleFlight (afterSend c ok).1 := by
  have hle := singleFlight_le_one c hi
  apply singleFlight_of_idle
  · unfold afterSend
    simp only []
    rw [(scheduleNext_fields _).1]
  · unfold afterSend
    simp only []
    rw [(scheduleNext_fields _).2.1]
    show c.inFlight - 1 = 0
    omega

theorem cloakFrameCallback_inv (c : Component) (throwsAfter : Option ℕ)
    (hs : c.sending = false) (h0 : c.inFlight = 0) :
    SingleFlight (cloakFrameCallback c throwsAfter).1 := by
  apply singleFlight_of_idle
  · unfold cloakFrameCallback
    by_cases ha : c.alive = true
    · by_cases hc : canSubmit c = true
      · simp only [ha, hc, Bool.not_true, if_true, Bool.false_eq_true, if_false]
        rw [(scheduleNext_fields _).1]
      · simp only [ha, hc, Bool.not_true, Bool.false_eq_true, if_false]
        rw [(scheduleNext_fields _).1, hs]
    · have hf : c.alive = false := by simpa using ha
      simp only [hf, Bool.not_false, if_true]
      exact hs
  · unfold cloakFrameCallback
    by_cases ha : c.alive = true
    · by_cases hc : canSubmit c = true
      · simp only [ha, hc, Bool.not_true, if_true, Bool.false_eq_true, if_false]
        rw [(scheduleNext_fields _).2.1]
        cases hv : c.video with
        | none =>
          simp only []
          rw [(markFirstResult_fields _).2.1]
          exact h0
        | some v =>
          cases throwsAfter with
          | none =>
            simp only [processFrame]
            rw [(resizeScratch_fields _).2.1, (markFirstResult_fields _).2.1]
            exact h0
          | some n =>
            simp only []
            rw [(afterThrow_fields _ n).2.1]
            exact h0
      · simp only [ha, hc, Bool.not_true, Bool.false_eq_true, if_false]
        rw [(scheduleNext_fields _).2.1, h0]
    · have hf : c.alive = false := by simpa using ha
      simp only [hf, Bool.not_false, if_true]
      exact h0

theorem step_inv (k : Variant) (c : Component) (e : Event) (hi : SingleFlight c) :
    SingleFlight (step k c e).1 := by
  cases e with
  | frame throwsAfter =>
    unfold step
    by_cases hp : c.pendingFrame = true
    · have hs : c.sending = false := by
        by_contra hne
        have ht : c.sending = true := by simpa using hne
        have := hi.2 ht
        rw [hp] at this
        exact absurd this (by simp)
      have h0 : c.inFlight = 0 := by
        have := hi.1
        rw [hs] at this
        simpa using this
      simp only [hp, if_true]
      cases k with
      | learned => exact frameCallback_inv _ hs h0 rfl
      | heuristic => exact cloakFrameCallback_inv _ throwsAfter hs h0
    · simp only [hp, if_false]
      exact hi
  | sendSettled ok =>
    unfold step
    cases k with
    | learned =>
      by_cases h : 0 < c.inFlight
      · simp only [h, if_true]
        exact afterSend_inv c ok hi
      · simp only [h, if_false]
        exact hi
    | heuristic => exact hi
  | results r =>
    unfold step
    cases k with
    | learned =>
      cases hv : c.video with
      | none => exact hi
      | some v =>
        simp only [onResults]
        unfold SingleFlight
        rw [(markFirstResult_fields c).1, (markFirstResult_fields c).2.1,
          (markFirstResult_fields c).2.2.1]
        exact hi
    | heuristic => exact hi
  | setEnabled value => exact hi
  | toggleCloak => exact hi
  | visibility hidden =>
    unfold step
    by_cases ha : c.alive = true
    · simp only [ha, if_true]
      exact hi
    · simp only [ha, if_false]
      exact hi
  | readyState n => exact hi
  | remove =>
    unfold step remove SingleFlight
    exact ⟨hi.1, fun _ => rfl⟩

theorem reachable_inv (k : Variant) (c : Component) (hr : Reachable k c) : SingleFlight c := by
  induction hr with
  | init c hs hf => exact singleFlight_of_idle c hs hf
  | step c e _ ih => exact step_inv k c e ih

theorem canSubmit_iff (c : Component) :
    canSubmit c = true ↔
      (c.data.enabled = true ∧ c.paused = false ∧
        (∃ v, c.video = some v ∧ 2 ≤ v.readyState) ∧ c.sending = false) := by
  unfold canSubmit videoReady
  cases hv : c.video with
  | none => simp
  | some v => simp [and_assoc]

theorem frameCallback_requests (c : Component) :
    (frameCallback c).2.requests = (if c.alive = true ∧ canSubmit c = true then 1 else 0) := by
  unfold frameCallback
  by_cases ha : c.alive = true <;> by_cases hc : canSubmit c = true <;>
    simp [ha, hc, Effect.idle]

theorem cloakFrameCallback_requests (c : Component) (t : Option ℕ) :
    (cloakFrameCallback c t).2.requests
      = (if c.alive = true ∧ canSubmit c = true then 1 else 0) := by
  unfold cloakFrameCallback
  by_cases ha : c.alive = true <;> by_cases hc : canSubmit c = true <;>
    simp [ha, hc, Effect.idle]

theorem step_requests_outstanding (k : Variant) (c : Component) (e : Event)
    (hi : SingleFlight c) (h : 0 < c.inFlight) : (step k c e).2.requests = 0 := by
  have hs : c.sending = true := by
    by_contra hne
    have hf : c.sending = false := by simpa using hne
    have := hi.1
    rw [hf] at this
    simp at this
    omega
  have hp : c.pendingFrame = false := hi.2 hs
  cases e with
  | frame throwsAfter =>
    unfold step
    simp [hp, Effect.idle]
  | sendSettled ok =>
    unfold step
    cases k <;> simp [h, afterSend, Effect.idle]
  | results r =>
    unfold step
    cases k <;> cases c.video <;> simp [Effect.idle]
  | setEnabled value => rfl
  | toggleCloak => rfl
  | visibility hidden => rfl
  | readyState n => rfl
  | remove => rfl

/-- C8: the frame callback of either component submits a mask request exactly
when the component is alive and enabled, not paused, the video has
`readyState >= 2` and `sending` is false; submitting sets `sending`, settling
(resolve or reject, or the synchronous `finally`) resets it; and in every
reachable state at most one request is in flight, `sending` tells whether one
is, and no event submits a request while one is outstanding. -/
theorem single_flight (k : Variant) (c : Component) (hr : Reachable k c) (e : Event)
    (ok : Bool) (t : Option ℕ) :
    ((frameCallback c).2.requests = 1 ↔
      (c.alive = true ∧ c.data.enabled = true ∧ c.paused = false ∧
        (∃ v, c.video = some v ∧ 2 ≤ v.readyState) ∧ c.sending = false)) ∧
    ((cloakFrameCallback c t).2.requests = 1 ↔
      (c.alive = true ∧ c.data.enabled = true ∧ c.paused = false ∧
        (∃ v, c.video = some v ∧ 2 ≤ v.readyState) ∧ c.sending = false)) ∧
    (frameCallback c).2.requests ≤ 1 ∧ (cloakFrameCallback c t).2.requests ≤ 1 ∧
    ((frameCallback c).2.requests = 0 ∨
      ((frameCallback c).1.sending = true ∧ (frameCallback c).1.inFlight = c.inFlight + 1)) ∧
    ((afterSend c ok).1.sending = false ∧ (afterSend c ok).1.inFlight = c.inFlight - 1) ∧
    ((cloakFrameCallback c t).2.requests = 0 ∨ (cloakFrameCallback c t).1.sending = false) ∧
    c.inFlight ≤ 1 ∧ (c.inFlight = 1 ↔ c.sending = true) ∧
    (c.inFlight = 0 ∨ (step k c e).2.requests = 0) ∧
    (step k c e).1.inFlight ≤ 1 := by
  have hi := reachable_inv k c hr
  refine ⟨?_, ?_, ?_, ?_, ?_, ?_, ?_, singleFlight_le_one c hi, ?_, ?_,
    singleFlight_le_one _ (step_inv k c e hi)⟩
  · rw [frameCallback_requests, ← canSubmit_iff]
    by_cases h : c.alive = true ∧ canSubmit c = true <;> simp [h]
  · rw [cloakFrameCallback_requests, ← canSubmit_iff]
    by_cases h : c.alive = true ∧ canSubmit c = true <;> simp [h]
  · rw [frameCallback_requests]
    split <;> omega
  · rw [cloakFrameCallback_requests]
    split <;> omega
  · unfold frameCallback
    by_cases ha : c.alive = true <;> by_cases hc : canSubmit c = true <;>
      simp [ha, hc, Effect.idle]
  · unfold afterSend
    simp only []
    rw [(scheduleNext_fields _).1, (scheduleNext_fields _).2.1]
    exact ⟨rfl, rfl⟩
  · unfold cloakFrameCallback
    by_cases ha : c.alive = true <;> by_cases hc : canSubmit c = true
    · right
      simp only [ha, hc, Bool.not_true, if_true, Bool.false_eq_true, if_false]
      rw [(scheduleNext_fields _).1]
    · left
      simp [ha, hc]
    · left
      simp [ha, Effect.idle]
    · left
      simp [ha, Effect.idle]
  · have h := hi.1
    by_cases hs : c.sending = true
    · rw [hs] at h
      simp at h
      simp [h, hs]
    · have hf : c.sending = false := by simpa using hs
      rw [hf] at h
      simp at h
      simp [h, hf]
  · by_cases h0 : c.inFlight = 0
    · exact Or.inl h0
    · exact Or.inr (step_requests_outstanding k c e hi (by omega))

theorem single_flight_witness :
    (step Variant.learned (step Variant.learned (sampleComponent 6) (Event.frame none)).1
        (Event.frame none)).1.inFlight ≤ 1 :=
  (single_flight Variant.learned (step Variant.learned (sampleComponent 6) (Event.frame none)).1
    (Reachable.step _ _ (Reachable.init _ rfl rfl)) (Event.frame none) true none).2.2.2.2.2.2.2.2.2.2

theorem frameCallback_cmds (c : Component) : (frameCallback c).2.cmds = [] := by
  unfold frameCallback
  by_cases ha : c.alive = true <;> by_cases hc : canSubmit c = true <;>
    simp [ha, hc, Effect.idle]

theorem sample_after_frame :
    (step Variant.learned (sampleComponent 6) (Event.frame none))
      = ({ sampleComponent 6 with pendingFrame := false, sending := true, inFlight := 1 },
         { requests := 1, cmds := [], registered := false }) := by
  simp [step, frameCallback, canSubmit, videoReady, sampleComponent, sampleVideo]

/-- C9 (the claim fails): from the sample component, the first frame submits
a mask request; while it is outstanding the second frame makes no context
call at all, submits nothing and registers nothing. -/
theorem second_frame_not_redrawn :
    (step Variant.learned (sampleComponent 6) (Event.frame none)).2.requests = 1 ∧
    (step Variant.learned (sampleComponent 6) (Event.frame none)).1.inFlight = 1 ∧
    (step Variant.learned (step Variant.learned (sampleComponent 6) (Event.frame none)).1
      (Event.frame none)).2 = Effect.idle ∧
    drawsOn Surface.out
      (step Variant.learned (step Variant.learned (sampleComponent 6) (Event.frame none)).1
        (Event.frame none)).2.cmds = [] := by
  rw [sample_after_frame]
  simp [step, Effect.idle, drawsOn, opsOn, draws]

/-- C9 (amended): in the learned component no frame callback is registered
while a mask request is outstanding, so a frame that becomes available then is
skipped: the state is unchanged, no second request is submitted and no context
call is made; and a frame callback never draws, whatever the state -- the
output is redrawn only by `onResults`. -/
theorem outstanding_frame_skipped (c : Component) (hr : Reachable Variant.learned c)
    (h : 0 < c.inFlight) (t : Option ℕ) (c' : Component) :
    step Variant.learned c (Event.frame t) = (c, Effect.idle) ∧
    (frameCallback c').2.cmds = [] := by
  have hi := reachable_inv _ c hr
  have hs : c.sending = true := by
    by_contra hne
    have hf : c.sending = false := by simpa using hne
    have := hi.1
    rw [hf] at this
    simp at this
    omega
  have hp : c.pendingFrame = false := hi.2 hs
  refine ⟨?_, frameCallback_cmds c'⟩
  unfold step
  simp [hp]

theorem outstanding_frame_skipped_witness :
    step Variant.learned (step Variant.learned (sampleComponent 6) (Event.frame none)).1
        (Event.frame none)
      = ((step Variant.learned (sampleComponent 6) (Event.frame none)).1, Effect.idle) ∧
    (frameCallback (sampleComponent 6)).2.cmds = [] :=
  outstanding_frame_skipped (step Variant.learned (sampleComponent 6) (Event.frame none)).1
    (Reachable.step _ _ (Reachable.init _ rfl rfl))
    (by rw [sample_after_frame]; decide) none (sampleComponent 6)

/-- C10 (the code at the failing input): after the first frame submitted a
request and `remove()` ran, the component is not alive, a frame callback and
the continuation of the awaited send do nothing observable, but `onResults`
still clears the output and draws video, mask and plate on it. -/
theorem onResults_draws_after_remove :
    (step Variant.learned (step Variant.learned (sampleComponent 6) (Event.frame none)).1
      Event.remove).1.alive = false ∧
    (frameCallback (step Variant.learned
        (step Variant.learned (sampleComponent 6) (Event.frame none)).1 Event.remove).1).2
      = Effect.idle ∧
    (afterSend (step Variant.learned
        (step Variant.learned (sampleComponent 6) (Event.frame none)).1 Event.remove).1 true).2
      = Effect.idle ∧
    (drawsOn Surface.out (step Variant.learned
        (step Variant.learned (step Variant.learned (sampleComponent 6) (Event.frame none)).1
          Event.remove).1 (Event.results sampleResults)).2.cmds).map (fun d => d.src)
      = [Source.video [], Source.segmentationMask [], Source.bgCanvas []] := by
  rw [sample_after_frame]
  refine ⟨rfl, ?_, ?_, ?_⟩
  · simp [step, remove, frameCallback]
  · simp [step, remove, afterSend, scheduleNext, Effect.idle]
  · have hact : effectActive (remove { sampleComponent 6 with
        pendingFrame := false, sending := true, inFlight := 1 }) = true := by decide
    have hv : (remove { sampleComponent 6 with
        pendingFrame := false, sending := true, inFlight := 1 }).video = some sampleVideo := rfl
    have hbg : (remove { sampleComponent 6 with
        pendingFrame := false, sending := true, inFlight := 1 }).bgCanvas.pixels = [] := rfl
    have hb : blurBase (remove { sampleComponent 6 with
        pendingFrame := false, sending := true, inFlight := 1 }) = 6 :=
      blurBase_of_lt _ 6 (by simp [remove, sampleComponent]) (by norm_num) (by norm_num)
    have hpx : blurPx (remove { sampleComponent 6 with
        pendingFrame := false, sending := true, inFlight := 1 }) = 6 := by
      unfold blurPx
      rw [hb]
      simp [dprOr1, remove, sampleComponent]
    simp only [step, hv]
    rw [onResults_draws_active _ _ _ hact, hbg]
    unfold maskDrawList
    rw [hpx, hb]
    norm_num [sampleVideo, sampleResults]

/-! ## UI setters, viewport fit and capture: theorems -/

/-- C11 (the claim fails for negative numbers): `setBlur(-5)` stores -5,
which is not a non-negative number. -/
theorem setBlur_stores_negative :
    (setBlur (sampleComponent 6) (some (-5))).data.blur = -5 ∧
    ¬ (0 ≤ (setBlur (sampleComponent 6) (some (-5))).data.blur) := by
  have h : (setBlur (sampleComponent 6) (some (-5))).data.blur = -5 := by
    simp [setBlur, numberOr]
  refine ⟨h, ?_⟩
  rw [h]
  norm_num

/-- C11 (amended): `setBlur` stores the numeric conversion of its argument
as it is -- a finite number `q` is stored unchanged, so the stored value is
non-negative exactly when `q` is -- and a non-numeric argument (NaN) stores 0;
the radius the compositor reads, `max(0, blur | 0)`, and the device-pixel
radius derived from it are non-negative whatever was stored. -/
theorem setBlur_spec (c : Component) (q : ℚ) :
    (setBlur c (some q)).data.blur = q ∧
    (setBlur c none).data.blur = 0 ∧
    (0 ≤ (setBlur c (some q)).data.blur ↔ 0 ≤ q) ∧
    0 ≤ blurBase (setBlur c (some q)) ∧ 0 ≤ blurBase (setBlur c none) := by
  have h : (setBlur c (some q)).data.blur = q := by
    unfold setBlur numberOr
    by_cases hq : q = 0 <;> simp [hq]
  refine ⟨h, rfl, ?_, blurBase_nonneg _, blurBase_nonneg _⟩
  rw [h]

theorem numberOr_of_ne_zero (q d : ℚ) (hq : q ≠ 0) : numberOr (some q) d = q := by
  simp [numberOr, hq]

/-- C12 (the code at the failing input): `setWhiteThreshold(0)` stores 180,
although 0 lies in [0,255] and is what `setWhiteThreshold(-1)` stores; every
other value of [0,255], such as 1 and 255, is stored unchanged. -/
theorem setWhiteThreshold_zero_stores_180 :
    (setWhiteThreshold (sampleComponent 6) (some 0)).data.whiteThreshold = 180 ∧
    (setWhiteThreshold (sampleComponent 6) (some (-1))).data.whiteThreshold = 0 ∧
    (setWhiteThreshold (sampleComponent 6) (some 1)).data.whiteThreshold = 1 ∧
    (setWhiteThreshold (sampleComponent 6) (some 255)).data.whiteThreshold = 255 ∧
    (setWhiteThreshold (sampleComponent 6) (some 300)).data.whiteThreshold = 255 := by
  refine ⟨?_, ?_, ?_, ?_, ?_⟩ <;> norm_num [setWhiteThreshold, numberOr]

/-- Away from zero `setWhiteThreshold` clamps as described. -/
theorem setWhiteThreshold_of_ne_zero (c : Component) (q : ℚ) (hq : q ≠ 0) :
    (setWhiteThreshold c (some q)).data.whiteThreshold = min 255 (max 0 q) := by
  unfold setWhiteThreshold
  simp only [numberOr_of_ne_zero q 180 hq]
  rcases le_total q 0 with h0 | h0
  · have h1 : min 255 q = q := min_eq_right (by linarith)
    rw [h1, max_eq_left h0, min_eq_right (by norm_num)]
  · rw [max_eq_right h0]
    exact max_eq_right (le_min (by norm_num) h0)

theorem fitDpr_bounds (d : Option ℚ) : 1 ≤ fitDpr d ∧ fitDpr d ≤ 3 := by
  unfold fitDpr
  exact ⟨le_max_left _ _, max_le (by norm_num) (min_le_right _ _)⟩

theorem floor_scaled_pos_iff (n : ℕ) (d : ℚ) (h1 : 1 ≤ d) :
    1 ≤ ⌊fl ((n : ℚ) * d)⌋.toNat ↔ 1 ≤ n := by
  constructor
  · intro h
    by_contra hn
    have h0 : n = 0 := by omega
    rw [h0] at h
    simp [fl_zero] at h
  · intro hn
    have hq : (1 : ℚ) ≤ (n : ℚ) * d := by
      have : (1 : ℚ) ≤ (n : ℚ) := by exact_mod_cast hn
      nlinarith
    have hfl : (1 : ℚ) ≤ fl ((n : ℚ) * d) := by
      have hm := fl_mono hq
      have e1 : fl (1 : ℚ) = ((1 : ℕ) : ℚ) := fl_eq_nat _ 1 (by norm_num) (by norm_num)
      rw [e1] at hm
      exact_mod_cast hm
    have hf : (1 : ℤ) ≤ ⌊fl ((n : ℚ) * d)⌋ := by
      rw [Int.le_floor]
      exact_mod_cast hfl
    omega

theorem fitOverlayToViewport_size (c : Component) (iw ih : ℕ) (d : Option ℚ) :
    (fitOverlayToViewport c iw ih d).outCanvas.width = ⌊fl ((iw : ℚ) * fitDpr d)⌋.toNat ∧
    (fitOverlayToViewport c iw ih d).outCanvas.height = ⌊fl ((ih : ℚ) * fitDpr d)⌋.toNat := by
  unfold fitOverlayToViewport
  simp only []
  split
  · exact ⟨rfl, rfl⟩
  · rename_i h
    rw [not_or, not_not, not_not] at h
    exact h

theorem fl_12 : fl (1.2 : ℚ) = 5404319552844595 * 2 ^ (-52 : ℤ) := by
  have h := fl_eq_of (q := (1.2 : ℚ)) (e := 0) (n := 5404319552844595)
    (by norm_num) (by norm_num) (by norm_num)
    (by rw [abs_lt]; constructor <;> norm_num)
  rw [h]
  norm_num

/-- The viewport fit rounds the product before the floor, as the code does:
a 1280 by 720 viewport at the device pixel ratio 1.2 (the double) gives a
1536 by 864 raster, where the exact product would floor to 1535 by 863. -/
theorem fit_1280x720_at_12 (c : Component) :
    (fitOverlayToViewport c 1280 720 (some (fl 1.2))).outCanvas.width = 1536 ∧
    (fitOverlayToViewport c 1280 720 (some (fl 1.2))).outCanvas.height = 864 ∧
    ⌊((1280 : ℕ) : ℚ) * fl 1.2⌋ = 1535 ∧ ⌊((720 : ℕ) : ℚ) * fl 1.2⌋ = 863 := by
  have hd : fitDpr (some (fl 1.2)) = 5404319552844595 * 2 ^ (-52 : ℤ) := by
    unfold fitDpr numberOr
    rw [fl_12]
    norm_num
  have hs := fitOverlayToViewport_size c 1280 720 (some (fl 1.2))
  have hw : fl (((1280 : ℕ) : ℚ) * (5404319552844595 * 2 ^ (-52 : ℤ))) = 1536 := by
    have h := fl_eq_of (q := ((1280 : ℕ) : ℚ) * (5404319552844595 * 2 ^ (-52 : ℤ))) (e := 10)
      (n := 6755399441055744)
      (by norm_num) (by norm_num) (by norm_num)
      (by rw [abs_lt]; constructor <;> norm_num)
    rw [h]
    norm_num
  have hh : fl (((720 : ℕ) : ℚ) * (5404319552844595 * 2 ^ (-52 : ℤ))) = 864 := by
    have h := fl_eq_of (q := ((720 : ℕ) : ℚ) * (5404319552844595 * 2 ^ (-52 : ℤ))) (e := 9)
      (n := 7599824371187712)
      (by norm_num) (by norm_num) (by norm_num)
      (by rw [abs_lt]; constructor <;> norm_num)
    rw [h]
    norm_num
  refine ⟨?_, ?_, ?_, ?_⟩
  · rw [hs.1, hd, hw]
    norm_num
    rfl
  · rw [hs.2, hd, hh]
    norm_num
    rfl
  · rw [fl_12, Int.floor_eq_iff]
    norm_num
  · rw [fl_12, Int.floor_eq_iff]
    norm_num

theorem maskOps_draw_mem (c : Component) (results : Results) :
    Op.drawImage (Source.segmentationMask results.segmentationMask) 0 0
        results.imageWidth results.imageHeight
        (coverFit results.imageWidth results.imageHeight c.outCanvas.width c.outCanvas.height)
      ∈ maskOps c results := by
  unfold maskOps
  by_cases hb : blurPx c > 0
  · by_cases h12 : blurBase c > 12
    · have hp := (passes_bounds (blurBase c) h12).1
      simp only [hb, h12, if_true, List.mem_cons, List.mem_flatMap, List.mem_range]
      right
      refine ⟨0, by omega, ?_⟩
      simp
    · simp [hb, h12]
  · simp [hb]

theorem mathMax_posInf (b : JSNum) :
    mathMax JSNum.posInf b = JSNum.posInf ∨ mathMax JSNum.posInf b = JSNum.nan := by
  cases b <;> simp [mathMax]

theorem mathMax_posInf_right (a : JSNum) :
    mathMax a JSNum.posInf = JSNum.posInf ∨ mathMax a JSNum.posInf = JSNum.nan := by
  cases a <;> simp [mathMax]

theorem mathMax_nan_right (a : JSNum) : mathMax a JSNum.nan = JSNum.nan := by
  cases a <;> simp [mathMax]

theorem numMul_zero_nonfinite (s : JSNum) (h : s = JSNum.posInf ∨ s = JSNum.nan) :
    numMul (JSNum.fin 0) s = JSNum.nan := by
  rcases h with h | h <;> simp [h, numMul]

/-- A zero source width makes the rectangle's width NaN. -/
theorem coverFitNum_zero_width (vh : ℚ) (w h : ℕ) :
    (coverFitNum 0 vh w h).dw = JSNum.nan := by
  unfold coverFitNum
  simp only []
  apply numMul_zero_nonfinite
  by_cases hw : (w : ℚ) = 0
  · right
    simp [numDiv, hw, mathMax]
  · have hpos : (0 : ℚ) < (w : ℚ) := lt_of_le_of_ne (Nat.cast_nonneg w) (Ne.symm hw)
    have e : numDiv (JSNum.fin (w : ℚ)) (JSNum.fin 0) = JSNum.posInf := by
      simp [numDiv, hw, hpos]
    rw [e]
    exact mathMax_posInf _

/-- A zero source height makes the rectangle's height NaN. -/
theorem coverFitNum_zero_height (vw : ℚ) (w h : ℕ) :
    (coverFitNum vw 0 w h).dh = JSNum.nan := by
  unfold coverFitNum
  simp only []
  apply numMul_zero_nonfinite
  by_cases hh : (h : ℚ) = 0
  · right
    simp [numDiv, hh, mathMax_nan_right]
  · have hpos : (0 : ℚ) < (h : ℚ) := lt_of_le_of_ne (Nat.cast_nonneg h) (Ne.symm hh)
    have e : numDiv (JSNum.fin (h : ℚ)) (JSNum.fin 0) = JSNum.posInf := by
      simp [numDiv, hh, hpos]
    rw [e]
    exact mathMax_posInf_right _

/-- The rectangle computed on JavaScript numbers is the finite rectangle of
`coverFit` exactly when neither source dimension is zero. -/
theorem coverFitNum_eq_iff (vw vh w h : ℕ) :
    coverFitNum vw vh w h = (coverFit vw vh w h).toNum ↔ (vw ≠ 0 ∧ vh ≠ 0) := by
  constructor
  · intro heq
    constructor
    · intro h0
      have hd := congrArg RectNum.dw heq
      rw [h0] at hd
      have hz := coverFitNum_zero_width (vh : ℚ) w h
      simp only [Nat.cast_zero] at hd
      rw [hz] at hd
      simp [Rect.toNum] at hd
    · intro h0
      have hd := congrArg RectNum.dh heq
      rw [h0] at hd
      have hz := coverFitNum_zero_height (vw : ℚ) w h
      simp only [Nat.cast_zero] at hd
      rw [hz] at hd
      simp [Rect.toNum] at hd
  · rintro ⟨h1, h2⟩
    have h1q : (vw : ℚ) ≠ 0 := by exact_mod_cast h1
    have h2q : (vh : ℚ) ≠ 0 := by exact_mod_cast h2
    simp [coverFitNum, coverFit, Rect.toNum, numDiv, numMul, numSub, mathMax, h1q, h2q]

/-- C13 (the claim fails): on a 0 by 0 viewport `_fitOverlayToViewport`
sizes the output raster to 0 by 0, not 1 by 1. -/
theorem viewport_zero_not_clamped :
    (fitOverlayToViewport (sampleComponent 6) 0 0 (some 2)).outCanvas.width = 0 ∧
    (fitOverlayToViewport (sampleComponent 6) 0 0 (some 2)).outCanvas.height = 0 := by
  have h := fitOverlayToViewport_size (sampleComponent 6) 0 0 (some 2)
  rw [h.1, h.2]
  simp [fl_zero]

/-- C13 (amended): no dimension is clamped to 1.  `_fitOverlayToViewport`
clamps the device pixel ratio to [1,3] and sizes the output raster to
`floor(cssW * dpr)` by `floor(cssH * dpr)`, the products being doubles, which
is at least 1 in a dimension exactly when the viewport is; `_drawVideoTo`
replaces a zero video dimension by the internal one, which
`_startWhenVideoReady` sets to `videoWidth || 640` by `videoHeight || 480`, so
its source size is never zero once the component is sized; the mask
projections of `onResults` and `_processFrame` take the mask's size as it is,
their rectangle is the finite cover rectangle exactly when neither mask
dimension is zero, and for a 0 by 0 mask its width and height are NaN. -/
theorem geometry_spec (k : Variant) (c : Component) (v : Video) (results : Results)
    (iw ih : ℕ) (d : Option ℚ) :
    (1 ≤ fitDpr d ∧ fitDpr d ≤ 3) ∧
    (fitOverlayToViewport c iw ih d).dpr = some (fitDpr d) ∧
    (fitOverlayToViewport c iw ih d).outCanvas.width = ⌊fl ((iw : ℚ) * fitDpr d)⌋.toNat ∧
    (fitOverlayToViewport c iw ih d).outCanvas.height = ⌊fl ((ih : ℚ) * fitDpr d)⌋.toNat ∧
    (1 ≤ (fitOverlayToViewport c iw ih d).outCanvas.width ↔ 1 ≤ iw) ∧
    (1 ≤ (fitOverlayToViewport c iw ih d).outCanvas.height ↔ 1 ≤ ih) ∧
    orElse v.videoWidth (sizeToVideo k c v iw ih d).internalW ≠ 0 ∧
    orElse v.videoHeight (sizeToVideo k c v iw ih d).internalH ≠ 0 ∧
    Op.drawImage (Source.segmentationMask results.segmentationMask) 0 0
        results.imageWidth results.imageHeight
        (coverFit results.imageWidth results.imageHeight c.outCanvas.width c.outCanvas.height)
      ∈ maskOps c results ∧
    (Surface.temp, Op.drawImage Source.maskCanvas 0 0 c.workCanvas.width c.workCanvas.height
        (coverFit c.workCanvas.width c.workCanvas.height c.outCanvas.width c.outCanvas.height))
      ∈ cloakOps c v ∧
    (coverFitNum results.imageWidth results.imageHeight c.outCanvas.width c.outCanvas.height
        = (coverFit results.imageWidth results.imageHeight
            c.outCanvas.width c.outCanvas.height).toNum ↔
      (results.imageWidth ≠ 0 ∧ results.imageHeight ≠ 0)) ∧
    (coverFitNum c.workCanvas.width c.workCanvas.height c.outCanvas.width c.outCanvas.height
        = (coverFit c.workCanvas.width c.workCanvas.height
            c.outCanvas.width c.outCanvas.height).toNum ↔
      (c.workCanvas.width ≠ 0 ∧ c.workCanvas.height ≠ 0)) ∧
    (coverFitNum 0 0 c.outCanvas.width c.outCanvas.height).dw = JSNum.nan ∧
    (coverFitNum 0 0 c.outCanvas.width c.outCanvas.height).dh = JSNum.nan := by
  have hb := fitDpr_bounds d
  have hs := fitOverlayToViewport_size c iw ih d
  refine ⟨hb, rfl, hs.1, hs.2, ?_, ?_, ?_, ?_, maskOps_draw_mem c results, ?_,
    coverFitNum_eq_iff _ _ _ _, coverFitNum_eq_iff _ _ _ _,
    coverFitNum_zero_width 0 _ _, coverFitNum_zero_height 0 _ _⟩
  · rw [hs.1]
    exact floor_scaled_pos_iff iw _ hb.1
  · rw [hs.2]
    exact floor_scaled_pos_iff ih _ hb.1
  · have hi : (sizeToVideo k c v iw ih d).internalW = natOr v.videoWidth 640 := by
      cases k <;> rfl
    rw [hi]
    unfold orElse natOr
    by_cases h0 : v.videoWidth = 0 <;> simp [h0]
  · have hi : (sizeToVideo k c v iw ih d).internalH = natOr v.videoHeight 480 := by
      cases k <;> rfl
    rw [hi]
    unfold orElse natOr
    by_cases h0 : v.videoHeight = 0 <;> simp [h0]
  · simp [cloakOps]

/-- C14 (the claim fails): with a video element that has no frame data yet
(`videoWidth = videoHeight = 0`, `readyState = 0`) `captureBackground` is not
a no-op: it resizes the plate and sets `bgReady`. -/
theorem capture_without_frame_data :
    ({ sampleComponent 6 with
        video := some { videoWidth := 0, videoHeight := 0, readyState := 0, frame := [] },
        bgReady := false,
        bgCanvas := { width := 640, height := 480, pixels := [] } } : Component).bgReady
      = false ∧
    (captureBackground { sampleComponent 6 with
        video := some { videoWidth := 0, videoHeight := 0, readyState := 0, frame := [] },
        bgReady := false,
        bgCanvas := { width := 640, height := 480, pixels := [] } }).1.bgReady = true ∧
    (captureBackground { sampleComponent 6 with
        video := some { videoWidth := 0, videoHeight := 0, readyState := 0, frame := [] },
        bgReady := false,
        bgCanvas := { width := 640, height := 480, pixels := [] } }).1.bgCanvas.width = 390 ∧
    (captureBackground { sampleComponent 6 with
        video := some { videoWidth := 0, videoHeight := 0, readyState := 0, frame := [] },
        bgReady := false,
        bgCanvas := { width := 640, height := 480, pixels := [] } }).2 ≠ [] := by
  refine ⟨rfl, rfl, rfl, ?_⟩
  simp [captureBackground, sampleComponent]

/-- C14 (amended): `captureBackground` is a no-op exactly when no video
element has been found; once one is found, with or without frame data, it
sets the plate's size to the output canvas's, makes on the plate the single
cover-fit video draw of `_drawVideoTo` between `save` and `restore` with no
mirror transform whatever `mirror` is, and sets `bgReady`. -/
theorem captureBackground_spec (c : Component) (v : Video) :
    captureBackground { c with video := none } = ({ c with video := none }, []) ∧
    (captureBackground { c with video := some v }).1.bgReady = true ∧
    (captureBackground { c with video := some v }).1.bgCanvas.width = c.outCanvas.width ∧
    (captureBackground { c with video := some v }).1.bgCanvas.height = c.outCanvas.height ∧
    (captureBackground { c with video := some v }).2
      = [(Surface.bg, Op.save),
         (Surface.bg, Op.drawImage (Source.video v.frame) 0 0
            (orElse v.videoWidth c.internalW) (orElse v.videoHeight c.internalH)
            (drawVideoTo v.videoWidth v.videoHeight c.internalW c.internalH
              c.outCanvas.width c.outCanvas.height)),
         (Surface.bg, Op.restore)] ∧
    (captureBackground { c with video := some v, data := { c.data with mirror := true } }).2
      = (captureBackground
          { c with video := some v, data := { c.data with mirror := false } }).2 := by
  refine ⟨rfl, rfl, rfl, rfl, ?_, ?_⟩
  · simp [captureBackground, drawVideoCall]
  · simp [captureBackground, drawVideoCall]

/-! ## Mirror alignment: theorems -/

theorem placed_passes (n : ℕ) (f : Option ℚ) (src : Source) (a b w h : ℚ) (r : Rect) :
    ∀ (rest : List Op) (ctm : Affine) (stack : List Affine),
    placed ((List.range n).flatMap (fun _ => [Op.setFilter f, Op.drawImage src a b w h r])
        ++ rest) ctm stack
      = List.replicate n
          { src := src,
            map := ctm.comp { kx := r.dw / w, tx := r.dx - a * (r.dw / w),
                              ky := r.dh / h, ty := r.dy - b * (r.dh / h) } }
        ++ placed rest ctm stack := by
  induction n with
  | zero =>
    intro rest ctm stack
    simp
  | succ n ih =>
    intro rest ctm stack
    rw [List.range_succ, List.flatMap_append]
    simp only [List.flatMap_cons, List.flatMap_nil, List.append_nil, List.append_assoc,
      List.cons_append, List.nil_append]
    rw [ih, List.replicate_succ', List.append_assoc]
    simp [placed]

theorem orElse_cast_of_ne_zero (n m : ℕ) (hn : n ≠ 0) : orElse (n : ℚ) (m : ℚ) = n := by
  unfold orElse
  have : (n : ℚ) ≠ 0 := by exact_mod_cast hn
  simp [this]

theorem onResults_placed_list (c : Component) (v : Video) (results : Results) :
    ∃ k : ℕ, (effectActive c = true → 1 ≤ k) ∧ placedOn Surface.out (onResults c v results).2
      = { src := Source.video v.frame,
          map := (mirrorCtm c.data.mirror c.outCanvas.width).comp
            (rectMap 0 0 (orElse v.videoWidth c.internalW) (orElse v.videoHeight c.internalH)
              (drawVideoTo v.videoWidth v.videoHeight c.internalW c.internalH
                c.outCanvas.width c.outCanvas.height)) }
        :: (if effectActive c then
              List.replicate k
                { src := Source.segmentationMask results.segmentationMask,
                  map := (mirrorCtm c.data.mirror c.outCanvas.width).comp
                    (rectMap 0 0 results.imageWidth results.imageHeight
                      (coverFit results.imageWidth results.imageHeight
                        c.outCanvas.width c.outCanvas.height)) }
              ++ [{ src := Source.bgCanvas c.bgCanvas.pixels,
                    map := (mirrorCtm c.data.mirror c.outCanvas.width).comp
                      (rectMap 0 0 c.bgCanvas.width c.bgCanvas.height
                        { dx := 0, dy := 0, dw := c.outCanvas.width,
                          dh := c.outCanvas.height }) }]
            else []) := by
  unfold placedOn onResults onResultsOps
  simp only [opsOn_map]
  unfold maskOps
  by_cases ha : effectActive c = true
  · by_cases hb : blurPx c > 0
    · by_cases h12 : blurBase c > 12
      · refine ⟨(min 3 ⌊(blurBase c : ℚ) / 8⌋).toNat, fun _ => ?_, ?_⟩
        · have := (passes_bounds (blurBase c) h12).1
          omega
        · by_cases hm : c.data.mirror = true <;>
            simp [mirrorOps, hm, ha, hb, h12, placed, placed_passes, drawVideoCall, plateOps,
              mirrorCtm, rectMap]
      · refine ⟨1, fun _ => le_refl 1, ?_⟩
        by_cases hm : c.data.mirror = true <;>
          simp [mirrorOps, hm, ha, hb, h12, placed, drawVideoCall, plateOps,
            mirrorCtm, rectMap]
    · refine ⟨1, fun _ => le_refl 1, ?_⟩
      by_cases hm : c.data.mirror = true <;>
        simp [mirrorOps, hm, ha, hb, placed, drawVideoCall, plateOps, mirrorCtm, rectMap]
  · refine ⟨0, fun h => absurd h ha, ?_⟩
    by_cases hm : c.data.mirror = true <;>
      simp [mirrorOps, hm, ha, placed, drawVideoCall, mirrorCtm, rectMap]

theorem processFrame_placed_out (c : Component) (v : Video) :
    placedOn Surface.out (processFrame c v).2
      = { src := Source.video v.frame,
          map := (mirrorCtm c.data.mirror c.outCanvas.width).comp
            (rectMap 0 0 (orElse v.videoWidth c.internalW) (orElse v.videoHeight c.internalH)
              (drawVideoTo v.videoWidth v.videoHeight c.internalW c.internalH
                c.outCanvas.width c.outCanvas.height)) }
        :: (if effectActive c then
              [{ src := Source.tempCanvas,
                 map := (mirrorCtm c.data.mirror c.outCanvas.width).comp
                   { kx := 1, tx := 0, ky := 1, ty := 0 } },
               { src := Source.bgCanvas c.bgCanvas.pixels,
                 map := (mirrorCtm c.data.mirror c.outCanvas.width).comp
                   (rectMap 0 0 c.bgCanvas.width c.bgCanvas.height
                     { dx := 0, dy := 0, dw := c.outCanvas.width,
                       dh := c.outCanvas.height }) }]
            else []) := by
  unfold placedOn processFrame processFrameCmds cloakOps tempBlurOps
  by_cases hm : c.data.mirror = true <;> by_cases ha : effectActive c = true <;>
    by_cases hb : blurPx c > 0 <;>
    simp [opsOn, mirrorOps, hm, ha, hb, placed, drawVideoCall, plateOps, mirrorCtm, rectMap]

theorem processFrame_placed_temp (c : Component) (v : Video) :
    placedOn Surface.temp (processFrame c v).2
      = if effectActive c then
          { src := Source.maskCanvas,
            map := Affine.id.comp
              (rectMap 0 0 c.workCanvas.width c.workCanvas.height
                (coverFit c.workCanvas.width c.workCanvas.height
                  c.outCanvas.width c.outCanvas.height)) }
            :: (if blurPx c > 0 then
                  [{ src := Source.tempCanvas,
                     map := Affine.id.comp { kx := 1, tx := 0, ky := 1, ty := 0 } }]
                else [])
        else [] := by
  unfold placedOn processFrame processFrameCmds cloakOps tempBlurOps
  by_cases hm : c.data.mirror = true <;> by_cases ha : effectActive c = true <;>
    by_cases hb : blurPx c > 0 <;>
    simp [opsOn, mirrorOps, hm, ha, hb, placed, drawVideoCall, plateOps, rectMap]

theorem mirror_rect_apply (mirror : Bool) (vw vh W H : ℚ) (p : ℚ × ℚ) :
    ((mirrorCtm mirror W).comp (rectMap 0 0 vw vh (coverFit vw vh W H))).apply p
      = projectPoint mirror vw vh W H p := by
  cases mirror
  · simp only [mirrorCtm, rectMap, Affine.comp, Affine.apply, Affine.id, projectPoint,
      Bool.false_eq_true, if_false]
    refine Prod.ext ?_ ?_ <;> simp only [] <;> ring
  · simp only [mirrorCtm, rectMap, Affine.comp, Affine.apply, Affine.id, projectPoint, if_true]
    refine Prod.ext ?_ ?_ <;> simp only [] <;> ring

theorem mirror_temp_apply (mirror : Bool) (vw vh W H : ℚ) (p : ℚ × ℚ) :
    ((mirrorCtm mirror W).comp { kx := 1, tx := 0, ky := 1, ty := 0 }).apply
        ((Affine.id.comp (rectMap 0 0 vw vh (coverFit vw vh W H))).apply p)
      = projectPoint mirror vw vh W H p := by
  cases mirror
  · simp only [mirrorCtm, rectMap, Affine.comp, Affine.apply, Affine.id, projectPoint,
      Bool.false_eq_true, if_false]
    refine Prod.ext ?_ ?_ <;> simp only [] <;> ring
  · simp only [mirrorCtm, rectMap, Affine.comp, Affine.apply, Affine.id, projectPoint, if_true]
    refine Prod.ext ?_ ?_ <;> simp only [] <;> ring

/-- C15: with a mask at the video's resolution (the segmentation result in
`onResults`, the work canvas in `_processFrame`), every video draw and every
mask draw puts the source point `p` at the same output point, the one given by
the cover-fit rectangle of the video and, when `mirror` is set, the flip
`x -> W - x`: in `onResults` the mask is drawn under the video's transform, in
`_processFrame` it is projected unmirrored into the temp canvas, which is then
drawn at the origin under the mirrored output context.  The draws exist: the
video always, the mask ones when the effect is active. -/
theorem mirror_alignment (c : Component) (v : Video) (results : Results) (p : ℚ × ℚ)
    (hvw : v.videoWidth ≠ 0) (hvh : v.videoHeight ≠ 0)
    (hrw : results.imageWidth = v.videoWidth) (hrh : results.imageHeight = v.videoHeight)
    (hww : c.workCanvas.width = v.videoWidth) (hwh : c.workCanvas.height = v.videoHeight) :
    (∀ pl ∈ placedOn Surface.out (onResults c v results).2,
      (pl.src = Source.video v.frame ∨
        pl.src = Source.segmentationMask results.segmentationMask) →
      pl.map.apply p = projectPoint c.data.mirror v.videoWidth v.videoHeight
        c.outCanvas.width c.outCanvas.height p) ∧
    (∃ pl ∈ placedOn Surface.out (onResults c v results).2, pl.src = Source.video v.frame) ∧
    (effectActive c = false ∨
      ∃ pl ∈ placedOn Surface.out (onResults c v results).2,
        pl.src = Source.segmentationMask results.segmentationMask) ∧
    (∀ pl ∈ placedOn Surface.out (processFrame c v).2, pl.src = Source.video v.frame →
      pl.map.apply p = projectPoint c.data.mirror v.videoWidth v.videoHeight
        c.outCanvas.width c.outCanvas.height p) ∧
    (∀ pt ∈ placedOn Surface.temp (processFrame c v).2, pt.src = Source.maskCanvas →
      ∀ po ∈ placedOn Surface.out (processFrame c v).2, po.src = Source.tempCanvas →
        po.map.apply (pt.map.apply p) = projectPoint c.data.mirror v.videoWidth v.videoHeight
          c.outCanvas.width c.outCanvas.height p) ∧
    (effectActive c = false ∨
      ((∃ pt ∈ placedOn Surface.temp (processFrame c v).2, pt.src = Source.maskCanvas) ∧
       (∃ po ∈ placedOn Surface.out (processFrame c v).2, po.src = Source.tempCanvas))) := by
  have hw := orElse_cast_of_ne_zero v.videoWidth c.internalW hvw
  have hh := orElse_cast_of_ne_zero v.videoHeight c.internalH hvh
  have hdv : drawVideoTo v.videoWidth v.videoHeight c.internalW c.internalH
      c.outCanvas.width c.outCanvas.height
        = coverFit v.videoWidth v.videoHeight c.outCanvas.width c.outCanvas.height := by
    unfold drawVideoTo
    simp only [hw, hh]
  obtain ⟨k, hk, hlist⟩ := onResults_placed_list c v results
  rw [hlist, processFrame_placed_out, processFrame_placed_temp, hw, hh, hdv, hrw, hrh, hww, hwh]
  refine ⟨?_, ⟨_, List.mem_cons_self _ _, rfl⟩, ?_, ?_, ?_, ?_⟩
  · intro pl hpl hsrc
    rw [List.mem_cons] at hpl
    rcases hpl with hpl | hpl
    · rw [hpl]
      exact mirror_rect_apply _ _ _ _ _ p
    · by_cases ha : effectActive c = true
      · simp only [ha, if_true, List.mem_append, List.mem_singleton] at hpl
        rcases hpl with hpl | hpl
        · rw [List.eq_of_mem_replicate hpl]
          exact mirror_rect_apply _ _ _ _ _ p
        · rw [hpl] at hsrc
          rcases hsrc with h | h <;> exact absurd h (by simp)
      · simp [ha] at hpl
  · by_cases ha : effectActive c = true
    · right
      obtain ⟨n, hn⟩ : ∃ n, k = n + 1 := ⟨k - 1, by have := hk ha; omega⟩
      refine ⟨Placed.mk (Source.segmentationMask results.segmentationMask)
        ((mirrorCtm c.data.mirror c.outCanvas.width).comp
          (rectMap 0 0 v.videoWidth v.videoHeight
            (coverFit v.videoWidth v.videoHeight c.outCanvas.width c.outCanvas.height))),
        ?_, rfl⟩
      simp [ha, hn, List.replicate_succ]
    · left
      simpa using ha
  · intro pl hpl hsrc
    rw [List.mem_cons] at hpl
    rcases hpl with hpl | hpl
    · rw [hpl]
      exact mirror_rect_apply _ _ _ _ _ p
    · by_cases ha : effectActive c = true
      · simp only [ha, if_true, List.mem_cons, List.mem_singleton, List.not_mem_nil,
          or_false] at hpl
        rcases hpl with hpl | hpl <;> rw [hpl] at hsrc <;> exact absurd hsrc (by simp)
      · simp [ha] at hpl
  · intro pt hpt hsrct po hpo hsrco
    by_cases ha : effectActive c = true
    · simp only [ha, if_true] at hpt hpo
      have hpt2 : pt = Placed.mk Source.maskCanvas
          (Affine.id.comp (rectMap 0 0 v.videoWidth v.videoHeight
            (coverFit v.videoWidth v.videoHeight c.outCanvas.width c.outCanvas.height))) := by
        rw [List.mem_cons] at hpt
        rcases hpt with hpt | hpt
        · exact hpt
        · by_cases hb : blurPx c > 0
          · simp only [hb, if_true, List.mem_singleton] at hpt
            rw [hpt] at hsrct
            exact absurd hsrct (by simp)
          · simp [hb] at hpt
      have hpo2 : po = Placed.mk Source.tempCanvas
          ((mirrorCtm c.data.mirror c.outCanvas.width).comp
            (Affine.mk 1 0 1 0)) := by
        simp only [List.mem_cons, List.mem_singleton, List.not_mem_nil, or_false] at hpo
        rcases hpo with hpo | hpo | hpo
        · rw [hpo] at hsrco
          exact absurd hsrco (by simp)
        · exact hpo
        · rw [hpo] at hsrco
          exact absurd hsrco (by simp)
      rw [hpt2, hpo2]
      exact mirror_temp_apply _ _ _ _ _ p
    · simp [ha] at hpt
  · by_cases ha : effectActive c = true
    · right
      simp [ha]
    · left
      simpa using ha

theorem mirror_alignment_witness :
    ∃ pl ∈ placedOn Surface.out (onResults (sampleComponent 6) sampleVideo sampleResults).2,
      pl.src = Source.video sampleVideo.frame :=
  (mirror_alignment
    { sampleComponent 6 with workCanvas := { width := 640, height := 480, pixels := [] } }
    sampleVideo sampleResults (100, 50)
    (by decide) (by decide) rfl rfl rfl rfl).2.1

/-! ## Threshold monotonicity: theorems -/

theorem isWhiteCloth_antitone (t₁ t₂ : ℚ) (ht : t₁ ≤ t₂) (r g b : ℕ)
    (h : isWhiteCloth t₂ r g b = true) : isWhiteCloth t₁ r g b = true := by
  rw [isWhiteCloth_iff] at h ⊢
  have h75 : fl ((0.75 : ℚ) * t₁) ≤ fl (0.75 * t₂) :=
    fl_mono (mul_le_mul_of_nonneg_left ht (by norm_num))
  have h7 : fl (fl (0.7 : ℚ) * t₁) ≤ fl (fl 0.7 * t₂) :=
    fl_mono (mul_le_mul_of_nonneg_left ht (fl_nonneg (by norm_num)))
  have h30 : fl (t₁ + 30) ≤ fl (t₂ + 30) := fl_mono (by linarith)
  rcases h with h | h | h
  · exact Or.inl ⟨lt_of_le_of_lt h75 h.1, h.2⟩
  · exact Or.inr (Or.inl ⟨⟨lt_of_le_of_lt h7 h.1.1, lt_of_le_of_lt h7 h.1.2.1,
      lt_of_le_of_lt h7 h.1.2.2⟩, h.2⟩)
  · refine Or.inr (Or.inr ?_)
    unfold ruleVeryBrightDouble at h ⊢
    exact lt_of_le_of_lt h30 h

theorem firstPass_antitone (t₁ t₂ : ℚ) (ht : t₁ ≤ t₂) (data : List ℕ) (p : ℕ)
    (hp : 4 * p + 3 < data.length) (h : Opaque (firstPass t₂ data) p) :
    Opaque (firstPass t₁ data) p := by
  rw [firstPass_opaque_iff _ data p hp] at h ⊢
  exact isWhiteCloth_antitone t₁ t₂ ht _ _ _ h

theorem detectWhiteCloth_opaque_iff (t : ℚ) (width height : ℕ) (data : List ℕ)
    (hlen : data.length = 4 * (width * height)) (x y : ℕ) (hx : x < width) (hy : y < height) :
    Opaque (detectWhiteCloth t width height data) (y * width + x) ↔
      (windowRatio (firstPass t data) width height x y > 0.3 ∨
        Opaque (firstPass t data) (y * width + x)) := by
  have hm : ∀ p, p < width * height →
      ((firstPass t data).getD (4 * p + 3) 0 > 0 ↔ Opaque (firstPass t data) p) :=
    fun p hp => firstPass_alpha_iff t data p (by omega)
  have hpix := secondPass_pixel width height (firstPass t data) x y hx hy
  simp only [] at hpix
  rw [countNeighbors_window width height _ x y hm] at hpix
  have e : (y * width + x) * 4 + 3 = 4 * (y * width + x) + 3 := by ring
  rw [e, hm _ (pixel_index_lt width height x y hx hy)] at hpix
  unfold detectWhiteCloth windowRatio
  refine ⟨fun ho => ?_, hpix.1⟩
  by_contra hno
  exact opaque_not_transparent _ _ ho (hpix.2 hno)

theorem windowRatio_antitone (t₁ t₂ : ℚ) (ht : t₁ ≤ t₂) (width height : ℕ) (data : List ℕ)
    (hlen : data.length = 4 * (width * height)) (x y : ℕ) :
    windowRatio (firstPass t₂ data) width height x y
      ≤ windowRatio (firstPass t₁ data) width height x y := by
  unfold windowRatio
  apply div_le_div_of_nonneg_right _ (by positivity)
  have hsub : windowOpaque (firstPass t₂ data) width height x y
      ⊆ windowOpaque (firstPass t₁ data) width height x y := by
    intro q hq
    unfold windowOpaque at hq ⊢
    rw [Finset.mem_filter] at hq ⊢
    refine ⟨hq.1, ?_⟩
    have hw : q ∈ window width height x y := hq.1
    unfold window at hw
    rw [Finset.mem_filter] at hw
    obtain ⟨_, hx0, hx1, hy0, hy1⟩ := hw
    have hxn : q.1.toNat < width := by omega
    have hyn : q.2.toNat < height := by omega
    have hidx := pixel_index_lt width height q.1.toNat q.2.toNat hxn hyn
    exact firstPass_antitone t₁ t₂ ht data _ (by omega) hq.2
  exact_mod_cast Finset.card_le_card hsub

/-- C16: lowering the white threshold only grows the mask: for thresholds
`t1 <= t2` every pixel of the frame that is opaque in the mask returned by
`_detectWhiteCloth` with threshold `t2` is opaque in the one returned with
threshold `t1`. -/
theorem mask_antitone_in_threshold (t₁ t₂ : ℚ) (ht : t₁ ≤ t₂) (width height : ℕ)
    (data : List ℕ) (hlen : data.length = 4 * (width * height)) (p : ℕ)
    (hp : p < width * height)
    (ho : Opaque (detectWhiteCloth t₂ width height data) p) :
    Opaque (detectWhiteCloth t₁ width height data) p := by
  have hw : 0 < width := by
    rcases Nat.eq_zero_or_pos width with h0 | h0
    · rw [h0, Nat.zero_mul] at hp
      omega
    · exact h0
  have hx : p % width < width := Nat.mod_lt _ hw
  have hy : p / width < height := by
    rw [Nat.div_lt_iff_lt_mul hw, Nat.mul_comm]
    exact hp
  have hpe : p / width * width + p % width = p := by
    rw [Nat.mul_comm]
    exact Nat.div_add_mod p width
  have h2 := detectWhiteCloth_opaque_iff t₂ width height data hlen _ _ hx hy
  have h1 := detectWhiteCloth_opaque_iff t₁ width height data hlen _ _ hx hy
  rw [hpe] at h1 h2
  rw [h1]
  rcases h2.1 ho with h | h
  · exact Or.inl (lt_of_lt_of_le h
      (windowRatio_antitone t₁ t₂ ht width height data hlen _ _))
  · exact Or.inr (firstPass_antitone t₁ t₂ ht data p (by omega) h)

theorem mask_antitone_in_threshold_witness :
    Opaque (detectWhiteCloth 180 2 1 [250, 248, 245, 255, 40, 60, 80, 255]) 0 :=
  mask_antitone_in_threshold 180 200 (by norm_num) 2 1 [250, 248, 245, 255, 40, 60, 80, 255]
    (by decide) 0 (by decide)
    ((secondPass_pixel 2 1 (firstPass 200 [250, 248, 245, 255, 40, 60, 80, 255]) 0 0
        (by decide) (by decide)).1
      (Or.inr ((firstPass_alpha_iff 200 [250, 248, 245, 255, 40, 60, 80, 255] 0
        (by decide)).2
        ((firstPass_pixel 200 [250, 248, 245, 255, 40, 60, 80, 255] 0 (by decide)).1
          sample_white))))

end Invisibility
